import Mathlib

/-!
Verification of the StackMap stream encoder
(src/compiler/optimizing/stack_map_stream.cc).

The single source file is embedded shallowly: the `StackMapStream` class
becomes a Lean structure, each member function a Lean function on it.
Debug assertions (DCHECK) abort the program in debug builds; they are
modelled by returning `Option.none`.  Machine integers are modelled as
`Nat` with explicit reductions modulo 2^32 where the source stores values
in `uint32_t` variables.  Bit vectors (the collaborator BitVector type)
are modelled as natural numbers read through `Nat.testBit`.

The reader-side API, the bit-packed record encodings and the header
compression live in headers that are not part of this repository snapshot;
those definitions are modelled from the specification and are marked
`Modelled from the spec:` in their doc comments.
-/

namespace art

/-- Reduction of a value stored in a C++ uint32_t variable. -/
def u32 (n : Nat) : Nat := n % 2 ^ 32

/-- Value of a C++ int32_t cast to uint32_t (used by the rolling hash). -/
def u32OfInt (v : Int) : Nat := (v % (2 ^ 32 : Int)).toNat

/-- DexFile::kDexNoIndex, i.e. static_cast of -1 to uint32_t. -/
def kDexNoIndex : Nat := 2 ^ 32 - 1

/-- Fuel-driven base-2 logarithm, so that it reduces by structural
recursion (agrees with Nat.log2, see log2C_eq). -/
def log2CAux : Nat → Nat → Nat
  | 0, _ => 0
  | fuel + 1, n => if 2 ≤ n then log2CAux fuel (n / 2) + 1 else 0

/-- Floor base-2 logarithm (computable by the kernel). -/
def log2C (n : Nat) : Nat := log2CAux n n

/-- MinimumBitsToStore from the bit-utils collaborator: number of bits needed
to store a value; per the spec this is ceil(log2(n+1)), clamped to 0 when the
value is 0. -/
def MinimumBitsToStore (n : Nat) : Nat := if n = 0 then 0 else log2C n + 1

/-- Fuel-driven helper so that popcount reduces by structural recursion. -/
def popcountAux : Nat → Nat → Nat
  | 0, _ => 0
  | fuel + 1, n => if n = 0 then 0 else popcountAux fuel (n / 2) + n % 2

/-- BitVector::NumSetBits on a bit vector encoded as a natural number. -/
def popcount (n : Nat) : Nat := popcountAux n n

/-- BitVector::GetHighestBitSet: index of the highest set bit, -1 when none. -/
def highestBitSet (n : Nat) : Int := if n = 0 then -1 else log2C n

/-- BitVector::GetNumberOfBits of a caller-supplied mask, modelled as the
number of meaningful bits (highest set bit + 1). -/
def numberOfBits (n : Nat) : Nat := MinimumBitsToStore n

/-- RoundUp(bits, kBitsPerByte) / kBitsPerByte. -/
def bitsToBytes (bits : Nat) : Nat := (bits + 7) / 8

/-- Lookup in an association list (model of the std / arena hash maps; only
find, insert and update-at-key are ever used, so iteration order of the
C++ containers is irrelevant). -/
def lookupAssoc {α β : Type} [DecidableEq α] : List (α × β) → α → Option β
  | [], _ => Option.none
  | (k, v) :: rest, a => if k = a then some v else lookupAssoc rest a

/-- Replace the value stored at a key of an association list. -/
def updateAssoc {α β : Type} [DecidableEq α] : List (α × β) → α → β → List (α × β)
  | [], _, _ => []
  | (k, v) :: rest, a, b => if k = a then (a, b) :: rest else (k, v) :: updateAssoc rest a b

/-- Contiguous slice of the shared catalog-index array:
elements [start, start+len). -/
def slice (l : List Nat) (start len : Nat) : List Nat := (l.drop start).take len

/-- DexRegisterLocation::Kind.  The enum is closed (spec section 3): None,
Constant, Register, FpuRegister, Stack, plus long-form variants that are
excluded at this stage. -/
inductive DexRegisterKind
  | kNone
  | kConstant
  | kInRegister
  | kInFpuRegister
  | kInStack
  | kConstantLargeValue
  | kInStackLargeOffset
deriving DecidableEq, Repr

/-- Numeric value of the kind as folded into the rolling hash
(static_cast of the enum; the spec notes the hash constants are not
load-bearing, so the ordinal is used). -/
def DexRegisterKind.toNat : DexRegisterKind → Nat
  | kNone => 0
  | kConstant => 1
  | kInRegister => 2
  | kInFpuRegister => 3
  | kInStack => 4
  | kConstantLargeValue => 5
  | kInStackLargeOffset => 6

/-- DexRegisterLocation::IsShortLocationKind: only short kinds may be
interned at this stage (the DCHECK in AddDexRegisterEntry). -/
def DexRegisterKind.isShort : DexRegisterKind → Bool
  | kConstant => true
  | kInRegister => true
  | kInFpuRegister => true
  | kInStack => true
  | _ => false

/-- A (kind, value) pair; the value is the int32_t payload. -/
structure DexRegisterLocation where
  kind : DexRegisterKind
  value : Int
deriving DecidableEq, Repr

/-- One safepoint entry, mirroring StackMapStream::StackMapEntry.  A
default-constructed entry is all zero / null, matching value
initialization of the C++ struct.  The live mask is a bit vector as Nat;
null pointers become `Option.none`.  `native_pc_code_offset` holds the
CodeOffset compressed value. -/
structure StackMapEntry where
  dex_pc : Nat := 0
  native_pc_code_offset : Nat := 0
  register_mask : Nat := 0
  sp_mask : Option Nat := Option.none
  num_dex_registers : Nat := 0
  inlining_depth : Nat := 0
  dex_register_locations_start_index : Nat := 0
  inline_infos_start_index : Nat := 0
  live_dex_registers_mask : Option Nat := Option.none
  dex_register_map_hash : Nat := 0
  same_dex_register_map_as_ : Option Nat := Option.none
  register_mask_index : Nat := 0
  stack_mask_index : Nat := 0
deriving DecidableEq, Repr

/-- One inline frame, mirroring StackMapStream::InlineInfoEntry.  `method`
is the ArtMethod pointer as an integer (`Option.none` = null). -/
structure InlineInfoEntry where
  dex_pc : Nat := 0
  method : Option Nat := Option.none
  method_index : Nat := 0
  num_dex_registers : Nat := 0
  live_dex_registers_mask : Option Nat := Option.none
  dex_register_locations_start_index : Nat := 0
deriving DecidableEq, Repr

/-- The encoder state (the fields of class StackMapStream).
`instruction_set_align` is GetInstructionSetInstructionAlignment of the
constructor's instruction-set argument (1, 2 or 4).  `stack_masks_` holds
one byte-packed slot per stack map, each slot modelled by its bit value.
`code_info_encoding_` is the serialized header buffer. -/
structure StackMapStream where
  instruction_set_align : Nat := 1
  stack_maps_ : List StackMapEntry := []
  location_catalog_entries_ : List DexRegisterLocation := []
  location_catalog_entries_indices_ : List (DexRegisterLocation × Nat) := []
  dex_register_locations_ : List Nat := []
  inline_infos_ : List InlineInfoEntry := []
  stack_mask_max_ : Int := -1
  dex_pc_max_ : Nat := 0
  register_mask_max_ : Nat := 0
  number_of_stack_maps_with_inline_info_ : Nat := 0
  dex_map_hash_to_stack_map_indices_ : List (Nat × List Nat) := []
  current_entry_ : StackMapEntry := {}
  current_inline_info_ : InlineInfoEntry := {}
  stack_masks_ : List Nat := []
  register_masks_ : List Nat := []
  in_inline_frame_ : Bool := false
  code_info_encoding_ : List Nat := []
  needed_size_ : Nat := 0
  current_dex_register_ : Nat := 0
deriving DecidableEq, Repr

/-- StackMapStream::BeginStackMapEntry (lines 29-65).  The uint32_t and
uint8_t parameters are reduced at entry; the two DCHECKs become the two
guards. -/
def StackMapStream.BeginStackMapEntry (s : StackMapStream) (dex_pc native_pc_offset
    register_mask : Nat) (sp_mask : Option Nat) (num_dex_registers : Nat)
    (inlining_depth : Nat) : Option StackMapStream :=
  let dex_pc := u32 dex_pc
  let native_pc_offset := u32 native_pc_offset
  let register_mask := u32 register_mask
  let num_dex_registers := u32 num_dex_registers
  let inlining_depth := inlining_depth % 2 ^ 8
  if s.current_entry_.dex_pc ≠ 0 then Option.none
  else if dex_pc = kDexNoIndex then Option.none
  else
    some { s with
      current_entry_ := { s.current_entry_ with
        dex_pc := dex_pc,
        native_pc_code_offset := native_pc_offset / s.instruction_set_align,
        register_mask := register_mask,
        sp_mask := sp_mask,
        num_dex_registers := num_dex_registers,
        inlining_depth := inlining_depth,
        dex_register_locations_start_index := s.dex_register_locations_.length,
        inline_infos_start_index := s.inline_infos_.length,
        dex_register_map_hash := 0,
        same_dex_register_map_as_ := Option.none,
        stack_mask_index := 0,
        live_dex_registers_mask :=
          if num_dex_registers ≠ 0 then some 0 else Option.none },
      stack_mask_max_ :=
        match sp_mask with
        | some m => max s.stack_mask_max_ (highestBitSet m)
        | Option.none => s.stack_mask_max_,
      number_of_stack_maps_with_inline_info_ :=
        if inlining_depth > 0 then s.number_of_stack_maps_with_inline_info_ + 1
        else s.number_of_stack_maps_with_inline_info_,
      dex_pc_max_ := max s.dex_pc_max_ dex_pc,
      register_mask_max_ := max s.register_mask_max_ register_mask,
      current_dex_register_ := 0 }

/-- The catalog-interning prefix of StackMapStream::AddDexRegisterEntry
(lines 77-91): look the location up in the catalog index map, append a
fresh catalog entry on a miss, and append the (old or new) catalog index
to the shared dex_register_locations_ array. -/
def addStage1 (s : StackMapStream) (location : DexRegisterLocation) : StackMapStream :=
  match lookupAssoc s.location_catalog_entries_indices_ location with
  | some index =>
    { s with dex_register_locations_ := s.dex_register_locations_ ++ [index] }
  | Option.none =>
    let index := s.location_catalog_entries_.length
    { s with
      location_catalog_entries_ := s.location_catalog_entries_ ++ [location],
      dex_register_locations_ := s.dex_register_locations_ ++ [index],
      location_catalog_entries_indices_ :=
        s.location_catalog_entries_indices_ ++ [(location, index)] }

/-- StackMapStream::AddDexRegisterEntry (lines 73-109).  Interning in the
location catalog, append to the shared index array, live-bit update and
rolling-hash update for an outer frame; all DCHECKs (short kind, cursor
below N, live mask present) yield `none`. -/
def StackMapStream.AddDexRegisterEntry (s : StackMapStream) (kind : DexRegisterKind)
    (value : Int) : Option StackMapStream :=
  if kind = DexRegisterKind.kNone then
    some { s with current_dex_register_ := s.current_dex_register_ + 1 }
  else if ¬ kind.isShort then Option.none
  else
    let location : DexRegisterLocation := ⟨kind, value⟩
    let s1 := addStage1 s location
    if s1.in_inline_frame_ then
      if s1.current_dex_register_ < s1.current_inline_info_.num_dex_registers then
        match s1.current_inline_info_.live_dex_registers_mask with
        | some m =>
          some { s1 with
            current_inline_info_ := { s1.current_inline_info_ with
              live_dex_registers_mask := some (m ||| 2 ^ s1.current_dex_register_) },
            current_dex_register_ := s1.current_dex_register_ + 1 }
        | Option.none => Option.none
      else Option.none
    else
      if s1.current_dex_register_ < s1.current_entry_.num_dex_registers then
        match s1.current_entry_.live_dex_registers_mask with
        | some m =>
          some { s1 with
            current_entry_ := { s1.current_entry_ with
              live_dex_registers_mask := some (m ||| 2 ^ s1.current_dex_register_),
              dex_register_map_hash :=
                (s1.current_entry_.dex_register_map_hash
                  + 2 ^ (s1.current_dex_register_ % 32)
                  + u32OfInt value + kind.toNat) % 2 ^ 32 },
            current_dex_register_ := s1.current_dex_register_ + 1 }
        | Option.none => Option.none
      else Option.none

/-- Input of BeginInlineInfoEntry: the external policy
EncodeArtMethodInInlineInfo decides between storing the ArtMethod pointer
or its dex method index; the chosen alternative is part of the input. -/
inductive InlineMethodRef
  | ptr (p : Nat)
  | methodIndex (i : Nat)
deriving DecidableEq, Repr

/-- StackMapStream::BeginInlineInfoEntry (lines 111-136).  The
IsSameDexFile debug check concerns only external collaborators and has no
bearing on the encoder state. -/
def StackMapStream.BeginInlineInfoEntry (s : StackMapStream) (m : InlineMethodRef)
    (dex_pc num_dex_registers : Nat) : Option StackMapStream :=
  let dex_pc := u32 dex_pc
  let num_dex_registers := u32 num_dex_registers
  if s.in_inline_frame_ then Option.none
  else
    let ci :=
      match m with
      | InlineMethodRef.ptr p => { s.current_inline_info_ with method := some (p % 2 ^ 64) }
      | InlineMethodRef.methodIndex i => { s.current_inline_info_ with method_index := u32 i }
    some { s with
      in_inline_frame_ := true,
      current_inline_info_ := { ci with
        dex_pc := dex_pc,
        num_dex_registers := num_dex_registers,
        dex_register_locations_start_index := s.dex_register_locations_.length,
        live_dex_registers_mask :=
          if num_dex_registers ≠ 0 then some 0 else Option.none },
      current_dex_register_ := 0 }

/-- StackMapStream::EndInlineInfoEntry (lines 138-145). -/
def StackMapStream.EndInlineInfoEntry (s : StackMapStream) : Option StackMapStream :=
  if ¬ s.in_inline_frame_ then Option.none
  else if s.current_dex_register_ ≠ s.current_inline_info_.num_dex_registers then Option.none
  else
    some { s with
      in_inline_frame_ := false,
      inline_infos_ := s.inline_infos_ ++ [s.current_inline_info_],
      current_inline_info_ := {} }

/-- StackMapStream::HaveTheSameDexMaps (lines 474-503): both live masks
null means equal; one null means unequal; otherwise N, the live masks
(BitVector::Equal is semantic bit equality) and the catalog-index slices
of length popcount must agree. -/
def StackMapStream.HaveTheSameDexMaps (s : StackMapStream) (a b : StackMapEntry) : Bool :=
  match a.live_dex_registers_mask, b.live_dex_registers_mask with
  | Option.none, Option.none => true
  | Option.none, some _ => false
  | some _, Option.none => false
  | some ma, some mb =>
    if a.num_dex_registers ≠ b.num_dex_registers then false
    else if a.num_dex_registers = 0 then true
    else if ma ≠ mb then false
    else
      let k := popcount ma
      decide (slice s.dex_register_locations_ a.dex_register_locations_start_index k
        = slice s.dex_register_locations_ b.dex_register_locations_start_index k)

/-- StackMapStream::FindEntryWithTheSameDexMap (lines 451-472): returns
the back-reference for the current entry (kNoSameDexMapFound becomes
`Option.none`) together with the updated hash-bucket map. -/
def StackMapStream.FindEntryWithTheSameDexMap (s : StackMapStream) :
    Option Nat × List (Nat × List Nat) :=
  let current_entry_index := s.stack_maps_.length
  let h := s.current_entry_.dex_register_map_hash
  match lookupAssoc s.dex_map_hash_to_stack_map_indices_ h with
  | Option.none =>
    (Option.none, s.dex_map_hash_to_stack_map_indices_ ++ [(h, [current_entry_index])])
  | some bucket =>
    match bucket.find? (fun j => s.HaveTheSameDexMaps (s.stack_maps_.getD j {}) s.current_entry_) with
    | some j => (some j, s.dex_map_hash_to_stack_map_indices_)
    | Option.none =>
      (Option.none,
        updateAssoc s.dex_map_hash_to_stack_map_indices_ h (bucket ++ [current_entry_index]))

/-- StackMapStream::EndStackMapEntry (lines 67-71). -/
def StackMapStream.EndStackMapEntry (s : StackMapStream) : StackMapStream :=
  let r := s.FindEntryWithTheSameDexMap
  { s with
    dex_map_hash_to_stack_map_indices_ := r.2,
    stack_maps_ :=
      s.stack_maps_ ++ [{ s.current_entry_ with same_dex_register_map_as_ := r.1 }],
    current_entry_ := {} }

/-- One call of the streaming producer API. -/
inductive StreamOp
  | beginEntry (dex_pc native_pc_offset register_mask : Nat) (sp_mask : Option Nat)
      (num_dex_registers inlining_depth : Nat)
  | addDexRegister (kind : DexRegisterKind) (value : Int)
  | beginInline (m : InlineMethodRef) (dex_pc num_dex_registers : Nat)
  | endInline
  | endEntry
deriving DecidableEq, Repr

/-- Dispatch one producer call. -/
def stepOp (s : StackMapStream) : StreamOp → Option StackMapStream
  | StreamOp.beginEntry a b c d e f => s.BeginStackMapEntry a b c d e f
  | StreamOp.addDexRegister k v => s.AddDexRegisterEntry k v
  | StreamOp.beginInline m pc n => s.BeginInlineInfoEntry m pc n
  | StreamOp.endInline => s.EndInlineInfoEntry
  | StreamOp.endEntry => some s.EndStackMapEntry

/-- Run a sequence of producer calls; `none` when some debug assertion
fires. -/
def runOps (s : StackMapStream) : List StreamOp → Option StackMapStream
  | [] => some s
  | op :: rest =>
    match stepOp s op with
    | some s1 => runOps s1 rest
    | Option.none => Option.none

/-- Write into a std::vector slot (operator[] assignment; callers stay in
bounds). -/
def listSet {α : Type} : List α → Nat → α → List α
  | [], _, _ => []
  | _ :: rest, 0, a => a :: rest
  | x :: rest, n + 1, a => x :: listSet rest n a

/-- vector::resize(n, d): keep the prefix, pad with d. -/
def resizeList {α : Type} (l : List α) (n : Nat) (d : α) : List α :=
  (l ++ List.replicate (n - l.length) d).take n

/-- One iteration of the shared interning pattern of PrepareRegisterMasks
(lines 539-543) and PrepareStackMasks (lines 557-564): compute the next
free slot index, write the key into that slot of the table
(unconditionally, also for duplicates, as both sources do), then either
reuse the index an equal key already owns or insert the key with the free
index.  `key` extracts the dedup key from an entry and `upd` stores the
assigned index back into the entry. -/
def internStep {α : Type} (key : α → Nat) (upd : α → Nat → α)
    (acc : List α × List (Nat × Nat) × List Nat) (x : α) :
    List α × List (Nat × Nat) × List Nat :=
  let k := key x
  let index := acc.2.1.length
  match lookupAssoc acc.2.1 k with
  | some j => (acc.1 ++ [upd x j], acc.2.1, listSet acc.2.2 index k)
  | Option.none => (acc.1 ++ [upd x index], acc.2.1 ++ [(k, index)], listSet acc.2.2 index k)

/-- StackMapStream::PrepareRegisterMasks (lines 536-545): assign dense
insertion-ordered indices to distinct register masks and fill the
register-mask table. -/
def StackMapStream.PrepareRegisterMasks (s : StackMapStream) : Nat × StackMapStream :=
  let init := resizeList s.register_masks_ s.stack_maps_.length 0
  let r := s.stack_maps_.foldl
    (internStep (fun e => e.register_mask) (fun e j => { e with register_mask_index := j }))
    ([], [], init)
  (r.2.1.length, { s with stack_maps_ := r.1, register_masks_ := r.2.2 })

/-- The byte-packed stack-mask content of one entry: the low
`entry_size_in_bits` bits of the sp mask (a null mask packs as zeros).  A
buffer slot is modelled by this value; byte-content equality of slots
coincides with equality of these values because the padding bits above
`entry_size_in_bits` stay zero. -/
def stackMaskKey (entry_size_in_bits : Nat) (e : StackMapEntry) : Nat :=
  match e.sp_mask with
  | some v => v % 2 ^ entry_size_in_bits
  | Option.none => 0

/-- StackMapStream::PrepareStackMasks (lines 547-566): byte-pack each
entry's stack mask into the preallocated buffer slot at the next free
index and dedupe by byte content. -/
def StackMapStream.PrepareStackMasks (s : StackMapStream) (entry_size_in_bits : Nat) :
    Nat × StackMapStream :=
  let init := resizeList s.stack_masks_ s.stack_maps_.length 0
  let r := s.stack_maps_.foldl
    (internStep (stackMaskKey entry_size_in_bits) (fun e j => { e with stack_mask_index := j }))
    ([], [], init)
  (r.2.1.length, { s with stack_maps_ := r.1, stack_masks_ := r.2.2 })

/-- StackMapStream::ComputeMaxNativePcCodeOffset (lines 147-153); CodeOffset
ordering compares the compressed values. -/
def StackMapStream.ComputeMaxNativePcCodeOffset (s : StackMapStream) : Nat :=
  s.stack_maps_.foldl (fun acc e => max acc e.native_pc_code_offset) 0

/-- Modelled from the spec: DexRegisterLocationCatalog::kFixedSize (the
catalog's fixed header; zero bytes). -/
def catalogFixedSize : Nat := 0

/-- Modelled from the spec: DexRegisterLocationCatalog::EntrySize — a short
one-byte encoding when the value is small, a five-byte escape otherwise
("each (kind, value) encoded per kind-specific rule"; only the
self-consistency of writer and sizer matters here). -/
def catalogEntrySize (loc : DexRegisterLocation) : Nat :=
  if 0 ≤ loc.value ∧ loc.value < 32 then 1 else 5

/-- StackMapStream::ComputeDexRegisterLocationCatalogSize (lines 188-194). -/
def StackMapStream.ComputeDexRegisterLocationCatalogSize (s : StackMapStream) : Nat :=
  s.location_catalog_entries_.foldl (fun acc loc => acc + catalogEntrySize loc)
    catalogFixedSize

/-- Modelled from the spec: DexRegisterMap::kFixedSize (no fixed header
bytes). -/
def dexRegisterMapFixedSize : Nat := 0

/-- Modelled from the spec: DexRegisterMap::SingleEntrySizeInBits(k) =
ceil(log2(k+1)), the width of one packed catalog index. -/
def singleEntrySizeInBits (catalogSize : Nat) : Nat := MinimumBitsToStore catalogSize

/-- StackMapStream::ComputeDexRegisterMapSize (lines 196-217): 0 when N = 0,
otherwise fixed header + live bit mask bytes (ceil(N/8)) + packed catalog
indices rounded up to bytes. -/
def StackMapStream.ComputeDexRegisterMapSize (s : StackMapStream) (num_dex_registers : Nat)
    (live_dex_registers_mask : Option Nat) : Nat :=
  if num_dex_registers = 0 then 0
  else
    let size := dexRegisterMapFixedSize + bitsToBytes num_dex_registers
    let number_of_live := popcount (live_dex_registers_mask.getD 0)
    let map_entries_size_in_bits :=
      singleEntrySizeInBits s.location_catalog_entries_.length * number_of_live
    size + bitsToBytes map_entries_size_in_bits

/-- StackMapStream::ComputeDexRegisterMapsSize (lines 219-235): entries with
a same-as back-reference contribute nothing; every inline frame
contributes, threading the flat inline-info index. -/
def StackMapStream.ComputeDexRegisterMapsSize (s : StackMapStream) : Nat :=
  (s.stack_maps_.foldl
    (fun (acc : Nat × Nat) entry =>
      let size := acc.1 +
        (match entry.same_dex_register_map_as_ with
         | Option.none =>
           s.ComputeDexRegisterMapSize entry.num_dex_registers entry.live_dex_registers_mask
         | some _ => 0)
      (List.range entry.inlining_depth).foldl
        (fun (a : Nat × Nat) _ =>
          let inline_entry := s.inline_infos_.getD a.2 {}
          (a.1 + s.ComputeDexRegisterMapSize inline_entry.num_dex_registers
              inline_entry.live_dex_registers_mask, a.2 + 1))
        (size, acc.2))
    (0, 0)).1

/-- High 32 bits of a method pointer. -/
def High32Bits (p : Nat) : Nat := (p / 2 ^ 32) % 2 ^ 32

/-- Low 32 bits of a method pointer. -/
def Low32Bits (p : Nat) : Nat := p % 2 ^ 32

/-- The dex-pc-max update of one inline frame (lines 256-259): a frame
whose dex PC is the kDexNoIndex sentinel never changes the running value;
a non-sentinel dex PC replaces a sentinel running value and otherwise
raises it monotonically. -/
def dexPcMaxStep (p : Nat) (ie : InlineInfoEntry) : Nat :=
  if ie.dex_pc ≠ kDexNoIndex ∧ (p = kDexNoIndex ∨ p < ie.dex_pc) then ie.dex_pc else p

/-- The per-frame update of the running
(method_index_max, dex_pc_max, extra_data_max) triple in
ComputeInlineInfoEncoding (lines 246-259). -/
def inlineMaximaStep (a : Nat × Nat × Nat) (ie : InlineInfoEntry) : Nat × Nat × Nat :=
  (match ie.method with
   | Option.none => max a.1 ie.method_index
   | some p => max a.1 (High32Bits p),
   dexPcMaxStep a.2.1 ie,
   match ie.method with
   | Option.none => max a.2.2 1
   | some p => max a.2.2 (Low32Bits p))

/-- StackMapStream::ComputeInlineInfoEncoding maxima loop (lines 239-261):
running ((method_index_max, dex_pc_max, extra_data_max), inline_info_index).
dex_pc_max starts at the kDexNoIndex sentinel. -/
def StackMapStream.ComputeInlineInfoMaxima (s : StackMapStream) : (Nat × Nat × Nat) × Nat :=
  s.stack_maps_.foldl
    (fun (acc : (Nat × Nat × Nat) × Nat) entry =>
      (List.range entry.inlining_depth).foldl
        (fun (a : (Nat × Nat × Nat) × Nat) _ =>
          (inlineMaximaStep a.1 (s.inline_infos_.getD a.2 {}), a.2 + 1))
        acc)
    ((0, kDexNoIndex, 0), 0)

/-- The inner (per-entry) fold of the maxima walk, abbreviated. -/
def maximaInner (s : StackMapStream) (d : Nat) (acc : (Nat × Nat × Nat) × Nat) :
    (Nat × Nat × Nat) × Nat :=
  (List.range d).foldl
    (fun (a : (Nat × Nat × Nat) × Nat) _ =>
      (inlineMaximaStep a.1 (s.inline_infos_.getD a.2 {}), a.2 + 1)) acc

/-- The outer fold of the maxima walk, abbreviated. -/
def maximaOuter (s : StackMapStream) (entries : List StackMapEntry)
    (acc : (Nat × Nat × Nat) × Nat) : (Nat × Nat × Nat) × Nat :=
  entries.foldl (fun acc entry => maximaInner s entry.inlining_depth acc) acc

/-- Field widths of one inline-info record. -/
structure InlineInfoEncoding where
  method_index_width : Nat := 0
  dex_pc_width : Nat := 0
  extra_data_width : Nat := 0
  map_offset_width : Nat := 0
deriving DecidableEq, Repr

/-- Modelled from the spec: InlineInfoEncoding::SetFromSizes — each width is
the minimum for the observed maximum; the dex-PC field reserves room for
the kDexNoIndex sentinel and collapses to zero width when every frame
carries the sentinel (spec section 9). -/
def InlineInfoEncoding.SetFromSizes (method_index_max dex_pc_max extra_data_max
    dex_register_maps_bytes : Nat) : InlineInfoEncoding :=
  { method_index_width := MinimumBitsToStore method_index_max,
    dex_pc_width :=
      if dex_pc_max = kDexNoIndex then 0 else MinimumBitsToStore (1 + dex_pc_max),
    extra_data_width := MinimumBitsToStore extra_data_max,
    map_offset_width := MinimumBitsToStore dex_register_maps_bytes }

/-- Field widths of one stack-map record. -/
structure StackMapEncoding where
  native_pc_width : Nat := 0
  dex_pc_width : Nat := 0
  map_offset_width : Nat := 0
  inline_index_width : Nat := 0
  register_mask_index_width : Nat := 0
  stack_mask_index_width : Nat := 0
deriving DecidableEq, Repr

/-- Modelled from the spec: StackMapEncoding::SetFromSizes — minimum width
per observed maximum; the dex-register-map and inline-info fields hold
their absent sentinel implicitly because the byte size / entry count is
strictly greater than any stored offset / index. -/
def StackMapEncoding.SetFromSizes (native_pc_max dex_pc_max dex_register_map_bytes
    number_of_inline_info number_of_register_masks number_of_stack_masks : Nat) :
    StackMapEncoding :=
  { native_pc_width := MinimumBitsToStore native_pc_max,
    dex_pc_width := MinimumBitsToStore dex_pc_max,
    map_offset_width := MinimumBitsToStore dex_register_map_bytes,
    inline_index_width := MinimumBitsToStore number_of_inline_info,
    register_mask_index_width := MinimumBitsToStore number_of_register_masks,
    stack_mask_index_width := MinimumBitsToStore number_of_stack_masks }

/-- The CodeInfo encoding descriptor (header contents). -/
structure CodeInfoEncoding where
  dex_register_map_bytes : Nat := 0
  location_catalog_entries : Nat := 0
  location_catalog_bytes : Nat := 0
  inline_info_entries : Nat := 0
  inline_info_encoding : InlineInfoEncoding := {}
  stack_mask_bits : Nat := 0
  stack_mask_entries : Nat := 0
  register_mask_bits : Nat := 0
  register_mask_entries : Nat := 0
  stack_map_entries : Nat := 0
  stack_map_encoding : StackMapEncoding := {}
deriving DecidableEq, Repr

/-- Modelled from the spec: CodeInfoEncoding::Compress serializes the
descriptor into the header buffer (varint packing abstracted as one cell
per field; the buffer is nonempty and decodes back losslessly). -/
def compressHeader (e : CodeInfoEncoding) : List Nat :=
  [e.dex_register_map_bytes, e.location_catalog_entries, e.location_catalog_bytes,
   e.inline_info_entries,
   e.inline_info_encoding.method_index_width, e.inline_info_encoding.dex_pc_width,
   e.inline_info_encoding.extra_data_width, e.inline_info_encoding.map_offset_width,
   e.stack_mask_bits, e.stack_mask_entries, e.register_mask_bits, e.register_mask_entries,
   e.stack_map_entries,
   e.stack_map_encoding.native_pc_width, e.stack_map_encoding.dex_pc_width,
   e.stack_map_encoding.map_offset_width, e.stack_map_encoding.inline_index_width,
   e.stack_map_encoding.register_mask_index_width, e.stack_map_encoding.stack_mask_index_width]

/-- Modelled from the spec: CodeInfo::ExtractEncoding, the inverse of the
header serialization. -/
def decompressHeader : List Nat → Option CodeInfoEncoding
  | [a, b, c, d, e1, e2, e3, e4, f, g, h, i, j, k1, k2, k3, k4, k5, k6] =>
    some { dex_register_map_bytes := a, location_catalog_entries := b,
           location_catalog_bytes := c, inline_info_entries := d,
           inline_info_encoding := { method_index_width := e1, dex_pc_width := e2,
                                     extra_data_width := e3, map_offset_width := e4 },
           stack_mask_bits := f, stack_mask_entries := g, register_mask_bits := h,
           register_mask_entries := i, stack_map_entries := j,
           stack_map_encoding := { native_pc_width := k1, dex_pc_width := k2,
                                   map_offset_width := k3, inline_index_width := k4,
                                   register_mask_index_width := k5,
                                   stack_mask_index_width := k6 } }
  | _ => Option.none

/-- Total bit width of one stack-map record. -/
def StackMapEncoding.BitSize (e : StackMapEncoding) : Nat :=
  e.native_pc_width + e.dex_pc_width + e.map_offset_width + e.inline_index_width
    + e.register_mask_index_width + e.stack_mask_index_width

/-- Total bit width of one inline-info record (the 8 accounts for the
depth stored with the top record). -/
def InlineInfoEncoding.BitSize (e : InlineInfoEncoding) : Nat :=
  e.method_index_width + e.dex_pc_width + e.extra_data_width + e.map_offset_width + 8

/-- Modelled from the spec: CodeInfoEncoding::NonHeaderSize — the byte
sizes of the non-header tables in layout order. -/
def CodeInfoEncoding.NonHeaderSize (e : CodeInfoEncoding) : Nat :=
  e.location_catalog_bytes + e.dex_register_map_bytes
    + bitsToBytes (e.inline_info_entries * e.inline_info_encoding.BitSize)
    + bitsToBytes (e.register_mask_entries * e.register_mask_bits)
    + bitsToBytes (e.stack_mask_entries * e.stack_mask_bits)
    + bitsToBytes (e.stack_map_entries * e.stack_map_encoding.BitSize)

/-- The CodeInfo encoding descriptor PrepareForFillIn (lines 155-178)
derives from the recorded stream: table sizes, interned mask counts and
minimum field widths. -/
def StackMapStream.prepareEncoding (s : StackMapStream) : CodeInfoEncoding :=
  let dex_register_map_bytes := s.ComputeDexRegisterMapsSize
  let m := s.ComputeInlineInfoMaxima
  let stack_mask_bits := (s.stack_mask_max_ + 1).toNat
  let r1 := s.PrepareStackMasks stack_mask_bits
  let r2 := r1.2.PrepareRegisterMasks
  { dex_register_map_bytes := dex_register_map_bytes,
    location_catalog_entries := s.location_catalog_entries_.length,
    location_catalog_bytes := s.ComputeDexRegisterLocationCatalogSize,
    inline_info_entries := s.inline_infos_.length,
    inline_info_encoding :=
      InlineInfoEncoding.SetFromSizes m.1.1 m.1.2.1 m.1.2.2 dex_register_map_bytes,
    stack_mask_bits := stack_mask_bits,
    stack_mask_entries := r1.1,
    register_mask_bits := MinimumBitsToStore s.register_mask_max_,
    register_mask_entries := r2.1,
    stack_map_entries := s.stack_maps_.length,
    stack_map_encoding := StackMapEncoding.SetFromSizes s.ComputeMaxNativePcCodeOffset
        s.dex_pc_max_ dex_register_map_bytes s.inline_infos_.length r2.1 r1.1 }

/-- StackMapStream::PrepareForFillIn (lines 155-186): size the tables,
intern the masks, derive the per-field widths, serialize the header and
record `needed_size_`.  The DCHECK that the header buffer is still empty
and the DCHECK that the inline-info maxima walk consumed the whole
inline-info table become guards. -/
def StackMapStream.PrepareForFillIn (s : StackMapStream) : Option (Nat × StackMapStream) :=
  if (s.ComputeInlineInfoMaxima).2 ≠ s.inline_infos_.length then Option.none
  else
    let r1 := s.PrepareStackMasks (s.stack_mask_max_ + 1).toNat
    let r2 := r1.2.PrepareRegisterMasks
    if s.code_info_encoding_.length ≠ 0 then Option.none
    else
      let header := compressHeader s.prepareEncoding
      let needed_size := header.length + s.prepareEncoding.NonHeaderSize
      some (needed_size,
        { r2.2 with
          code_info_encoding_ := r2.2.code_info_encoding_ ++ header,
          needed_size_ := needed_size })

/-- One materialized dex-register map: the live bit mask followed by the
packed catalog indices of the live registers in order. -/
structure EncodedDexRegisterMap where
  live_mask : Nat := 0
  entries : List Nat := []
deriving DecidableEq, Repr

/-- One bit-packed stack-map record; every field holds its stored (already
width-truncated) bits. -/
structure StackMapRecord where
  native_pc_stored : Nat := 0
  dex_pc_stored : Nat := 0
  map_offset_stored : Nat := 0
  inline_index_stored : Nat := 0
  register_mask_index_stored : Nat := 0
  stack_mask_index_stored : Nat := 0
deriving DecidableEq, Repr

/-- One bit-packed inline-info record; the depth is stored with the top
record of each stack map's group. -/
structure InlineRecord where
  depth_stored : Nat := 0
  method_index_stored : Nat := 0
  extra_data_stored : Nat := 0
  dex_pc_stored : Nat := 0
  map_offset_stored : Nat := 0
deriving DecidableEq, Repr

/-- The written blob, structured by table: header descriptor, catalog,
dex-register-map region (offset, map) pairs in write order, stack-map
records, inline-info records, stack-mask table and register-mask table. -/
structure CodeInfoBlob where
  encoding : CodeInfoEncoding := {}
  catalog : List DexRegisterLocation := []
  dex_maps : List (Nat × EncodedDexRegisterMap) := []
  records : List StackMapRecord := []
  inline_records : List InlineRecord := []
  stack_masks : List Nat := []
  register_masks : List Nat := []
deriving DecidableEq, Repr

/-- Modelled from the spec: store of a plain unsigned bit-packed field of
width w (BitMemoryRegion::StoreBits keeps the low w bits). -/
def storeField (w v : Nat) : Nat := v % 2 ^ w

/-- Modelled from the spec: store of a field able to hold its absent
sentinel (kNoDexRegisterMap, kNoInlineInfo, kDexNoIndex): the sentinel is
stored as 0 and a real value v as v + 1 in w bits. -/
def storeOptField (w : Nat) (v : Option Nat) : Nat :=
  match v with
  | Option.none => 0
  | some x => (x + 1) % 2 ^ w

/-- Modelled from the spec: reader of a sentinel-capable field. -/
def decodeOptField (stored : Nat) : Option Nat :=
  if stored = 0 then Option.none else some (stored - 1)

/-- StackMapStream::FillInDexRegisterMap (lines 428-449): write the live
bit mask and, for the k-th live register, the packed catalog index read
from the shared index array at start + k; the two DCHECK bounds become
guards. -/
def StackMapStream.FillInDexRegisterMap (s : StackMapStream) (live_mask : Nat)
    (start : Nat) : Option EncodedDexRegisterMap :=
  let number_of_live := popcount live_mask
  if number_of_live ≤ s.dex_register_locations_.length
      ∧ start ≤ s.dex_register_locations_.length - number_of_live then
    some { live_mask := live_mask,
           entries := (List.range number_of_live).map
             (fun k => storeField (singleEntrySizeInBits s.location_catalog_entries_.length)
               (s.dex_register_locations_.getD (start + k) 0)) }
  else Option.none

/-- Option-threading fold used for the FillIn loops. -/
def optFold {α β : Type} (f : β → α → Option β) : List α → β → Option β
  | [], b => some b
  | a :: rest, b =>
    match f b a with
    | some b1 => optFold f rest b1
    | Option.none => Option.none

/-- Accumulator of the FillIn main loop: written records and maps, the
dex-register-map region cursor and the inline-info cursor. -/
structure FillAcc where
  records : List StackMapRecord := []
  dex_maps : List (Nat × EncodedDexRegisterMap) := []
  inline_records : List InlineRecord := []
  next_dex_register_map_offset : Nat := 0
  next_inline_info_index : Nat := 0
deriving DecidableEq, Repr

/-- One iteration of the inline-depth loop of FillIn (lines 356-397):
method-or-index and extra data, dex PC, and the per-frame dex-register map
(sentinel when the frame has no registers, else materialized at the
region cursor). -/
def StackMapStream.fillInOneInline (s : StackMapStream) (enc : CodeInfoEncoding)
    (entry : StackMapEntry)
    (acc : List InlineRecord × List (Nat × EncodedDexRegisterMap) × Nat)
    (depth : Nat) :
    Option (List InlineRecord × List (Nat × EncodedDexRegisterMap) × Nat) :=
  let ie := s.inline_infos_.getD (depth + entry.inline_infos_start_index) {}
  let ienc := enc.inline_info_encoding
  let depth_stored := if depth = 0 then storeField 8 entry.inlining_depth else 0
  let method_index_stored :=
    match ie.method with
    | some p => storeField ienc.method_index_width (High32Bits p)
    | Option.none => storeField ienc.method_index_width ie.method_index
  let extra_data_stored :=
    match ie.method with
    | some p => storeField ienc.extra_data_width (Low32Bits p)
    | Option.none => storeField ienc.extra_data_width 1
  let dex_pc_stored :=
    storeOptField ienc.dex_pc_width
      (if ie.dex_pc = kDexNoIndex then Option.none else some ie.dex_pc)
  if ie.num_dex_registers = 0 then
    if ie.live_dex_registers_mask ≠ Option.none then Option.none
    else
      some (acc.1 ++ [{ depth_stored := depth_stored,
                        method_index_stored := method_index_stored,
                        extra_data_stored := extra_data_stored,
                        dex_pc_stored := dex_pc_stored,
                        map_offset_stored := storeOptField ienc.map_offset_width Option.none }],
            acc.2.1, acc.2.2)
  else
    match ie.live_dex_registers_mask with
    | Option.none => Option.none
    | some mask =>
      let size := s.ComputeDexRegisterMapSize ie.num_dex_registers ie.live_dex_registers_mask
      if acc.2.2 + size ≤ enc.dex_register_map_bytes then
        match s.FillInDexRegisterMap mask ie.dex_register_locations_start_index with
        | some emap =>
          some (acc.1 ++ [{ depth_stored := depth_stored,
                            method_index_stored := method_index_stored,
                            extra_data_stored := extra_data_stored,
                            dex_pc_stored := dex_pc_stored,
                            map_offset_stored :=
                              storeOptField ienc.map_offset_width (some acc.2.2) }],
                acc.2.1 ++ [(acc.2.2, emap)], acc.2.2 + size)
        | Option.none => Option.none
      else Option.none

/-- One iteration of the FillIn main loop (lines 305-401) for the next
stack-map entry. -/
def StackMapStream.fillInOneEntry (s : StackMapStream) (enc : CodeInfoEncoding)
    (acc : FillAcc) (entry : StackMapEntry) : Option FillAcc :=
  let e := enc.stack_map_encoding
  let offsetPart : Option (Nat × List (Nat × EncodedDexRegisterMap) × Nat) :=
    if entry.num_dex_registers = 0 then
      some (storeOptField e.map_offset_width Option.none, acc.dex_maps,
        acc.next_dex_register_map_offset)
    else
      match entry.live_dex_registers_mask with
      | Option.none => Option.none
      | some mask =>
        if popcount mask = 0 then
          some (storeOptField e.map_offset_width Option.none, acc.dex_maps,
            acc.next_dex_register_map_offset)
        else
          match entry.same_dex_register_map_as_ with
          | some j =>
            let prior := (acc.records.getD j {}).map_offset_stored
            some (storeOptField e.map_offset_width (decodeOptField prior), acc.dex_maps,
              acc.next_dex_register_map_offset)
          | Option.none =>
            let size :=
              s.ComputeDexRegisterMapSize entry.num_dex_registers entry.live_dex_registers_mask
            if acc.next_dex_register_map_offset + size ≤ enc.dex_register_map_bytes then
              match s.FillInDexRegisterMap mask entry.dex_register_locations_start_index with
              | some emap =>
                some (storeOptField e.map_offset_width (some acc.next_dex_register_map_offset),
                  acc.dex_maps ++ [(acc.next_dex_register_map_offset, emap)],
                  acc.next_dex_register_map_offset + size)
              | Option.none => Option.none
            else Option.none
  match offsetPart with
  | Option.none => Option.none
  | some (map_offset_stored, dex_maps1, cursor1) =>
    let mkRecord (inline_index_stored : Nat) : StackMapRecord :=
      { native_pc_stored := storeField e.native_pc_width entry.native_pc_code_offset,
        dex_pc_stored := storeField e.dex_pc_width entry.dex_pc,
        map_offset_stored := map_offset_stored,
        inline_index_stored := inline_index_stored,
        register_mask_index_stored :=
          storeField e.register_mask_index_width entry.register_mask_index,
        stack_mask_index_stored :=
          storeField e.stack_mask_index_width entry.stack_mask_index }
    if entry.inlining_depth ≠ 0 then
      if acc.next_inline_info_index ≠ entry.inline_infos_start_index then Option.none
      else if ¬ (entry.inline_infos_start_index + entry.inlining_depth
          ≤ s.inline_infos_.length) then Option.none
      else
        match optFold (s.fillInOneInline enc entry) (List.range entry.inlining_depth)
            (acc.inline_records, dex_maps1, cursor1) with
        | Option.none => Option.none
        | some (irecs, dmaps, cursor2) =>
          some { records := acc.records ++
                   [mkRecord (storeOptField e.inline_index_width (some acc.next_inline_info_index))],
                 dex_maps := dmaps,
                 inline_records := irecs,
                 next_dex_register_map_offset := cursor2,
                 next_inline_info_index := acc.next_inline_info_index + entry.inlining_depth }
    else
      let inline_index_stored :=
        if e.inline_index_width > 0 then storeOptField e.inline_index_width Option.none else 0
      some { records := acc.records ++ [mkRecord inline_index_stored],
             dex_maps := dex_maps1,
             inline_records := acc.inline_records,
             next_dex_register_map_offset := cursor1,
             next_inline_info_index := acc.next_inline_info_index }

/-- StackMapStream::FillIn (lines 267-426), producing the structured blob.
The guards are the DCHECKs: an entry still open, PrepareForFillIn not
called, header/entry-count mismatches, the catalog end-offset check and
the sub-region bounds checks inside the loop. -/
def StackMapStream.FillIn (s : StackMapStream) : Option CodeInfoBlob :=
  if s.current_entry_.dex_pc ≠ 0 then Option.none
  else if s.needed_size_ = 0 then Option.none
  else
    match decompressHeader s.code_info_encoding_ with
    | Option.none => Option.none
    | some enc =>
      if enc.stack_map_entries ≠ s.stack_maps_.length then Option.none
      else if s.ComputeDexRegisterLocationCatalogSize ≠ enc.location_catalog_bytes then
        Option.none
      else
        match optFold (s.fillInOneEntry enc) s.stack_maps_ {} with
        | Option.none => Option.none
        | some acc =>
          some { encoding := enc,
                 catalog := s.location_catalog_entries_,
                 dex_maps := acc.dex_maps,
                 records := acc.records,
                 inline_records := acc.inline_records,
                 stack_masks := (s.stack_masks_.take enc.stack_mask_entries).map
                   (fun v => v % 2 ^ enc.stack_mask_bits),
                 register_masks := (s.register_masks_.take enc.register_mask_entries).map
                   (fun v => storeField enc.register_mask_bits v) }

/-- Modelled from the spec: CodeInfo::GetStackMapAt. -/
def CodeInfoBlob.GetStackMapAt (b : CodeInfoBlob) (i : Nat) : StackMapRecord :=
  b.records.getD i {}

/-- Modelled from the spec: StackMap::GetDexPc. -/
def StackMapRecord.GetDexPc (r : StackMapRecord) : Nat := r.dex_pc_stored

/-- Modelled from the spec: StackMap::GetNativePcOffset — the stored
compressed value scaled back by the instruction-set alignment. -/
def StackMapRecord.GetNativePcOffset (r : StackMapRecord) (align : Nat) : Nat :=
  r.native_pc_stored * align

/-- Modelled from the spec: StackMap::GetRegisterMaskIndex. -/
def StackMapRecord.GetRegisterMaskIndex (r : StackMapRecord) : Nat :=
  r.register_mask_index_stored

/-- Modelled from the spec: StackMap::GetStackMaskIndex. -/
def StackMapRecord.GetStackMaskIndex (r : StackMapRecord) : Nat :=
  r.stack_mask_index_stored

/-- Modelled from the spec: StackMap::GetDexRegisterMapOffset, decoded
(`Option.none` is the kNoDexRegisterMap sentinel). -/
def StackMapRecord.GetDexRegisterMapOffset (r : StackMapRecord) : Option Nat :=
  decodeOptField r.map_offset_stored

/-- Modelled from the spec: StackMap::GetInlineInfoIndex, decoded
(`Option.none` is the kNoInlineInfo sentinel). -/
def StackMapRecord.GetInlineInfoIndex (r : StackMapRecord) : Option Nat :=
  decodeOptField r.inline_index_stored

/-- Modelled from the spec: CodeInfo::GetRegisterMaskOf. -/
def CodeInfoBlob.GetRegisterMaskOf (b : CodeInfoBlob) (r : StackMapRecord) : Nat :=
  b.register_masks.getD r.GetRegisterMaskIndex 0

/-- Modelled from the spec: CodeInfo::GetStackMaskOf (the table row as a
bit vector). -/
def CodeInfoBlob.GetStackMaskOf (b : CodeInfoBlob) (r : StackMapRecord) : Nat :=
  b.stack_masks.getD r.GetStackMaskIndex 0

/-- Modelled from the spec: CodeInfo::GetDexRegisterMapOf — invalid
(`Option.none`) when the offset is the sentinel, else the map found at the
stored offset of the dex-register-map region. -/
def CodeInfoBlob.GetDexRegisterMapOf (b : CodeInfoBlob) (r : StackMapRecord) :
    Option EncodedDexRegisterMap :=
  match r.GetDexRegisterMapOffset with
  | Option.none => Option.none
  | some off => lookupAssoc b.dex_maps off

/-- Modelled from the spec: DexRegisterMap::IsDexRegisterLive. -/
def EncodedDexRegisterMap.IsDexRegisterLive (m : EncodedDexRegisterMap) (reg : Nat) : Bool :=
  m.live_mask.testBit reg

/-- Modelled from the spec: DexRegisterMap::GetLocationCatalogEntryIndex —
the packed index at the position of reg among the live registers. -/
def EncodedDexRegisterMap.GetLocationCatalogEntryIndex (m : EncodedDexRegisterMap)
    (reg : Nat) : Nat :=
  m.entries.getD (popcount (m.live_mask % 2 ^ reg)) 0

/-- Modelled from the spec: InlineInfo::GetDepth (read from the top record
of the group). -/
def InlineRecord.GetDepth (r : InlineRecord) : Nat := r.depth_stored

/-- Modelled from the spec: InlineInfo::GetDexPcAtDepth (sentinel-capable
field; an absent dex PC reads back as kDexNoIndex). -/
def InlineRecord.GetDexPcAtDepth (r : InlineRecord) : Nat :=
  match decodeOptField r.dex_pc_stored with
  | Option.none => kDexNoIndex
  | some v => v

/-- Modelled from the spec: InlineInfo::EncodesArtMethodAtDepth — the
"encodes-method-object" bit is the parity of the extra data (a stored
method index puts 1 there; method pointers are even). -/
def InlineRecord.EncodesArtMethodAtDepth (r : InlineRecord) : Bool :=
  r.extra_data_stored % 2 = 0

/-- Modelled from the spec: InlineInfo::GetArtMethodAtDepth — the pointer
reassembled from its stored halves. -/
def InlineRecord.GetArtMethodAtDepth (r : InlineRecord) : Nat :=
  r.method_index_stored * 2 ^ 32 + r.extra_data_stored

/-- Modelled from the spec: InlineInfo::GetMethodIndexAtDepth. -/
def InlineRecord.GetMethodIndexAtDepth (r : InlineRecord) : Nat := r.method_index_stored

/-- Modelled from the spec: InlineInfo::GetDexRegisterMapAtDepth offset
resolution, as for the outer maps. -/
def CodeInfoBlob.GetDexRegisterMapAtDepth (b : CodeInfoBlob) (r : InlineRecord) :
    Option EncodedDexRegisterMap :=
  match decodeOptField r.map_offset_stored with
  | Option.none => Option.none
  | some off => lookupAssoc b.dex_maps off

/-- The per-register body of the CheckDexRegisterMap loop (lines 508-531):
a live position must read back live with the recorded catalog entry, an
absent position must read back dead; only live positions advance the
walk's index into the shared catalog-index array. -/
def checkRegStep (s : StackMapStream) (b : CodeInfoBlob)
    (dex_register_map : Option EncodedDexRegisterMap) (live_mask : Option Nat)
    (a : Bool × Nat) (reg : Nat) : Bool × Nat :=
  if (live_mask.getD 0).testBit reg then
    let catalog_index := s.dex_register_locations_.getD a.2 0
    let expected := s.location_catalog_entries_.getD catalog_index
      ⟨DexRegisterKind.kNone, 0⟩
    let check :=
      match expected.kind with
      | DexRegisterKind.kNone =>
        match dex_register_map with
        | Option.none => true
        | some m => ¬ m.IsDexRegisterLive reg
      | _ =>
        match dex_register_map with
        | Option.none => false
        | some m =>
          m.IsDexRegisterLive reg &&
            (let seen := b.catalog.getD (m.GetLocationCatalogEntryIndex reg)
               ⟨DexRegisterKind.kNone, 0⟩
             decide (expected.kind = seen.kind) && decide (expected.value = seen.value))
    (a.1 && check, a.2 + 1)
  else
    let check :=
      match dex_register_map with
      | Option.none => true
      | some m => ¬ m.IsDexRegisterLive reg
    (a.1 && check, a.2)

/-- StackMapStream::CheckDexRegisterMap (lines 506-534): every register
position must read back as the location that was recorded for it (absent
positions as not-live, and an N = 0 map as invalid).  The dereference of
the live mask for N > 0 is modelled by the leading guard. -/
def StackMapStream.CheckDexRegisterMap (s : StackMapStream) (b : CodeInfoBlob)
    (dex_register_map : Option EncodedDexRegisterMap) (num_dex_registers : Nat)
    (live_mask : Option Nat) (start : Nat) : Bool :=
  if num_dex_registers ≠ 0 ∧ live_mask = Option.none then false
  else
    let r := (List.range num_dex_registers).foldl
      (checkRegStep s b dex_register_map live_mask) (true, start)
    r.1 && (num_dex_registers ≠ 0 || dex_register_map.isNone)

/-- StackMapStream::CheckCodeInfo (lines 569-633): decode the whole blob
and compare every stack map, mask, dex-register map and inline frame with
the recorded inputs; the conjunction of all the DCHECKs. -/
def StackMapStream.CheckCodeInfo (s : StackMapStream) (b : CodeInfoBlob) : Bool :=
  decide (b.encoding.stack_map_entries = s.stack_maps_.length) &&
  (List.range s.stack_maps_.length).all (fun i =>
    let stack_map := b.GetStackMapAt i
    let entry := s.stack_maps_.getD i {}
    decide (stack_map.GetNativePcOffset s.instruction_set_align
      = entry.native_pc_code_offset * s.instruction_set_align) &&
    decide (stack_map.GetDexPc = entry.dex_pc) &&
    decide (stack_map.GetRegisterMaskIndex = entry.register_mask_index) &&
    decide (b.GetRegisterMaskOf stack_map = entry.register_mask) &&
    decide (stack_map.GetStackMaskIndex = entry.stack_mask_index) &&
    (let num_bits := b.encoding.stack_mask_bits
     let sm := b.GetStackMaskOf stack_map
     match entry.sp_mask with
     | some v =>
       decide (numberOfBits v ≤ num_bits) &&
       (List.range num_bits).all (fun bit => sm.testBit bit == v.testBit bit)
     | Option.none =>
       (List.range num_bits).all (fun bit => sm.testBit bit == false)) &&
    s.CheckDexRegisterMap b (b.GetDexRegisterMapOf stack_map) entry.num_dex_registers
      entry.live_dex_registers_mask entry.dex_register_locations_start_index &&
    decide ((stack_map.GetInlineInfoIndex ≠ Option.none) = (entry.inlining_depth ≠ 0)) &&
    (if entry.inlining_depth ≠ 0 then
      match stack_map.GetInlineInfoIndex with
      | Option.none => false
      | some ii =>
        decide ((b.inline_records.getD ii {}).GetDepth = entry.inlining_depth) &&
        (List.range entry.inlining_depth).all (fun d =>
          decide (entry.inline_infos_start_index + d < s.inline_infos_.length) &&
          (let ie := s.inline_infos_.getD (entry.inline_infos_start_index + d) {}
           let irec := b.inline_records.getD (ii + d) {}
           decide (irec.GetDexPcAtDepth = ie.dex_pc) &&
           (if irec.EncodesArtMethodAtDepth then
              decide (irec.GetArtMethodAtDepth = ie.method.getD 0)
            else
              decide (irec.GetMethodIndexAtDepth = ie.method_index)) &&
           s.CheckDexRegisterMap b (b.GetDexRegisterMapAtDepth irec) ie.num_dex_registers
             ie.live_dex_registers_mask ie.dex_register_locations_start_index))
     else true))

/-- A freshly constructed encoder for the given instruction-set
alignment. -/
def initialStream (align : Nat) : StackMapStream := { instruction_set_align := align }

/-- The full encoder pipeline: stream the operations, PrepareForFillIn,
FillIn, then run the readback verifier; `none` when any debug assertion
fires along the way. -/
def pipeline (align : Nat) (ops : List StreamOp) : Option Bool :=
  match runOps (initialStream align) ops with
  | Option.none => Option.none
  | some s =>
    match s.PrepareForFillIn with
    | Option.none => Option.none
    | some r =>
      match r.2.FillIn with
      | Option.none => Option.none
      | some blob => some (r.2.CheckCodeInfo blob)

/-- Total inlining depth over all recorded stack maps. -/
def sumDepths (s : StackMapStream) : Nat :=
  s.stack_maps_.foldl (fun a e => a + e.inlining_depth) 0

/-- The inline frames visited by an index-threading walk that starts at
flat index i and reads d consecutive frames. -/
def framesSlice (s : StackMapStream) (i d : Nat) : List InlineInfoEntry :=
  (List.range d).map (fun k => s.inline_infos_.getD (i + k) {})

/-- The dex PCs of the frames that do not carry the kDexNoIndex
sentinel. -/
def nonSentinelDexPcs (frames : List InlineInfoEntry) : List Nat :=
  (frames.filter (fun f => f.dex_pc != kDexNoIndex)).map InlineInfoEntry.dex_pc

/-- Specification-side maximum for C6: the maximum dex PC over the frames
with dex_pc different from kDexNoIndex, and kDexNoIndex itself when every
frame (or no frame) carries the sentinel. -/
def maxDexPcOverFrames (frames : List InlineInfoEntry) : Nat :=
  if nonSentinelDexPcs frames = [] then kDexNoIndex
  else (nonSentinelDexPcs frames).foldl max 0

/-- Insertion-ordered list of the distinct keys of a key sequence: the
first occurrence of each distinct key, in order of first occurrence. -/
def distinctKeys (keys : List Nat) : List Nat :=
  keys.foldl (fun acc k => if k ∈ acc then acc else acc ++ [k]) []

/-- A list of keys paired with their positions, starting at offset i. -/
def assocIdxAux : List Nat → Nat → List (Nat × Nat)
  | [], _ => []
  | k :: rest, i => (k, i) :: assocIdxAux rest (i + 1)

/-- A list of keys paired with their positions. -/
def assocIdx (l : List Nat) : List (Nat × Nat) := assocIdxAux l 0

/-- An entry that is sized as a map but written as the kNoDexRegisterMap
sentinel: no same-as back-reference, a positive register count, and an
all-dead live mask. -/
def isDeadMapEntry (e : StackMapEntry) : Bool :=
  e.same_dex_register_map_as_.isNone && decide (e.num_dex_registers ≠ 0)
    && decide (popcount (e.live_dex_registers_mask.getD 0) = 0)

/-- The bytes ComputeDexRegisterMapsSize reserves for entries that FillIn
never materializes: FixedSize + LiveBitMaskSize(N) per dead-map entry. -/
def deadMapOvercount (s : StackMapStream) : Nat :=
  ((s.stack_maps_.filter isDeadMapEntry).map
    (fun e => dexRegisterMapFixedSize + bitsToBytes e.num_dex_registers)).sum

/-- Total dex-register-map bytes of d consecutive inline frames starting
at flat index i. -/
def inlineFramesMapSizes (s : StackMapStream) (i d : Nat) : Nat :=
  ((framesSlice s i d).map
    (fun f => s.ComputeDexRegisterMapSize f.num_dex_registers f.live_dex_registers_mask)).sum

/-- The dex-register-map bytes ComputeDexRegisterMapsSize accumulates over
a list of entries when the inline-info counter starts at i. -/
def computeContrib (s : StackMapStream) : List StackMapEntry → Nat → Nat
  | [], _ => 0
  | e :: rest, i =>
    (match e.same_dex_register_map_as_ with
     | Option.none =>
       s.ComputeDexRegisterMapSize e.num_dex_registers e.live_dex_registers_mask
     | some _ => 0)
      + inlineFramesMapSizes s i e.inlining_depth
      + computeContrib s rest (i + e.inlining_depth)

/-- Well-formedness of a stack-map entry relative to the shared-array
length L and the running maxima of the stream: the live mask exists
exactly for a positive register count, fits in N bits, and owns a
catalog-index window inside the shared array; the recorded values are
below the maxima the encoder tracks. -/
structure EntryWF (L dmax rmax : Nat) (smax : Int) (e : StackMapEntry) : Prop where
  mask_iff : e.num_dex_registers = 0 ↔ e.live_dex_registers_mask = Option.none
  mask_lt : ∀ m, e.live_dex_registers_mask = some m → m < 2 ^ e.num_dex_registers
  window : e.dex_register_locations_start_index
      + popcount (e.live_dex_registers_mask.getD 0) ≤ L
  dex_pc_le : e.dex_pc ≤ dmax
  dex_pc_lt : e.dex_pc < kDexNoIndex
  rm_le : e.register_mask ≤ rmax
  sp_le : ∀ v, e.sp_mask = some v → highestBitSet v ≤ smax
  depth_lt : e.inlining_depth < 2 ^ 8

/-- Well-formedness of an inline frame relative to the shared-array
length L. -/
structure InlineWF (L : Nat) (f : InlineInfoEntry) : Prop where
  mask_iff : f.num_dex_registers = 0 ↔ f.live_dex_registers_mask = Option.none
  mask_lt : ∀ m, f.live_dex_registers_mask = some m → m < 2 ^ f.num_dex_registers
  window : f.dex_register_locations_start_index
      + popcount (f.live_dex_registers_mask.getD 0) ≤ L
  dex_pc_lt : f.dex_pc < 2 ^ 32
  method_lt : ∀ p, f.method = some p → p < 2 ^ 64
  mindex_lt : f.method_index < 2 ^ 32

/-- Bit-exact equality of the dex-register maps of two entries: identical
register count, identical live mask (including absence) and element-wise
equal catalog-index slices of length popcount(live mask). -/
def EqDexMaps (locs : List Nat) (a b : StackMapEntry) : Prop :=
  a.num_dex_registers = b.num_dex_registers
    ∧ a.live_dex_registers_mask = b.live_dex_registers_mask
    ∧ slice locs a.dex_register_locations_start_index
        (popcount (b.live_dex_registers_mask.getD 0))
      = slice locs b.dex_register_locations_start_index
        (popcount (b.live_dex_registers_mask.getD 0))

/-- The invariant every state reachable through the streaming API
satisfies. -/
structure StreamInv (s : StackMapStream) : Prop where
  entries : ∀ e ∈ s.stack_maps_,
    EntryWF s.dex_register_locations_.length s.dex_pc_max_ s.register_mask_max_
      s.stack_mask_max_ e
  cur : EntryWF s.dex_register_locations_.length s.dex_pc_max_ s.register_mask_max_
      s.stack_mask_max_ s.current_entry_
  frames : ∀ f ∈ s.inline_infos_, InlineWF s.dex_register_locations_.length f
  curInline : InlineWF s.dex_register_locations_.length s.current_inline_info_
  inline_closed : s.in_inline_frame_ = false → s.current_inline_info_ = {}
  catalogBound : ∀ idx ∈ s.dex_register_locations_, idx < s.location_catalog_entries_.length
  indicesBound : ∀ p ∈ s.location_catalog_entries_indices_,
    p.2 < s.location_catalog_entries_.length
  same : ∀ i, i < s.stack_maps_.length → ∀ j,
    (s.stack_maps_.getD i {}).same_dex_register_map_as_ = some j →
    j < i
      ∧ (s.stack_maps_.getD j {}).dex_register_map_hash
          = (s.stack_maps_.getD i {}).dex_register_map_hash
      ∧ EqDexMaps s.dex_register_locations_ (s.stack_maps_.getD j {})
          (s.stack_maps_.getD i {})
  buckets : ∀ h b, lookupAssoc s.dex_map_hash_to_stack_map_indices_ h = some b →
    ∀ x ∈ b, x < s.stack_maps_.length
      ∧ (s.stack_maps_.getD x {}).dex_register_map_hash = h
      ∧ (s.stack_maps_.getD x {}).same_dex_register_map_as_ = Option.none
  buckets_mem : ∀ x, x < s.stack_maps_.length →
    (s.stack_maps_.getD x {}).same_dex_register_map_as_ = Option.none →
    ∃ b, lookupAssoc s.dex_map_hash_to_stack_map_indices_
        ((s.stack_maps_.getD x {}).dex_register_map_hash) = some b ∧ x ∈ b
  buckets_distinct : ∀ h b, lookupAssoc s.dex_map_hash_to_stack_map_indices_ h = some b →
    ∀ x ∈ b, ∀ y ∈ b, x ≠ y →
      ¬ EqDexMaps s.dex_register_locations_ (s.stack_maps_.getD x {})
          (s.stack_maps_.getD y {})

/-! ## Claim theorems: C8, C9, C7 -/

/-- C8: a call AddDexRegisterEntry(kind, value) with kind == None advances
the dex-register cursor by exactly one and changes nothing else: the
resulting state differs from the input state only in
`current_dex_register_`; in particular the location catalog, its index
map, the shared catalog-index array, the live mask and the rolling hash of
the open entry keep their prior values. -/
theorem addDexRegisterEntry_kind_none_advances_cursor_only (s : StackMapStream) (v : Int) :
    s.AddDexRegisterEntry DexRegisterKind.kNone v
      = some { s with current_dex_register_ := s.current_dex_register_ + 1 } := rfl

/-- C9: the "no entry currently open" precondition of BeginStackMapEntry
only compares the open entry's dex PC with the sentinel 0, and 0 is an
admissible dex PC (only -1 is rejected): after BeginStackMapEntry with
dex_pc = 0, a second BeginStackMapEntry passes every debug check and
silently overwrites the open entry — no stack map is recorded for the
first call and the current entry carries the second call's fields. -/
theorem nested_begin_with_dex_pc_zero_undetected :
    ((((initialStream 1).BeginStackMapEntry 0 4 1 Option.none 2 0).bind
        (fun s1 => s1.BeginStackMapEntry 7 8 3 Option.none 1 0)).map
        (fun s2 => (s2.stack_maps_.length, s2.current_entry_.dex_pc,
          s2.current_entry_.num_dex_registers, s2.current_entry_.register_mask)))
      = some (0, 7, 1, 3)
    ∧ (initialStream 1).BeginStackMapEntry kDexNoIndex 4 1 Option.none 2 0 = Option.none := by
  constructor
  · rfl
  · simp only [StackMapStream.BeginStackMapEntry]
    norm_num [u32, kDexNoIndex]

/-- C7 counterexample: PrepareForFillIn is not precondition-free on a
second call.  On the empty stream the first call succeeds, but chaining a
second call violates the DCHECK that the serialized header buffer is still
empty, so the composition aborts — even though FillIn was never called. -/
theorem prepareForFillIn_second_call_aborts_on_empty_stream :
    ((initialStream 1).PrepareForFillIn).isSome = true
    ∧ (((initialStream 1).PrepareForFillIn).bind (fun r => r.2.PrepareForFillIn))
        = Option.none := by
  constructor
  · rfl
  · rfl

/-- C7 amended: PrepareForFillIn is one-shot rather than idempotent.
Whenever a call succeeds, the serialized header buffer is nonempty
afterwards, so any second call — still before FillIn — trips the
DCHECK_EQ(code_info_encoding_.size(), 0u) precondition (line 179) and
aborts instead of recomputing the same size. -/
theorem prepareForFillIn_one_shot (s : StackMapStream) (r : Nat × StackMapStream)
    (h : s.PrepareForFillIn = some r) : r.2.PrepareForFillIn = Option.none := by
  have hne : r.2.code_info_encoding_ ≠ [] := by
    simp only [StackMapStream.PrepareForFillIn] at h
    split at h
    · exact absurd h (by simp)
    · split at h
      · exact absurd h (by simp)
      · rw [Option.some.injEq] at h
        subst h
        simp [compressHeader]
  simp only [StackMapStream.PrepareForFillIn]
  split
  · rfl
  · split
    · rfl
    · exact absurd (List.length_eq_zero.mp (by omega)) hne

/-- C7 amended witness: the one-shot behaviour at the concrete empty
stream. -/
theorem prepareForFillIn_one_shot_witness :
    ∃ r, (initialStream 1).PrepareForFillIn = some r
      ∧ r.2.PrepareForFillIn = Option.none := by
  match h : (initialStream 1).PrepareForFillIn with
  | some r => exact ⟨r, rfl, prepareForFillIn_one_shot (initialStream 1) r h⟩
  | Option.none => exact absurd h (by decide)

/-! ## C6: the inline-info max dex PC computation -/

theorem foldl_const_eq_iterate {α β : Type} (g : α → α) (l : List β) (a : α) :
    l.foldl (fun x _ => g x) a = g^[l.length] a := by
  induction l generalizing a with
  | nil => rfl
  | cons b t ih => simp [List.foldl_cons, ih, Function.iterate_succ_apply]

theorem framesSlice_zero (s : StackMapStream) (i : Nat) : framesSlice s i 0 = [] := rfl

theorem framesSlice_succ (s : StackMapStream) (i d : Nat) :
    framesSlice s i (d + 1) = s.inline_infos_.getD i {} :: framesSlice s (i + 1) d := by
  simp only [framesSlice, List.range_succ_eq_map, List.map_cons, List.map_map, Nat.add_zero]
  refine congrArg (_ :: ·) (List.map_congr_left fun k _ => ?_)
  have hk : i + Nat.succ k = i + 1 + k := by omega
  simp [Function.comp, hk]

theorem framesSlice_append (s : StackMapStream) (d1 : Nat) :
    ∀ i d2, framesSlice s i (d1 + d2) = framesSlice s i d1 ++ framesSlice s (i + d1) d2 := by
  induction d1 with
  | zero => intro i d2; simp [framesSlice_zero]
  | succ d ih =>
    intro i d2
    have h1 : d + 1 + d2 = (d + d2) + 1 := by omega
    rw [h1, framesSlice_succ, framesSlice_succ, ih]
    have h2 : i + 1 + d = i + (d + 1) := by omega
    simp [h2]

theorem map_getD_range {α : Type} (l : List α) (d : α) :
    (List.range l.length).map (fun k => l.getD k d) = l := by
  induction l with
  | nil => rfl
  | cons a t ih =>
    have hstep : ∀ k ∈ List.range t.length,
        ((fun k => (a :: t).getD k d) ∘ Nat.succ) k = t.getD k d := by
      intro k _
      rfl
    simp only [List.length_cons, List.range_succ_eq_map, List.map_cons, List.map_map]
    rw [List.map_congr_left hstep, ih]
    rfl

theorem framesSlice_full (s : StackMapStream) :
    framesSlice s 0 s.inline_infos_.length = s.inline_infos_ := by
  simpa [framesSlice] using map_getD_range s.inline_infos_ {}

theorem inlineMaxima_iterate (s : StackMapStream) (d : Nat) :
    ∀ (t : Nat × Nat × Nat) (i : Nat),
      (fun (a : (Nat × Nat × Nat) × Nat) =>
        (inlineMaximaStep a.1 (s.inline_infos_.getD a.2 {}), a.2 + 1))^[d] (t, i)
      = ((framesSlice s i d).foldl inlineMaximaStep t, i + d) := by
  induction d with
  | zero => intro t i; simp [framesSlice_zero]
  | succ d ih =>
    intro t i
    rw [Function.iterate_succ_apply, framesSlice_succ]
    simp only [List.foldl_cons]
    rw [ih]
    congr 1
    omega

theorem depthSum_cons (e : StackMapEntry) (l : List StackMapEntry) :
    ((e :: l).map StackMapEntry.inlining_depth).sum
      = e.inlining_depth + (l.map StackMapEntry.inlining_depth).sum := by
  simp

theorem sumDepths_eq_mapSum (s : StackMapStream) :
    sumDepths s = (s.stack_maps_.map StackMapEntry.inlining_depth).sum := by
  have h : ∀ (l : List StackMapEntry) (a : Nat),
      l.foldl (fun a e => a + e.inlining_depth) a
        = a + (l.map StackMapEntry.inlining_depth).sum := by
    intro l
    induction l with
    | nil => intro a; simp
    | cons e t ih => intro a; simp [ih, Nat.add_assoc]
  simpa using h s.stack_maps_ 0

theorem computeInlineInfoMaxima_frames_aux (s : StackMapStream)
    (entries : List StackMapEntry) :
    ∀ (t : Nat × Nat × Nat) (i : Nat),
      entries.foldl
        (fun (acc : (Nat × Nat × Nat) × Nat) entry =>
          (List.range entry.inlining_depth).foldl
            (fun (a : (Nat × Nat × Nat) × Nat) _ =>
              (inlineMaximaStep a.1 (s.inline_infos_.getD a.2 {}), a.2 + 1))
            acc)
        (t, i)
      = ((framesSlice s i ((entries.map StackMapEntry.inlining_depth).sum)).foldl
           inlineMaximaStep t,
         i + (entries.map StackMapEntry.inlining_depth).sum) := by
  induction entries with
  | nil => intro t i; simp [framesSlice_zero]
  | cons e rest ih =>
    intro t i
    rw [List.foldl_cons, foldl_const_eq_iterate, List.length_range, inlineMaxima_iterate, ih]
    rw [depthSum_cons, framesSlice_append, List.foldl_append]
    simp only [Prod.mk.injEq]
    exact ⟨trivial, by omega⟩

theorem computeInlineInfoMaxima_frames (s : StackMapStream) :
    s.ComputeInlineInfoMaxima
      = ((framesSlice s 0 (sumDepths s)).foldl inlineMaximaStep (0, kDexNoIndex, 0),
         sumDepths s) := by
  rw [StackMapStream.ComputeInlineInfoMaxima, sumDepths_eq_mapSum]
  simpa using computeInlineInfoMaxima_frames_aux s s.stack_maps_ (0, kDexNoIndex, 0) 0

theorem foldl_inlineMaximaStep_pc (l : List InlineInfoEntry) :
    ∀ t : Nat × Nat × Nat,
      (l.foldl inlineMaximaStep t).2.1 = l.foldl dexPcMaxStep t.2.1 := by
  induction l with
  | nil => intro t; rfl
  | cons f t ih => intro a; rw [List.foldl_cons, List.foldl_cons, ih]; rfl

theorem dexPcMaxStep_sentinel (v : Nat) (f : InlineInfoEntry)
    (h : f.dex_pc = kDexNoIndex) : dexPcMaxStep v f = v := by
  simp [dexPcMaxStep, h]

theorem dexPcMaxStep_value (v : Nat) (f : InlineInfoEntry) (hv : v ≠ kDexNoIndex)
    (h : f.dex_pc ≠ kDexNoIndex) : dexPcMaxStep v f = max v f.dex_pc := by
  simp only [dexPcMaxStep, h, hv, ne_eq, not_false_eq_true, true_and, false_or]
  rcases Nat.lt_or_ge v f.dex_pc with hlt | hge
  · simp [hlt, Nat.max_eq_right (Nat.le_of_lt hlt)]
  · simp [Nat.not_lt.mpr hge, Nat.max_eq_left hge]

theorem nonSentinelDexPcs_cons_sentinel (f : InlineInfoEntry) (t : List InlineInfoEntry)
    (h : f.dex_pc = kDexNoIndex) : nonSentinelDexPcs (f :: t) = nonSentinelDexPcs t := by
  simp [nonSentinelDexPcs, List.filter_cons, h]

theorem nonSentinelDexPcs_cons_value (f : InlineInfoEntry) (t : List InlineInfoEntry)
    (h : f.dex_pc ≠ kDexNoIndex) :
    nonSentinelDexPcs (f :: t) = f.dex_pc :: nonSentinelDexPcs t := by
  simp [nonSentinelDexPcs, List.filter_cons, bne_iff_ne, h]

theorem foldl_dexPcMaxStep_of_ne (l : List InlineInfoEntry) :
    ∀ v, v ≠ kDexNoIndex → l.foldl dexPcMaxStep v = (nonSentinelDexPcs l).foldl max v := by
  induction l with
  | nil => intro v _; simp [nonSentinelDexPcs]
  | cons f t ih =>
    intro v hv
    by_cases h : f.dex_pc = kDexNoIndex
    · rw [List.foldl_cons, dexPcMaxStep_sentinel v f h, nonSentinelDexPcs_cons_sentinel f t h,
        ih v hv]
    · rw [List.foldl_cons, dexPcMaxStep_value v f hv h, nonSentinelDexPcs_cons_value f t h,
        List.foldl_cons]
      refine ih _ ?_
      rcases max_choice v f.dex_pc with hc | hc <;> rw [hc] <;> assumption

theorem foldl_dexPcMaxStep_sentinel (l : List InlineInfoEntry) :
    l.foldl dexPcMaxStep kDexNoIndex = maxDexPcOverFrames l := by
  induction l with
  | nil => simp [maxDexPcOverFrames, nonSentinelDexPcs]
  | cons f t ih =>
    by_cases h : f.dex_pc = kDexNoIndex
    · rw [List.foldl_cons, dexPcMaxStep_sentinel _ f h, ih]
      unfold maxDexPcOverFrames
      rw [nonSentinelDexPcs_cons_sentinel f t h]
    · rw [List.foldl_cons]
      have hstep : dexPcMaxStep kDexNoIndex f = f.dex_pc := by
        simp [dexPcMaxStep, h]
      rw [hstep, foldl_dexPcMaxStep_of_ne t f.dex_pc h]
      unfold maxDexPcOverFrames
      rw [nonSentinelDexPcs_cons_value f t h]
      simp [List.foldl_cons]

/-- C6: in ComputeInlineInfoEncoding, an inline frame whose dex PC is the
kDexNoIndex sentinel never contributes to the computed max_dex_pc: under
the walk-consumes-the-whole-table condition that the function itself
asserts (sum of depths = number of inline frames), the computed maximum
equals the maximum dex PC over the frames with dex_pc different from
kDexNoIndex and remains kDexNoIndex when every frame (or no frame)
carries the sentinel. -/
theorem computeInlineInfo_max_dex_pc_ignores_sentinel (s : StackMapStream)
    (h : sumDepths s = s.inline_infos_.length) :
    s.ComputeInlineInfoMaxima.1.2.1 = maxDexPcOverFrames s.inline_infos_ := by
  rw [computeInlineInfoMaxima_frames]
  show ((framesSlice s 0 (sumDepths s)).foldl inlineMaximaStep (0, kDexNoIndex, 0)).2.1 = _
  rw [foldl_inlineMaximaStep_pc, h, framesSlice_full]
  exact foldl_dexPcMaxStep_sentinel s.inline_infos_

/-- Concrete stream for the C6 witness: one stack map with two inline
frames, one real dex PC and one sentinel. -/
def c6WitnessState : StackMapStream :=
  { stack_maps_ := [{ inlining_depth := 2 }],
    inline_infos_ := [{ dex_pc := 5 }, { dex_pc := kDexNoIndex }] }

/-- C6 witness: the theorem applied at a concrete stream. -/
theorem computeInlineInfo_max_dex_pc_ignores_sentinel_witness :
    sumDepths c6WitnessState = c6WitnessState.inline_infos_.length
      ∧ c6WitnessState.ComputeInlineInfoMaxima.1.2.1
          = maxDexPcOverFrames c6WitnessState.inline_infos_ :=
  ⟨by decide, computeInlineInfo_max_dex_pc_ignores_sentinel c6WitnessState (by decide)⟩

/-! ## C5: the mask interners -/

theorem listSet_length {α : Type} (l : List α) : ∀ (i : Nat) (a : α),
    (listSet l i a).length = l.length := by
  induction l with
  | nil => intro i a; rfl
  | cons x t ih =>
    intro i a
    cases i with
    | zero => rfl
    | succ j => simp [listSet, ih]

theorem listSet_getD_ne {α : Type} (l : List α) : ∀ (i j : Nat) (a d : α), j ≠ i →
    (listSet l i a).getD j d = l.getD j d := by
  induction l with
  | nil => intro i j a d _; rfl
  | cons x t ih =>
    intro i j a d h
    cases i with
    | zero =>
      cases j with
      | zero => exact absurd rfl h
      | succ j2 => simp [listSet, List.getD_cons_succ]
    | succ i2 =>
      cases j with
      | zero => simp [listSet, List.getD_cons_zero]
      | succ j2 =>
        simp only [listSet, List.getD_cons_succ]
        exact ih i2 j2 a d (by omega)

theorem listSet_getD_self {α : Type} (l : List α) : ∀ (i : Nat) (a d : α), i < l.length →
    (listSet l i a).getD i d = a := by
  induction l with
  | nil => intro i a d h; simp at h
  | cons x t ih =>
    intro i a d h
    cases i with
    | zero => rfl
    | succ j =>
      simp only [listSet, List.getD_cons_succ]
      exact ih j a d (by simpa using h)

theorem resizeList_length {α : Type} (l : List α) (n : Nat) (d : α) :
    (resizeList l n d).length = n := by
  simp only [resizeList, List.length_take, List.length_append, List.length_replicate]
  omega

theorem mem_foldl_distinct (l : List Nat) :
    ∀ (acc : List Nat) (k : Nat),
      (k ∈ l.foldl (fun acc k => if k ∈ acc then acc else acc ++ [k]) acc)
        ↔ k ∈ acc ∨ k ∈ l := by
  induction l with
  | nil => intro acc k; simp
  | cons a t ih =>
    intro acc k
    rw [List.foldl_cons, ih]
    by_cases h : a ∈ acc
    · simp only [if_pos h, List.mem_cons]
      constructor
      · rintro (hk | hk)
        · exact Or.inl hk
        · exact Or.inr (Or.inr hk)
      · rintro (hk | rfl | hk)
        · exact Or.inl hk
        · exact Or.inl h
        · exact Or.inr hk
    · simp only [if_neg h, List.mem_append, List.mem_singleton, List.mem_cons]
      tauto

theorem mem_distinctKeys (keys : List Nat) (k : Nat) :
    k ∈ distinctKeys keys ↔ k ∈ keys := by
  rw [distinctKeys, mem_foldl_distinct]
  simp

theorem length_foldl_distinct (l : List Nat) :
    ∀ acc, (l.foldl (fun acc k => if k ∈ acc then acc else acc ++ [k]) acc).length
      ≤ acc.length + l.length := by
  induction l with
  | nil => intro acc; simp
  | cons a t ih =>
    intro acc
    rw [List.foldl_cons]
    refine (ih _).trans ?_
    by_cases h : a ∈ acc
    · simp [h]
    · simp [h]
      omega

theorem length_distinctKeys_le (keys : List Nat) :
    (distinctKeys keys).length ≤ keys.length := by
  simpa using length_foldl_distinct keys []

theorem distinctKeys_append_singleton (l : List Nat) (k : Nat) :
    distinctKeys (l ++ [k])
      = if k ∈ distinctKeys l then distinctKeys l else distinctKeys l ++ [k] := by
  rw [distinctKeys, List.foldl_append]
  rfl

theorem assocIdxAux_length (l : List Nat) : ∀ i, (assocIdxAux l i).length = l.length := by
  induction l with
  | nil => intro i; rfl
  | cons a t ih => intro i; simp [assocIdxAux, ih]

theorem assocIdx_length (l : List Nat) : (assocIdx l).length = l.length :=
  assocIdxAux_length l 0

theorem lookupAssoc_assocIdxAux (l : List Nat) :
    ∀ (i k : Nat), lookupAssoc (assocIdxAux l i) k
      = if k ∈ l then some (i + List.indexOf k l) else Option.none := by
  induction l with
  | nil => intro i k; simp [assocIdxAux, lookupAssoc]
  | cons a t ih =>
    intro i k
    simp only [assocIdxAux, lookupAssoc]
    by_cases h : a = k
    · subst h
      simp [List.indexOf_cons_self]
    · rw [if_neg h, ih (i + 1) k]
      by_cases hm : k ∈ t
      · rw [if_pos hm, if_pos (List.mem_cons.mpr (Or.inr hm))]
        rw [List.indexOf_cons_ne t h]
        exact congrArg some (by omega)
      · rw [if_neg hm, if_neg ?_]
        intro hc
        rcases List.mem_cons.mp hc with rfl | hc2
        · exact h rfl
        · exact hm hc2

theorem lookupAssoc_assocIdx (l : List Nat) (k : Nat) :
    lookupAssoc (assocIdx l) k
      = if k ∈ l then some (List.indexOf k l) else Option.none := by
  simpa using lookupAssoc_assocIdxAux l 0 k

theorem assocIdxAux_append (l : List Nat) (k : Nat) :
    ∀ i, assocIdxAux (l ++ [k]) i = assocIdxAux l i ++ [(k, i + l.length)] := by
  induction l with
  | nil => intro i; simp [assocIdxAux]
  | cons a t ih =>
    intro i
    show (a, i) :: assocIdxAux (t ++ [k]) (i + 1)
        = assocIdxAux (a :: t) i ++ [(k, i + (a :: t).length)]
    rw [ih (i + 1)]
    have h2 : i + 1 + t.length = i + (t.length + 1) := by omega
    rw [h2]
    rfl

theorem assocIdx_append (l : List Nat) (k : Nat) :
    assocIdx (l ++ [k]) = assocIdx l ++ [(k, l.length)] := by
  simpa using assocIdxAux_append l k 0

theorem getD_append_self {α : Type} (l : List α) (a d : α) :
    (l ++ [a]).getD l.length d = a := by
  rw [List.getD_append_right l [a] d l.length (Nat.le_refl _)]
  simp

theorem internStep_fold_spec {α : Type} (key : α → Nat) (upd : α → Nat → α)
    (rest : List α) :
    ∀ (prev : List α) (table : List Nat) (N : Nat),
      table.length = N →
      (∀ j, j < (distinctKeys (prev.map key)).length →
        table.getD j 0 = (distinctKeys (prev.map key)).getD j 0) →
      prev.length + rest.length ≤ N →
      ∃ table2,
        rest.foldl (internStep key upd)
          (prev.map (fun x => upd x (List.indexOf (key x) (distinctKeys (prev.map key)))),
            assocIdx (distinctKeys (prev.map key)), table)
          = ((prev ++ rest).map
               (fun x => upd x (List.indexOf (key x) (distinctKeys ((prev ++ rest).map key)))),
              assocIdx (distinctKeys ((prev ++ rest).map key)), table2)
          ∧ table2.length = N
          ∧ (∀ j, j < (distinctKeys ((prev ++ rest).map key)).length →
              table2.getD j 0 = (distinctKeys ((prev ++ rest).map key)).getD j 0) := by
  induction rest with
  | nil =>
    intro prev table N hlen hpre _
    exact ⟨table, by simp, hlen, by simpa using hpre⟩
  | cons x rest ih =>
    intro prev table N hlen hpre hbound
    rw [List.foldl_cons]
    have hstep : internStep key upd
        (prev.map (fun y => upd y (List.indexOf (key y) (distinctKeys (prev.map key)))),
          assocIdx (distinctKeys (prev.map key)), table) x
        = ((prev ++ [x]).map
             (fun y => upd y (List.indexOf (key y) (distinctKeys ((prev ++ [x]).map key)))),
            assocIdx (distinctKeys ((prev ++ [x]).map key)),
            listSet table (distinctKeys (prev.map key)).length (key x)) := by
      have hD : distinctKeys ((prev ++ [x]).map key)
          = if key x ∈ distinctKeys (prev.map key) then distinctKeys (prev.map key)
            else distinctKeys (prev.map key) ++ [key x] := by
        rw [List.map_append]
        exact distinctKeys_append_singleton (prev.map key) (key x)
      by_cases hmem : key x ∈ distinctKeys (prev.map key)
      · have hD2 : distinctKeys (List.map key prev ++ [key x])
            = distinctKeys (List.map key prev) := by
          rw [distinctKeys_append_singleton, if_pos hmem]
        simp only [internStep, lookupAssoc_assocIdx, if_pos hmem, assocIdx_length,
          List.map_append, List.map_cons, List.map_nil, hD2]
      · have hD2 : distinctKeys (List.map key prev ++ [key x])
            = distinctKeys (List.map key prev) ++ [key x] := by
          rw [distinctKeys_append_singleton, if_neg hmem]
        have hmap : List.map (fun y => upd y (List.indexOf (key y)
              (distinctKeys (List.map key prev) ++ [key x]))) prev
            = List.map (fun y => upd y (List.indexOf (key y)
              (distinctKeys (List.map key prev)))) prev := by
          refine List.map_congr_left fun y hy => ?_
          have hky : key y ∈ distinctKeys (List.map key prev) := by
            rw [mem_distinctKeys]
            exact List.mem_map_of_mem key hy
          rw [List.indexOf_append_of_mem hky]
        have hx : List.indexOf (key x) (distinctKeys (List.map key prev) ++ [key x])
            = (distinctKeys (List.map key prev)).length := by
          rw [List.indexOf_append_of_not_mem hmem]
          simp [List.indexOf_cons_self]
        simp only [internStep, lookupAssoc_assocIdx, if_neg hmem, assocIdx_length,
          List.map_append, List.map_cons, List.map_nil, hD2, assocIdx_append, hmap, hx]
    rw [hstep]
    have hlen2 : (listSet table (distinctKeys (prev.map key)).length (key x)).length = N := by
      rw [listSet_length, hlen]
    have hDlt : (distinctKeys (prev.map key)).length < N := by
      have h1 := length_distinctKeys_le (prev.map key)
      rw [List.length_map] at h1
      simp only [List.length_cons] at hbound
      omega
    have hpre2 : ∀ j, j < (distinctKeys ((prev ++ [x]).map key)).length →
        (listSet table (distinctKeys (prev.map key)).length (key x)).getD j 0
          = (distinctKeys ((prev ++ [x]).map key)).getD j 0 := by
      have hD := distinctKeys_append_singleton (prev.map key) (key x)
      rw [List.map_append]
      by_cases hmem : key x ∈ distinctKeys (prev.map key)
      · rw [List.map_cons, List.map_nil, hD, if_pos hmem]
        intro j hj
        rw [listSet_getD_ne table _ j _ 0 (by omega)]
        exact hpre j hj
      · rw [List.map_cons, List.map_nil, hD, if_neg hmem]
        intro j hj
        simp only [List.length_append, List.length_singleton] at hj
        by_cases hje : j = (distinctKeys (prev.map key)).length
        · subst hje
          rw [listSet_getD_self table _ (key x) 0 (by omega), getD_append_self]
        · rw [listSet_getD_ne table _ j _ 0 hje,
            List.getD_append _ _ 0 j (by omega)]
          exact hpre j (by omega)
    have hbound2 : (prev ++ [x]).length + rest.length ≤ N := by
      simp only [List.length_append, List.length_singleton]
      simp only [List.length_cons] at hbound
      omega
    obtain ⟨table2, heq, hl2, hp2⟩ := ih (prev ++ [x]) _ N hlen2 hpre2 hbound2
    have hl : prev ++ [x] ++ rest = prev ++ x :: rest := by simp
    refine ⟨table2, ?_, hl2, ?_⟩
    · rw [heq, hl]
    · rw [← hl]
      exact hp2

theorem internFold_full_spec {α : Type} (key : α → Nat) (upd : α → Nat → α)
    (xs : List α) (table0 : List Nat) (hlen : table0.length = xs.length) :
    ∃ table2,
      xs.foldl (internStep key upd) ([], [], table0)
        = (xs.map (fun x => upd x (List.indexOf (key x) (distinctKeys (xs.map key)))),
           assocIdx (distinctKeys (xs.map key)), table2)
      ∧ table2.length = xs.length
      ∧ ∀ j, j < (distinctKeys (xs.map key)).length →
          table2.getD j 0 = (distinctKeys (xs.map key)).getD j 0 := by
  have h := internStep_fold_spec key upd xs [] table0 xs.length hlen
    (by intro j hj; simp [distinctKeys] at hj) (by simp)
  simpa using h

theorem getD_map_lt {α β : Type} (f : α → β) (l : List α) (i : Nat) (d : β) (d2 : α)
    (h : i < l.length) : (l.map f).getD i d = f (l.getD i d2) := by
  rw [List.getD_eq_getElem _ d (by simpa using h), List.getD_eq_getElem _ d2 h,
    List.getElem_map]

theorem getD_distinctKeys_indexOf (D : List Nat) (k : Nat) (h : k ∈ D) :
    D.getD (List.indexOf k D) 0 = k := by
  rw [List.getD_eq_getElem _ 0 (List.indexOf_lt_length.mpr h)]
  exact List.getElem_indexOf (List.indexOf_lt_length.mpr h)

/-- C5: PrepareRegisterMasks and PrepareStackMasks each assign
insertion-ordered dense indices — each entry's index is the position of
its key (the 32-bit register mask, respectively the byte-packed stack
mask content) in the insertion-ordered list of distinct keys, so the
first occurrence of a distinct key gets index 0, the next distinct key 1,
and so on; each function returns exactly the number of distinct keys
seen; and afterwards every entry's register_mask_index (resp.
stack_mask_index) is below that count and indexes a table slot holding
exactly that entry's original register mask (resp. byte-packed stack
mask). -/
theorem prepareMasks_insertion_ordered_dense_indices (s : StackMapStream) (bits : Nat) :
    s.PrepareRegisterMasks.1
        = (distinctKeys (s.stack_maps_.map (fun e => e.register_mask))).length
    ∧ (s.PrepareStackMasks bits).1
        = (distinctKeys (s.stack_maps_.map (stackMaskKey bits))).length
    ∧ (∀ i, i < s.stack_maps_.length →
        (s.PrepareRegisterMasks.2.stack_maps_.getD i {}).register_mask_index
            = List.indexOf ((s.stack_maps_.getD i {}).register_mask)
                (distinctKeys (s.stack_maps_.map (fun e => e.register_mask)))
          ∧ (s.PrepareRegisterMasks.2.stack_maps_.getD i {}).register_mask_index
              < s.PrepareRegisterMasks.1
          ∧ s.PrepareRegisterMasks.2.register_masks_.getD
                ((s.PrepareRegisterMasks.2.stack_maps_.getD i {}).register_mask_index) 0
              = (s.stack_maps_.getD i {}).register_mask
          ∧ ((s.PrepareStackMasks bits).2.stack_maps_.getD i {}).stack_mask_index
              = List.indexOf (stackMaskKey bits (s.stack_maps_.getD i {}))
                  (distinctKeys (s.stack_maps_.map (stackMaskKey bits)))
          ∧ ((s.PrepareStackMasks bits).2.stack_maps_.getD i {}).stack_mask_index
              < (s.PrepareStackMasks bits).1
          ∧ (s.PrepareStackMasks bits).2.stack_masks_.getD
                (((s.PrepareStackMasks bits).2.stack_maps_.getD i {}).stack_mask_index) 0
              = stackMaskKey bits (s.stack_maps_.getD i {})) := by
  obtain ⟨tr, hreq, hrlen, hrpre⟩ :=
    internFold_full_spec (fun e => e.register_mask)
      (fun e j => { e with register_mask_index := j }) s.stack_maps_
      (resizeList s.register_masks_ s.stack_maps_.length 0)
      (resizeList_length _ _ _)
  obtain ⟨ts, hseq, hslen, hspre⟩ :=
    internFold_full_spec (stackMaskKey bits)
      (fun e j => { e with stack_mask_index := j }) s.stack_maps_
      (resizeList s.stack_masks_ s.stack_maps_.length 0)
      (resizeList_length _ _ _)
  have hR : s.PrepareRegisterMasks
      = ((assocIdx (distinctKeys (s.stack_maps_.map (fun e => e.register_mask)))).length,
         { s with
           stack_maps_ := s.stack_maps_.map (fun x =>
             { x with register_mask_index := (List.indexOf x.register_mask
                 (distinctKeys (s.stack_maps_.map (fun e => e.register_mask)))) }),
           register_masks_ := tr }) := by
    simp only [StackMapStream.PrepareRegisterMasks]
    rw [hreq]
  have hS : s.PrepareStackMasks bits
      = ((assocIdx (distinctKeys (s.stack_maps_.map (stackMaskKey bits)))).length,
         { s with
           stack_maps_ := s.stack_maps_.map (fun x =>
             { x with stack_mask_index := (List.indexOf (stackMaskKey bits x)
                 (distinctKeys (s.stack_maps_.map (stackMaskKey bits)))) }),
           stack_masks_ := ts }) := by
    simp only [StackMapStream.PrepareStackMasks]
    rw [hseq]
  have hcountR : s.PrepareRegisterMasks.1
      = (distinctKeys (s.stack_maps_.map (fun e => e.register_mask))).length := by
    rw [hR, assocIdx_length]
  have hcountS : (s.PrepareStackMasks bits).1
      = (distinctKeys (s.stack_maps_.map (stackMaskKey bits))).length := by
    rw [hS, assocIdx_length]
  have hmapsR : s.PrepareRegisterMasks.2.stack_maps_
      = s.stack_maps_.map (fun x =>
          { x with register_mask_index := (List.indexOf x.register_mask
              (distinctKeys (s.stack_maps_.map (fun e => e.register_mask)))) }) := by
    rw [hR]
  have htabR : s.PrepareRegisterMasks.2.register_masks_ = tr := by rw [hR]
  have hmapsS : (s.PrepareStackMasks bits).2.stack_maps_
      = s.stack_maps_.map (fun x =>
          { x with stack_mask_index := (List.indexOf (stackMaskKey bits x)
              (distinctKeys (s.stack_maps_.map (stackMaskKey bits)))) }) := by
    rw [hS]
  have htabS : (s.PrepareStackMasks bits).2.stack_masks_ = ts := by rw [hS]
  refine ⟨hcountR, hcountS, ?_⟩
  intro i hi
  have hrmem : (s.stack_maps_.getD i {}).register_mask
      ∈ distinctKeys (s.stack_maps_.map (fun e => e.register_mask)) := by
    rw [mem_distinctKeys, List.getD_eq_getElem _ _ hi]
    exact List.mem_map_of_mem _ (List.getElem_mem hi)
  have hsmem : stackMaskKey bits (s.stack_maps_.getD i {})
      ∈ distinctKeys (s.stack_maps_.map (stackMaskKey bits)) := by
    rw [mem_distinctKeys, List.getD_eq_getElem _ _ hi]
    exact List.mem_map_of_mem _ (List.getElem_mem hi)
  have hgR : s.PrepareRegisterMasks.2.stack_maps_.getD i {}
      = { s.stack_maps_.getD i {} with
          register_mask_index := (List.indexOf ((s.stack_maps_.getD i {}).register_mask)
            (distinctKeys (s.stack_maps_.map (fun e => e.register_mask)))) } := by
    have hi2 : i < (s.stack_maps_.map (fun x : StackMapEntry =>
        { x with register_mask_index := (List.indexOf x.register_mask
            (distinctKeys (s.stack_maps_.map (fun e : StackMapEntry =>
              e.register_mask)))) })).length := by
      simpa using hi
    rw [hmapsR, List.getD_eq_getElem _ _ hi2, List.getElem_map,
      ← List.getD_eq_getElem s.stack_maps_ {} hi]
  have hgS : (s.PrepareStackMasks bits).2.stack_maps_.getD i {}
      = { s.stack_maps_.getD i {} with
          stack_mask_index := (List.indexOf (stackMaskKey bits (s.stack_maps_.getD i {}))
            (distinctKeys (s.stack_maps_.map (stackMaskKey bits)))) } := by
    have hi2 : i < (s.stack_maps_.map (fun x : StackMapEntry =>
        { x with stack_mask_index := (List.indexOf (stackMaskKey bits x)
            (distinctKeys (s.stack_maps_.map (stackMaskKey bits)))) })).length := by
      simpa using hi
    rw [hmapsS, List.getD_eq_getElem _ _ hi2, List.getElem_map,
      ← List.getD_eq_getElem s.stack_maps_ {} hi]
  refine ⟨?_, ?_, ?_, ?_, ?_, ?_⟩
  · rw [hgR]
  · rw [hgR, hcountR]
    exact List.indexOf_lt_length.mpr hrmem
  · rw [hgR, htabR]
    show tr.getD (List.indexOf ((s.stack_maps_.getD i {}).register_mask) _) 0 = _
    rw [hrpre _ (List.indexOf_lt_length.mpr hrmem), getD_distinctKeys_indexOf _ _ hrmem]
  · rw [hgS]
  · rw [hgS, hcountS]
    exact List.indexOf_lt_length.mpr hsmem
  · rw [hgS, htabS]
    show ts.getD (List.indexOf (stackMaskKey bits (s.stack_maps_.getD i {})) _) 0 = _
    rw [hspre _ (List.indexOf_lt_length.mpr hsmem), getD_distinctKeys_indexOf _ _ hsmem]

/-- Concrete stream for the C5 witness: three entries, two distinct
register masks and two distinct stack masks, with a duplicate. -/
def c5WitnessState : StackMapStream :=
  { stack_maps_ := [{ register_mask := 3, sp_mask := some 2 },
                    { register_mask := 5 },
                    { register_mask := 3, sp_mask := some 2 }] }

/-- C5 witness: the interner specification applied at a concrete stream
and entry position. -/
theorem prepareMasks_insertion_ordered_dense_indices_witness :
    c5WitnessState.PrepareRegisterMasks.1
        = (distinctKeys (c5WitnessState.stack_maps_.map (fun e => e.register_mask))).length
    ∧ (2 : Nat) < c5WitnessState.stack_maps_.length
    ∧ (c5WitnessState.PrepareRegisterMasks.2.stack_maps_.getD 2 {}).register_mask_index
        = List.indexOf ((c5WitnessState.stack_maps_.getD 2 {}).register_mask)
            (distinctKeys (c5WitnessState.stack_maps_.map (fun e => e.register_mask)))
    ∧ (c5WitnessState.PrepareStackMasks 2).2.stack_masks_.getD
          (((c5WitnessState.PrepareStackMasks 2).2.stack_maps_.getD 2 {}).stack_mask_index) 0
        = stackMaskKey 2 (c5WitnessState.stack_maps_.getD 2 {}) := by
  have h := prepareMasks_insertion_ordered_dense_indices c5WitnessState 2
  have h2 := h.2.2 2 (by decide)
  exact ⟨h.1, by decide, h2.1, h2.2.2.2.2.2⟩

/-! ## C10: sized bytes versus bytes actually written -/

theorem optFold_nil {α β : Type} (f : β → α → Option β) (b : β) :
    optFold f [] b = some b := rfl

theorem optFold_append {α β : Type} (f : β → α → Option β) (l1 : List α) :
    ∀ (l2 : List α) (b : β),
      optFold f (l1 ++ l2) b
        = match optFold f l1 b with
          | some b1 => optFold f l2 b1
          | Option.none => Option.none := by
  induction l1 with
  | nil => intro l2 b; rfl
  | cons a t ih =>
    intro l2 b
    simp only [List.cons_append, optFold]
    match f b a with
    | some b1 => exact ih l2 b1
    | Option.none => rfl

theorem inlineFramesMapSizes_zero (s : StackMapStream) (i : Nat) :
    inlineFramesMapSizes s i 0 = 0 := rfl

theorem inlineFramesMapSizes_succ (s : StackMapStream) (i d : Nat) :
    inlineFramesMapSizes s i (d + 1)
      = inlineFramesMapSizes s i d
        + s.ComputeDexRegisterMapSize
            (s.inline_infos_.getD (i + d) {}).num_dex_registers
            (s.inline_infos_.getD (i + d) {}).live_dex_registers_mask := by
  unfold inlineFramesMapSizes
  rw [framesSlice_append s d i 1]
  have h1 : framesSlice s (i + d) 1 = [s.inline_infos_.getD (i + d) {}] := by
    simp [framesSlice, List.range_succ]
  rw [h1]
  simp [List.sum_append]

theorem computeInner_fold (s : StackMapStream) (d : Nat) :
    ∀ a : Nat × Nat,
      (List.range d).foldl
        (fun (a : Nat × Nat) _ =>
          let inline_entry := s.inline_infos_.getD a.2 {}
          (a.1 + s.ComputeDexRegisterMapSize inline_entry.num_dex_registers
              inline_entry.live_dex_registers_mask, a.2 + 1)) a
      = (a.1 + inlineFramesMapSizes s a.2 d, a.2 + d) := by
  induction d with
  | zero => intro a; simp [inlineFramesMapSizes_zero]
  | succ d ih =>
    intro a
    rw [List.range_succ, List.foldl_append, ih]
    simp only [List.foldl_cons, List.foldl_nil, inlineFramesMapSizes_succ, Prod.mk.injEq]
    exact ⟨by omega, by omega⟩

theorem computeMapsSize_fold (s : StackMapStream) (entries : List StackMapEntry) :
    ∀ c : Nat × Nat,
      entries.foldl
        (fun (acc : Nat × Nat) entry =>
          let size := acc.1 +
            (match entry.same_dex_register_map_as_ with
             | Option.none =>
               s.ComputeDexRegisterMapSize entry.num_dex_registers entry.live_dex_registers_mask
             | some _ => 0)
          (List.range entry.inlining_depth).foldl
            (fun (a : Nat × Nat) _ =>
              let inline_entry := s.inline_infos_.getD a.2 {}
              (a.1 + s.ComputeDexRegisterMapSize inline_entry.num_dex_registers
                  inline_entry.live_dex_registers_mask, a.2 + 1))
            (size, acc.2)) c
      = (c.1 + computeContrib s entries c.2,
         c.2 + (entries.map StackMapEntry.inlining_depth).sum) := by
  induction entries with
  | nil => intro c; simp [computeContrib]
  | cons e rest ih =>
    intro c
    rw [List.foldl_cons]
    show rest.foldl _
        ((List.range e.inlining_depth).foldl _
          (c.1 + (match e.same_dex_register_map_as_ with
            | Option.none =>
              s.ComputeDexRegisterMapSize e.num_dex_registers e.live_dex_registers_mask
            | some _ => 0), c.2)) = _
    rw [computeInner_fold, ih]
    simp only [computeContrib, depthSum_cons, Prod.mk.injEq]
    exact ⟨by omega, by omega⟩

theorem computeDexRegisterMapsSize_eq_contrib (s : StackMapStream) :
    s.ComputeDexRegisterMapsSize = computeContrib s s.stack_maps_ 0 := by
  rw [StackMapStream.ComputeDexRegisterMapsSize, computeMapsSize_fold]
  simp

theorem fillInOneInline_cursor (s : StackMapStream) (enc : CodeInfoEncoding)
    (e : StackMapEntry) (acc : List InlineRecord × List (Nat × EncodedDexRegisterMap) × Nat)
    (d : Nat) (out : List InlineRecord × List (Nat × EncodedDexRegisterMap) × Nat)
    (h : s.fillInOneInline enc e acc d = some out) :
    out.2.2 = acc.2.2
      + s.ComputeDexRegisterMapSize
          (s.inline_infos_.getD (d + e.inline_infos_start_index) {}).num_dex_registers
          (s.inline_infos_.getD (d + e.inline_infos_start_index) {}).live_dex_registers_mask := by
  simp only [StackMapStream.fillInOneInline] at h
  split at h
  · split at h
    · exact absurd h (by simp)
    · rw [Option.some.injEq] at h
      subst h
      have hz : s.ComputeDexRegisterMapSize
          (s.inline_infos_.getD (d + e.inline_infos_start_index) {}).num_dex_registers
          (s.inline_infos_.getD (d + e.inline_infos_start_index) {}).live_dex_registers_mask
          = 0 := by
        simp_all [StackMapStream.ComputeDexRegisterMapSize]
      show acc.2.2 = acc.2.2 + _
      rw [hz]
      omega
  · split at h
    · exact absurd h (by simp)
    · split at h
      · split at h
        · rw [Option.some.injEq] at h
          subst h
          rfl
        · exact absurd h (by simp)
      · exact absurd h (by simp)

theorem fillInInline_fold_cursor (s : StackMapStream) (enc : CodeInfoEncoding)
    (e : StackMapEntry) (d : Nat) :
    ∀ acc out, optFold (s.fillInOneInline enc e) (List.range d) acc = some out →
      out.2.2 = acc.2.2 + inlineFramesMapSizes s e.inline_infos_start_index d := by
  induction d with
  | zero =>
    intro acc out h
    rw [List.range_zero, optFold_nil, Option.some.injEq] at h
    subst h
    rw [inlineFramesMapSizes_zero]
    omega
  | succ d ih =>
    intro acc out h
    rw [List.range_succ, optFold_append] at h
    split at h
    · rename_i b1 hb1
      simp only [optFold] at h
      split at h
      · rename_i b2 hb2
        rw [Option.some.injEq] at h
        subst h
        have hcomm : d + e.inline_infos_start_index = e.inline_infos_start_index + d := by
          omega
        have hc := fillInOneInline_cursor s enc e b1 d b2 hb2
        rw [hcomm] at hc
        rw [hc, ih acc b1 hb1, inlineFramesMapSizes_succ]
        omega
      · exact absurd h (by simp)
    · exact absurd h (by simp)

theorem fillInOneEntry_cursor (s : StackMapStream) (enc : CodeInfoEncoding)
    (acc : FillAcc) (e : StackMapEntry) (out : FillAcc)
    (h : s.fillInOneEntry enc acc e = some out) :
    out.next_dex_register_map_offset
        + (if isDeadMapEntry e then
            dexRegisterMapFixedSize + bitsToBytes e.num_dex_registers else 0)
      = acc.next_dex_register_map_offset
        + ((match e.same_dex_register_map_as_ with
            | Option.none =>
              s.ComputeDexRegisterMapSize e.num_dex_registers e.live_dex_registers_mask
            | some _ => 0)
           + inlineFramesMapSizes s acc.next_inline_info_index e.inlining_depth)
      ∧ out.next_inline_info_index = acc.next_inline_info_index + e.inlining_depth := by
  simp only [StackMapStream.fillInOneEntry] at h
  split at h
  · exact absurd h (by simp)
  · rename_i mos dmaps1 cursor1 heq
    have hoff : cursor1
        + (if isDeadMapEntry e then
            dexRegisterMapFixedSize + bitsToBytes e.num_dex_registers else 0)
        = acc.next_dex_register_map_offset
          + (match e.same_dex_register_map_as_ with
             | Option.none =>
               s.ComputeDexRegisterMapSize e.num_dex_registers e.live_dex_registers_mask
             | some _ => 0) := by
      split at heq
      · rename_i hN
        simp only [Option.some.injEq, Prod.mk.injEq] at heq
        obtain ⟨-, -, hcur⟩ := heq
        subst hcur
        have hd : isDeadMapEntry e = false := by
          simp [isDeadMapEntry, hN]
        have hz : s.ComputeDexRegisterMapSize e.num_dex_registers e.live_dex_registers_mask
            = 0 := by
          simp [StackMapStream.ComputeDexRegisterMapSize, hN]
        rw [hd]
        cases hs : e.same_dex_register_map_as_ <;> simp [hz]
      · rename_i hN
        split at heq
        · exact absurd heq (by simp)
        · rename_i mask0 hmask
          split at heq
          · rename_i hpop
            simp only [Option.some.injEq, Prod.mk.injEq] at heq
            obtain ⟨-, -, hcur⟩ := heq
            subst hcur
            cases hs : e.same_dex_register_map_as_ with
            | none =>
              have hd : isDeadMapEntry e = true := by
                simp [isDeadMapEntry, hs, hN, hmask, hpop]
              have hsz : s.ComputeDexRegisterMapSize e.num_dex_registers
                  e.live_dex_registers_mask
                  = dexRegisterMapFixedSize + bitsToBytes e.num_dex_registers := by
                simp [StackMapStream.ComputeDexRegisterMapSize, hN, hmask, hpop, bitsToBytes]
              rw [hd, hsz]
              simp
            | some j =>
              have hd : isDeadMapEntry e = false := by
                simp [isDeadMapEntry, hs]
              rw [hd]
              simp
          · rename_i hpop
            split at heq
            · rename_i j hs
              simp only [Option.some.injEq, Prod.mk.injEq] at heq
              obtain ⟨-, -, hcur⟩ := heq
              subst hcur
              have hd : isDeadMapEntry e = false := by
                simp [isDeadMapEntry, hs]
              rw [hd, hs]
              simp
            · rename_i hs
              split at heq
              · split at heq
                · rename_i emap hemap
                  simp only [Option.some.injEq, Prod.mk.injEq] at heq
                  obtain ⟨-, -, hcur⟩ := heq
                  subst hcur
                  have hd : isDeadMapEntry e = false := by
                    simp [isDeadMapEntry, hmask, hpop]
                  rw [hd, hs]
                  simp
                · exact absurd heq (by simp)
              · exact absurd heq (by simp)
    split at h
    · rename_i hdep
      split at h
      · exact absurd h (by simp)
      · rename_i hstart
        split at h
        · exact absurd h (by simp)
        · rename_i hbound
          split at h
          · exact absurd h (by simp)
          · rename_i irecs dmaps2 cursor2 hfold
            rw [Option.some.injEq] at h
            subst h
            have hc := fillInInline_fold_cursor s enc e e.inlining_depth _ _ hfold
            have hstart2 : acc.next_inline_info_index = e.inline_infos_start_index := by
              omega
            refine ⟨?_, rfl⟩
            show cursor2 + _ = _
            simp only at hc
            rw [hc, hstart2]
            omega
    · rename_i hdep
      have hdep0 : e.inlining_depth = 0 := by omega
      rw [Option.some.injEq] at h
      subst h
      refine ⟨?_, ?_⟩
      · show cursor1 + _ = _
        rw [hdep0, inlineFramesMapSizes_zero]
        omega
      · show acc.next_inline_info_index = _
        rw [hdep0]
        omega

theorem fillIn_fold_cursor (s : StackMapStream) (enc : CodeInfoEncoding)
    (entries : List StackMapEntry) :
    ∀ (acc out : FillAcc),
      optFold (s.fillInOneEntry enc) entries acc = some out →
      out.next_dex_register_map_offset
          + ((entries.filter isDeadMapEntry).map
              (fun e => dexRegisterMapFixedSize + bitsToBytes e.num_dex_registers)).sum
        = acc.next_dex_register_map_offset
          + computeContrib s entries acc.next_inline_info_index := by
  induction entries with
  | nil =>
    intro acc out h
    rw [optFold_nil, Option.some.injEq] at h
    subst h
    simp [computeContrib]
  | cons e rest ih =>
    intro acc out h
    simp only [optFold] at h
    split at h
    · rename_i acc1 hstep
      obtain ⟨hcur, hinl⟩ := fillInOneEntry_cursor s enc acc e acc1 hstep
      have hrest := ih acc1 out h
      rw [hinl] at hrest
      simp only [computeContrib]
      by_cases hd : isDeadMapEntry e
      · rw [List.filter_cons_of_pos hd]
        rw [if_pos hd] at hcur
        simp only [List.map_cons, List.sum_cons]
        omega
      · rw [List.filter_cons_of_neg hd]
        rw [if_neg hd] at hcur
        omega
    · exact absurd h (by simp)

theorem le_sum_of_mem {α : Type} (f : α → Nat) (l : List α) (x : α) (hx : x ∈ l) :
    f x ≤ (l.map f).sum := by
  induction l with
  | nil => simp at hx
  | cons a t ih =>
    rcases List.mem_cons.mp hx with rfl | hx2
    · simp
    · simp only [List.map_cons, List.sum_cons]
      exact (ih hx2).trans (Nat.le_add_left _ _)

/-- C10: for every entry with num_dex_registers > 0, an all-zero live mask
and no same-as back-reference, ComputeDexRegisterMapsSize reserves
FixedSize + LiveBitMaskSize(N) bytes even though the FillIn loop writes
the sentinel for that entry and never advances the map-write cursor:
the final cursor plus exactly those reserved bytes equals the sized
region, so when such an entry exists the bytes actually written are
strictly smaller than the sized (caller-allocated) dex-register-map
sub-region. -/
theorem fillIn_writes_less_than_sized_dex_map_region (s : StackMapStream)
    (enc : CodeInfoEncoding) (out : FillAcc)
    (hfold : optFold (s.fillInOneEntry enc) s.stack_maps_ {} = some out)
    (hdead : ∃ e, e ∈ s.stack_maps_ ∧ isDeadMapEntry e = true) :
    out.next_dex_register_map_offset + deadMapOvercount s = s.ComputeDexRegisterMapsSize
    ∧ out.next_dex_register_map_offset < s.ComputeDexRegisterMapsSize := by
  have hmain := fillIn_fold_cursor s enc s.stack_maps_ {} out hfold
  have heq : out.next_dex_register_map_offset + deadMapOvercount s
      = s.ComputeDexRegisterMapsSize := by
    rw [deadMapOvercount, computeDexRegisterMapsSize_eq_contrib]
    simpa using hmain
  refine ⟨heq, ?_⟩
  obtain ⟨e, he, hd⟩ := hdead
  have hmem : e ∈ s.stack_maps_.filter isDeadMapEntry := List.mem_filter.mpr ⟨he, hd⟩
  have hge : dexRegisterMapFixedSize + bitsToBytes e.num_dex_registers
      ≤ ((s.stack_maps_.filter isDeadMapEntry).map
          (fun e => dexRegisterMapFixedSize + bitsToBytes e.num_dex_registers)).sum :=
    le_sum_of_mem (fun e => dexRegisterMapFixedSize + bitsToBytes e.num_dex_registers)
      _ e hmem
  have hN : e.num_dex_registers ≠ 0 := by
    simp [isDeadMapEntry] at hd
    exact hd.1.2
  have hb : 1 ≤ bitsToBytes e.num_dex_registers := by
    simp only [bitsToBytes]
    omega
  have hover : 1 ≤ deadMapOvercount s := by
    rw [deadMapOvercount]
    omega
  omega

/-- Concrete stream for the C10 witness: one entry with one dex register
and no live bits. -/
def c10WitnessState : StackMapStream :=
  { stack_maps_ := [{ dex_pc := 1, num_dex_registers := 1,
                      live_dex_registers_mask := some 0 }] }

/-- C10 witness: the sized-versus-written gap at a concrete stream. -/
theorem fillIn_writes_less_than_sized_dex_map_region_witness :
    ∃ out, optFold (c10WitnessState.fillInOneEntry {}) c10WitnessState.stack_maps_ {}
        = some out
      ∧ out.next_dex_register_map_offset + deadMapOvercount c10WitnessState
          = c10WitnessState.ComputeDexRegisterMapsSize
      ∧ out.next_dex_register_map_offset < c10WitnessState.ComputeDexRegisterMapsSize := by
  match hf : optFold (c10WitnessState.fillInOneEntry {}) c10WitnessState.stack_maps_ {} with
  | some out =>
    have hr := fillIn_writes_less_than_sized_dex_map_region c10WitnessState {} out hf
      ⟨{ dex_pc := 1, num_dex_registers := 1, live_dex_registers_mask := some 0 },
        by decide, by decide⟩
    exact ⟨out, rfl, hr.1, hr.2⟩
  | Option.none => exact absurd hf (by decide)

/-! ## Bit-level lemmas about popcount, masks and widths -/

theorem log2CAux_eq : ∀ (fuel n : Nat), n ≤ fuel → log2CAux fuel n = Nat.log2 n := by
  intro fuel
  induction fuel with
  | zero =>
    intro n h
    have hn : n = 0 := by omega
    subst hn
    rw [Nat.log2]
    simp [log2CAux]
  | succ fuel ih =>
    intro n h
    rw [log2CAux, Nat.log2]
    by_cases h2 : 2 ≤ n
    · rw [if_pos h2, if_pos h2, ih (n / 2) (by omega)]
    · rw [if_neg h2, if_neg h2]

/-- The fuel-driven logarithm agrees with Nat.log2. -/
theorem log2C_eq (n : Nat) : log2C n = Nat.log2 n := log2CAux_eq n n (Nat.le_refl n)

theorem popcountAux_congr : ∀ (f1 f2 n : Nat), n ≤ f1 → n ≤ f2 →
    popcountAux f1 n = popcountAux f2 n := by
  intro f1
  induction f1 with
  | zero =>
    intro f2 n h1 _
    interval_cases n
    cases f2 <;> rfl
  | succ f ih =>
    intro f2 n h1 h2
    by_cases hn : n = 0
    · subst hn
      cases f2 <;> rfl
    · have hf2 : ∃ g, f2 = g + 1 := ⟨f2 - 1, by omega⟩
      obtain ⟨g, rfl⟩ := hf2
      show (if n = 0 then 0 else popcountAux f (n / 2) + n % 2)
        = (if n = 0 then 0 else popcountAux g (n / 2) + n % 2)
      rw [if_neg hn, if_neg hn, ih g (n / 2) (by omega) (by omega)]

theorem popcount_rec (n : Nat) :
    popcount n = if n = 0 then 0 else popcount (n / 2) + n % 2 := by
  by_cases hn : n = 0
  · subst hn; rfl
  · rw [if_neg hn]
    show popcountAux n n = _
    have hn1 : ∃ m, n = m + 1 := ⟨n - 1, by omega⟩
    obtain ⟨m, rfl⟩ := hn1
    show (if m + 1 = 0 then 0 else popcountAux m ((m + 1) / 2) + (m + 1) % 2) = _
    rw [if_neg hn]
    rw [popcountAux_congr m ((m + 1) / 2) ((m + 1) / 2) (by omega) (by omega)]
    rfl

theorem popcount_zero : popcount 0 = 0 := rfl

theorem mod_two_eq_ite_testBit (n : Nat) : n % 2 = if n.testBit 0 then 1 else 0 := by
  rcases Nat.mod_two_eq_zero_or_one n with h | h <;> simp [Nat.testBit_zero, h]

theorem popcount_two_pow_add (r : Nat) :
    ∀ rest, rest < 2 ^ r → popcount (2 ^ r + rest) = popcount rest + 1 := by
  induction r with
  | zero =>
    intro rest h
    interval_cases rest
    rfl
  | succ r ih =>
    intro rest h
    rw [popcount_rec (2 ^ (r + 1) + rest)]
    have hne : 2 ^ (r + 1) + rest ≠ 0 := by positivity
    rw [if_neg hne]
    have hdiv : (2 ^ (r + 1) + rest) / 2 = 2 ^ r + rest / 2 := by
      rw [pow_succ]
      omega
    have hmod : (2 ^ (r + 1) + rest) % 2 = rest % 2 := by
      rw [pow_succ]
      omega
    rw [hdiv, hmod, ih (rest / 2) (by rw [pow_succ] at h; omega)]
    rw [popcount_rec rest]
    by_cases hrest : rest = 0
    · subst hrest
      simp [popcount_zero]
    · rw [if_neg hrest]
      omega

theorem popcount_two_pow (r : Nat) : popcount (2 ^ r) = 1 := by
  have h := popcount_two_pow_add r 0 (by positivity)
  simpa [popcount_zero] using h

theorem popcount_mod_two_pow_succ (m r : Nat) :
    popcount (m % 2 ^ (r + 1))
      = popcount (m % 2 ^ r) + (if m.testBit r then 1 else 0) := by
  rw [Nat.mod_pow_succ]
  by_cases hb : m.testBit r
  · have h1 : m / 2 ^ r % 2 = 1 := by
      have := Nat.testBit_to_div_mod (i := r) (x := m)
      rw [hb] at this
      exact of_decide_eq_true this.symm
    have hcomm : m % 2 ^ r + 2 ^ r * 1 = 2 ^ r + m % 2 ^ r := by omega
    rw [h1, if_pos hb, hcomm,
      popcount_two_pow_add r (m % 2 ^ r) (Nat.mod_lt _ (by positivity))]
  · have h1 : m / 2 ^ r % 2 = 0 := by
      have hb2 := hb
      rw [Nat.testBit_to_div_mod] at hb2
      simp at hb2
      omega
    rw [h1, if_neg hb]
    simp

theorem lor_lt_two_pow {a b n : Nat} (ha : a < 2 ^ n) (hb : b < 2 ^ n) :
    a ||| b < 2 ^ n := by
  refine Nat.lt_pow_two_of_testBit _ fun i hi => ?_
  rw [Nat.testBit_lor]
  have hai : a.testBit i = false :=
    Nat.testBit_lt_two_pow (Nat.lt_of_lt_of_le ha (Nat.pow_le_pow_right (by omega) hi))
  have hbi : b.testBit i = false :=
    Nat.testBit_lt_two_pow (Nat.lt_of_lt_of_le hb (Nat.pow_le_pow_right (by omega) hi))
  rw [hai, hbi]
  rfl

theorem lor_div_two (a b : Nat) : (a ||| b) / 2 = a / 2 ||| b / 2 := by
  refine Nat.eq_of_testBit_eq fun i => ?_
  rw [Nat.testBit_div_two, Nat.testBit_lor, Nat.testBit_lor, Nat.testBit_div_two,
    Nat.testBit_div_two]

theorem popcount_lor_le (n : Nat) : ∀ a b, a + b ≤ n →
    popcount (a ||| b) ≤ popcount a + popcount b := by
  induction n with
  | zero =>
    intro a b h
    have ha : a = 0 := by omega
    have hb : b = 0 := by omega
    subst ha; subst hb
    simp [popcount_zero]
  | succ n ih =>
    intro a b h
    by_cases hz : a ||| b = 0
    · rw [hz, popcount_zero]
      omega
    · rw [popcount_rec (a ||| b), if_neg hz, lor_div_two]
      have hmod : (a ||| b) % 2 ≤ a % 2 + b % 2 := by
        rw [mod_two_eq_ite_testBit (a ||| b), mod_two_eq_ite_testBit a,
          mod_two_eq_ite_testBit b, Nat.testBit_lor]
        by_cases hta : a.testBit 0 <;> by_cases htb : b.testBit 0 <;> simp [hta, htb]
      have hab : a ≠ 0 ∨ b ≠ 0 := by
        by_contra hc
        push_neg at hc
        rw [hc.1, hc.2] at hz
        exact hz rfl
      have hrec := ih (a / 2) (b / 2) (by omega)
      have hra := popcount_rec a
      have hrb := popcount_rec b
      by_cases hae : a = 0 <;> by_cases hbe : b = 0
      · exact absurd rfl (by rw [hae, hbe] at hz; exact hz)
      · rw [if_neg hbe] at hrb
        rw [hae] at hmod hrec ⊢
        simp only [Nat.zero_div] at hrec
        rw [hae] at hz
        simp [popcount_zero] at hrec ⊢
        omega
      · rw [if_neg hae] at hra
        rw [hbe] at hmod hrec ⊢
        simp only [Nat.zero_div] at hrec
        simp [popcount_zero] at hrec ⊢
        omega
      · rw [if_neg hae] at hra
        rw [if_neg hbe] at hrb
        omega

theorem popcount_lor_pow2_le (m c : Nat) :
    popcount (m ||| 2 ^ c) ≤ popcount m + 1 := by
  have h := popcount_lor_le (m + 2 ^ c) m (2 ^ c) (Nat.le_refl _)
  rw [popcount_two_pow] at h
  exact h

theorem lt_two_pow_minimumBits {v n : Nat} (h : v ≤ n) :
    v < 2 ^ MinimumBitsToStore n := by
  rw [MinimumBitsToStore]
  by_cases hn : n = 0
  · subst hn
    interval_cases v
    simp
  · rw [if_neg hn, log2C_eq]
    exact Nat.lt_of_le_of_lt h Nat.lt_log2_self

theorem lt_two_pow_toNat_of_highestBit {v : Nat} {M : Int}
    (h : highestBitSet v ≤ M) : v < 2 ^ (M + 1).toNat := by
  by_cases hv : v = 0
  · subst hv
    positivity
  · rw [highestBitSet, if_neg hv, log2C_eq] at h
    have h1 : (Nat.log2 v : Int) + 1 ≤ M + 1 := by omega
    have h2 : Nat.log2 v + 1 ≤ (M + 1).toNat := by omega
    exact Nat.lt_of_lt_of_le Nat.lt_log2_self (Nat.pow_le_pow_right (by omega) h2)

/-! ## Reachability invariant: helper lemmas -/

theorem lookupAssoc_append {α β : Type} [DecidableEq α] (l1 l2 : List (α × β)) (k : α) :
    lookupAssoc (l1 ++ l2) k
      = match lookupAssoc l1 k with
        | some v => some v
        | Option.none => lookupAssoc l2 k := by
  induction l1 with
  | nil => simp [lookupAssoc]
  | cons p rest ih =>
    by_cases hk : p.1 = k
    · simp [lookupAssoc, hk]
    · simp only [List.cons_append, lookupAssoc, if_neg hk]
      exact ih

theorem lookupAssoc_update_self {α β : Type} [DecidableEq α] (l : List (α × β)) (k : α)
    (v b : β) (h : lookupAssoc l k = some b) :
    lookupAssoc (updateAssoc l k v) k = some v := by
  induction l with
  | nil => simp [lookupAssoc] at h
  | cons p rest ih =>
    by_cases hk : p.1 = k
    · simp [updateAssoc, lookupAssoc, hk]
    · simp only [lookupAssoc, if_neg hk] at h
      simp only [updateAssoc, if_neg hk, lookupAssoc]
      exact ih h

theorem lookupAssoc_update_ne {α β : Type} [DecidableEq α] (l : List (α × β)) (k k2 : α)
    (v : β) (h : k2 ≠ k) :
    lookupAssoc (updateAssoc l k v) k2 = lookupAssoc l k2 := by
  induction l with
  | nil => simp [updateAssoc, lookupAssoc, Ne.symm h]
  | cons p rest ih =>
    by_cases hk : p.1 = k
    · simp only [updateAssoc, if_pos hk, lookupAssoc]
      rw [if_neg (Ne.symm h), if_neg (by rw [hk]; exact Ne.symm h)]
    · simp only [updateAssoc, if_neg hk, lookupAssoc]
      by_cases hk2 : p.1 = k2
      · rw [if_pos hk2, if_pos hk2]
      · rw [if_neg hk2, if_neg hk2]
        exact ih

theorem slice_append (l t : List Nat) (start k : Nat) (h : start + k ≤ l.length) :
    slice (l ++ t) start k = slice l start k := by
  unfold slice
  rw [List.drop_append_of_le_length (by omega)]
  rw [List.take_append_of_le_length (by simp; omega)]

theorem entryWF_mono {L L2 dmax dmax2 rmax rmax2 : Nat} {smax smax2 : Int}
    {e : StackMapEntry} (h : EntryWF L dmax rmax smax e) (hL : L ≤ L2)
    (hd : dmax ≤ dmax2) (hr : rmax ≤ rmax2) (hsm : smax ≤ smax2) :
    EntryWF L2 dmax2 rmax2 smax2 e :=
  ⟨h.mask_iff, h.mask_lt, Nat.le_trans h.window hL, Nat.le_trans h.dex_pc_le hd,
    h.dex_pc_lt, Nat.le_trans h.rm_le hr,
    fun v hv => le_trans (h.sp_le v hv) hsm, h.depth_lt⟩

theorem inlineWF_mono {L L2 : Nat} {f : InlineInfoEntry} (h : InlineWF L f)
    (hL : L ≤ L2) : InlineWF L2 f :=
  ⟨h.mask_iff, h.mask_lt, Nat.le_trans h.window hL, h.dex_pc_lt, h.method_lt,
    h.mindex_lt⟩

theorem eqDexMaps_symm {locs : List Nat} {a b : StackMapEntry}
    (h : EqDexMaps locs a b) : EqDexMaps locs b a := by
  obtain ⟨hN, hm, hsl⟩ := h
  exact ⟨hN.symm, hm.symm, by rw [hm]; exact hsl.symm⟩

/-- Window of an entry inside the shared catalog-index array. -/
def entryWindow (L : Nat) (e : StackMapEntry) : Prop :=
  e.dex_register_locations_start_index
    + popcount (e.live_dex_registers_mask.getD 0) ≤ L

theorem eqDexMaps_append_iff {locs t : List Nat} {a b : StackMapEntry}
    (hwa : entryWindow locs.length a) (hwb : entryWindow locs.length b) :
    EqDexMaps (locs ++ t) a b ↔ EqDexMaps locs a b := by
  unfold EqDexMaps
  constructor
  · rintro ⟨hN, hm, hsl⟩
    refine ⟨hN, hm, ?_⟩
    have hwa2 : a.dex_register_locations_start_index
        + popcount (b.live_dex_registers_mask.getD 0) ≤ locs.length := by
      unfold entryWindow at hwa
      rw [hm] at hwa
      exact hwa
    rw [slice_append _ _ _ _ hwa2, slice_append _ _ _ _ hwb] at hsl
    exact hsl
  · rintro ⟨hN, hm, hsl⟩
    refine ⟨hN, hm, ?_⟩
    have hwa2 : a.dex_register_locations_start_index
        + popcount (b.live_dex_registers_mask.getD 0) ≤ locs.length := by
      unfold entryWindow at hwa
      rw [hm] at hwa
      exact hwa
    rw [slice_append _ _ _ _ hwa2, slice_append _ _ _ _ hwb]
    exact hsl

theorem haveTheSameDexMaps_iff_eq (s : StackMapStream) (a b : StackMapEntry)
    (ha : a.num_dex_registers = 0 ↔ a.live_dex_registers_mask = Option.none)
    (hb : b.num_dex_registers = 0 ↔ b.live_dex_registers_mask = Option.none) :
    (s.HaveTheSameDexMaps a b = true) ↔ EqDexMaps s.dex_register_locations_ a b := by
  unfold StackMapStream.HaveTheSameDexMaps EqDexMaps
  cases hma : a.live_dex_registers_mask with
  | none =>
    cases hmb : b.live_dex_registers_mask with
    | none =>
      have haN := ha.mpr hma
      have hbN := hb.mpr hmb
      simp [haN, hbN, slice, popcount_zero]
    | some mb =>
      simp
  | some ma =>
    cases hmb : b.live_dex_registers_mask with
    | none =>
      simp
    | some mb =>
      have haN : a.num_dex_registers ≠ 0 := fun h0 => by
        rw [ha.mp h0] at hma; exact Option.noConfusion hma
      by_cases hN : a.num_dex_registers = b.num_dex_registers
      · have hbN : b.num_dex_registers ≠ 0 := by rw [← hN]; exact haN
        by_cases hmeq : ma = mb
        · subst hmeq
          simp [hN, haN, hbN, slice]
        · simp [hN, haN, hbN, hmeq]
      · simp [hN]

theorem mem_of_lookupAssoc {α β : Type} [DecidableEq α] {l : List (α × β)} {k : α}
    {v : β} (h : lookupAssoc l k = some v) : (k, v) ∈ l := by
  induction l with
  | nil => simp [lookupAssoc] at h
  | cons p rest ih =>
    by_cases hk : p.1 = k
    · simp only [lookupAssoc, if_pos hk, Option.some.injEq] at h
      exact List.mem_cons.mpr (Or.inl (by rw [← hk, ← h]))
    · simp only [lookupAssoc, if_neg hk] at h
      exact List.mem_cons.mpr (Or.inr (ih h))

theorem lookupAssoc_append_of_some {α β : Type} [DecidableEq α] (l1 l2 : List (α × β))
    (k : α) (v : β) (h : lookupAssoc l1 k = some v) :
    lookupAssoc (l1 ++ l2) k = some v := by
  induction l1 with
  | nil => simp [lookupAssoc] at h
  | cons p rest ih =>
    by_cases hk : p.1 = k
    · simp only [lookupAssoc, if_pos hk, Option.some.injEq] at h
      simp [lookupAssoc, hk, h]
    · simp only [lookupAssoc, if_neg hk] at h
      simp only [List.cons_append, lookupAssoc, if_neg hk]
      exact ih h

theorem lookupAssoc_append_of_none {α β : Type} [DecidableEq α] (l1 l2 : List (α × β))
    (k : α) (h : lookupAssoc l1 k = Option.none) :
    lookupAssoc (l1 ++ l2) k = lookupAssoc l2 k := by
  induction l1 with
  | nil => simp [lookupAssoc]
  | cons p rest ih =>
    by_cases hk : p.1 = k
    · simp [lookupAssoc, if_pos hk] at h
    · simp only [lookupAssoc, if_neg hk] at h
      simp only [List.cons_append, lookupAssoc, if_neg hk]
      exact ih h

theorem lookupAssoc_singleton {α β : Type} [DecidableEq α] (k k2 : α) (v : β) :
    lookupAssoc [(k, v)] k2 = if k = k2 then some v else Option.none := rfl

theorem getD_mem_of_lt {α : Type} (l : List α) (d : α) {i : Nat} (h : i < l.length) :
    l.getD i d ∈ l := by
  rw [List.getD_eq_getElem l d h]
  exact List.getElem_mem h

theorem entryWF_set_same {L dmax rmax : Nat} {smax : Int} {e : StackMapEntry}
    (h : EntryWF L dmax rmax smax e) (r : Option Nat) :
    EntryWF L dmax rmax smax { e with same_dex_register_map_as_ := r } :=
  ⟨h.mask_iff, h.mask_lt, h.window, h.dex_pc_le, h.dex_pc_lt, h.rm_le, h.sp_le,
    h.depth_lt⟩

theorem entryWF_default (L dmax rmax : Nat) (smax : Int) :
    EntryWF L dmax rmax smax {} :=
  ⟨by simp, fun m hm => Option.noConfusion hm, by simp [popcount_zero],
    Nat.zero_le _, by norm_num [kDexNoIndex], Nat.zero_le _,
    fun v hv => Option.noConfusion hv, by norm_num⟩

theorem inlineWF_default (L : Nat) : InlineWF L {} :=
  ⟨by simp, fun m hm => Option.noConfusion hm, by simp [popcount_zero],
    by norm_num, fun p hp => Option.noConfusion hp, by norm_num⟩

theorem addStage1_fields (s : StackMapStream) (loc : DexRegisterLocation) :
    (addStage1 s loc).stack_maps_ = s.stack_maps_
      ∧ (addStage1 s loc).current_entry_ = s.current_entry_
      ∧ (addStage1 s loc).current_inline_info_ = s.current_inline_info_
      ∧ (addStage1 s loc).in_inline_frame_ = s.in_inline_frame_
      ∧ (addStage1 s loc).current_dex_register_ = s.current_dex_register_
      ∧ (addStage1 s loc).inline_infos_ = s.inline_infos_
      ∧ (addStage1 s loc).dex_map_hash_to_stack_map_indices_
          = s.dex_map_hash_to_stack_map_indices_
      ∧ (addStage1 s loc).dex_register_locations_.length
          = s.dex_register_locations_.length + 1 := by
  unfold addStage1
  cases hl : lookupAssoc s.location_catalog_entries_indices_ loc with
  | none => simp
  | some idx => simp

/-- Appending to the shared catalog-index array (with matching catalog and
index-map extensions) preserves the reachability invariant. -/
theorem streamInv_extend_locs {s : StackMapStream} (hs : StreamInv s)
    (t : List Nat) (cat2 : List DexRegisterLocation)
    (ind2 : List (DexRegisterLocation × Nat))
    (hcat : ∀ idx ∈ t, idx < (s.location_catalog_entries_ ++ cat2).length)
    (hind : ∀ p ∈ ind2, p.2 < (s.location_catalog_entries_ ++ cat2).length) :
    StreamInv { s with
      dex_register_locations_ := s.dex_register_locations_ ++ t,
      location_catalog_entries_ := s.location_catalog_entries_ ++ cat2,
      location_catalog_entries_indices_ :=
        s.location_catalog_entries_indices_ ++ ind2 } := by
  refine ⟨?_, ?_, ?_, ?_, hs.inline_closed, ?_, ?_, ?_, hs.buckets,
    hs.buckets_mem, ?_⟩
  · intro e he
    exact entryWF_mono (hs.entries e he) (by simp) (Nat.le_refl _) (Nat.le_refl _) (le_refl _)
  · exact entryWF_mono hs.cur (by simp) (Nat.le_refl _) (Nat.le_refl _) (le_refl _)
  · intro f hf
    exact inlineWF_mono (hs.frames f hf) (by simp)
  · exact inlineWF_mono hs.curInline (by simp)
  · intro idx hidx
    rcases List.mem_append.mp hidx with hidx | hidx
    · exact Nat.lt_of_lt_of_le (hs.catalogBound idx hidx) (by simp)
    · exact hcat idx hidx
  · intro p hp
    rcases List.mem_append.mp hp with hp | hp
    · exact Nat.lt_of_lt_of_le (hs.indicesBound p hp) (by simp)
    · exact hind p hp
  · intro i hi j hj
    obtain ⟨h1, h2, h3⟩ := hs.same i hi j hj
    refine ⟨h1, h2, ?_⟩
    have hwj := (hs.entries _ (getD_mem_of_lt s.stack_maps_ {} (Nat.lt_trans h1 hi))).window
    have hwi := (hs.entries _ (getD_mem_of_lt s.stack_maps_ {} hi)).window
    exact (eqDexMaps_append_iff hwj hwi).mpr h3
  · intro h b hb x hx y hy hxy heq
    have hxlt := (hs.buckets h b hb x hx).1
    have hylt := (hs.buckets h b hb y hy).1
    have hwx := (hs.entries _ (getD_mem_of_lt s.stack_maps_ {} hxlt)).window
    have hwy := (hs.entries _ (getD_mem_of_lt s.stack_maps_ {} hylt)).window
    exact hs.buckets_distinct h b hb x hx y hy hxy
      ((eqDexMaps_append_iff hwx hwy).mp heq)

/-- The interning prefix of AddDexRegisterEntry preserves the invariant. -/
theorem streamInv_addStage1 {s : StackMapStream} (hs : StreamInv s)
    (loc : DexRegisterLocation) : StreamInv (addStage1 s loc) := by
  unfold addStage1
  cases hl : lookupAssoc s.location_catalog_entries_indices_ loc with
  | some idx =>
    have hidx : idx < s.location_catalog_entries_.length :=
      hs.indicesBound (loc, idx) (mem_of_lookupAssoc hl)
    have h2 := streamInv_extend_locs hs [idx] [] []
      (by intro i hi; rw [List.mem_singleton] at hi; subst hi; simpa using hidx)
      (by intro p hp; simp at hp)
    simpa using h2
  | none =>
    have h2 := streamInv_extend_locs hs [s.location_catalog_entries_.length] [loc]
      [(loc, s.location_catalog_entries_.length)]
      (by intro i hi; rw [List.mem_singleton] at hi; subst hi; simp)
      (by intro p hp; rw [List.mem_singleton] at hp; subst hp; simp)
    exact h2

/-- Common core of the BeginStackMapEntry preservation proof, abstracted
over the value the running stack-mask maximum takes. -/
theorem streamInv_begin_core {s : StackMapStream} (hs : StreamInv s)
    (dex_pc native_pc register_mask num_dex inlining_depth : Nat) (spm : Option Nat)
    (smax2 : Int) (hsm : s.stack_mask_max_ ≤ smax2)
    (hsp : ∀ v, spm = some v → highestBitSet v ≤ smax2)
    (hpc : dex_pc < kDexNoIndex) (hd : inlining_depth < 2 ^ 8) (nsmwi : Nat) :
    StreamInv { s with
      current_entry_ := { s.current_entry_ with
        dex_pc := dex_pc,
        native_pc_code_offset := native_pc,
        register_mask := register_mask,
        sp_mask := spm,
        num_dex_registers := num_dex,
        inlining_depth := inlining_depth,
        dex_register_locations_start_index := s.dex_register_locations_.length,
        inline_infos_start_index := s.inline_infos_.length,
        dex_register_map_hash := 0,
        same_dex_register_map_as_ := Option.none,
        stack_mask_index := 0,
        live_dex_registers_mask := if num_dex ≠ 0 then some 0 else Option.none },
      stack_mask_max_ := smax2,
      number_of_stack_maps_with_inline_info_ := nsmwi,
      dex_pc_max_ := max s.dex_pc_max_ dex_pc,
      register_mask_max_ := max s.register_mask_max_ register_mask,
      current_dex_register_ := 0 } := by
  refine ⟨?_, ?_, hs.frames, hs.curInline, hs.inline_closed, hs.catalogBound,
    hs.indicesBound, hs.same, hs.buckets, hs.buckets_mem, hs.buckets_distinct⟩
  · intro e2 he2
    exact entryWF_mono (hs.entries e2 he2) (Nat.le_refl _) (Nat.le_max_left _ _)
      (Nat.le_max_left _ _) hsm
  · refine ⟨?_, ?_, ?_, Nat.le_max_right _ _, hpc, Nat.le_max_right _ _, hsp, hd⟩
    · by_cases he0 : num_dex = 0 <;> simp [he0]
    · intro m hm
      by_cases he0 : num_dex ≠ 0
      · rw [if_pos he0, Option.some.injEq] at hm
        subst hm
        exact pow_pos (by norm_num) _
      · rw [if_neg he0] at hm
        exact Option.noConfusion hm
    · by_cases he0 : num_dex ≠ 0 <;> simp [he0, popcount_zero]

/-- BeginStackMapEntry preserves the reachability invariant. -/
theorem streamInv_begin {s s1 : StackMapStream} {a b c : Nat} {d : Option Nat}
    {e f : Nat} (hs : StreamInv s)
    (h : s.BeginStackMapEntry a b c d e f = some s1) : StreamInv s1 := by
  unfold StackMapStream.BeginStackMapEntry at h
  simp only [] at h
  have hpc0 : ∀ hne : ¬ u32 a = kDexNoIndex, u32 a < kDexNoIndex := by
    intro hne
    have hu32a : u32 a < 2 ^ 32 := Nat.mod_lt a (by norm_num)
    have hk : kDexNoIndex = 2 ^ 32 - 1 := rfl
    omega
  have hdep : f % 2 ^ 8 < 2 ^ 8 := Nat.mod_lt f (by norm_num)
  split at h
  · exact Option.noConfusion h
  · split at h
    · exact Option.noConfusion h
    · rename_i h2
      split at h
      · rename_i msp
        rw [Option.some.injEq] at h
        subst h
        refine streamInv_begin_core hs (u32 a) (u32 b / s.instruction_set_align)
          (u32 c) (u32 e) (f % 2 ^ 8) (some msp)
          (max s.stack_mask_max_ (highestBitSet msp)) (le_max_left _ _) ?_
          (hpc0 h2) hdep _
        intro v hv
        rw [Option.some.injEq] at hv
        subst hv
        exact le_max_right _ _
      · rw [Option.some.injEq] at h
        subst h
        exact streamInv_begin_core hs (u32 a) (u32 b / s.instruction_set_align)
          (u32 c) (u32 e) (f % 2 ^ 8) Option.none s.stack_mask_max_ (le_refl _)
          (fun v hv => Option.noConfusion hv) (hpc0 h2) hdep _

/-- AddDexRegisterEntry preserves the reachability invariant. -/
theorem streamInv_add {s s1 : StackMapStream} {kind : DexRegisterKind} {v : Int}
    (hs : StreamInv s) (h : s.AddDexRegisterEntry kind v = some s1) : StreamInv s1 := by
  unfold StackMapStream.AddDexRegisterEntry at h
  split at h
  · rw [Option.some.injEq] at h
    subst h
    exact ⟨hs.entries, hs.cur, hs.frames, hs.curInline, hs.inline_closed,
      hs.catalogBound, hs.indicesBound, hs.same, hs.buckets, hs.buckets_mem,
      hs.buckets_distinct⟩
  · split at h
    · exact Option.noConfusion h
    · simp only [] at h
      have hmid := streamInv_addStage1 hs ⟨kind, v⟩
      obtain ⟨hf1, hf2, hf3, hf4, hf5, hf6, hf7, hf8⟩ := addStage1_fields s ⟨kind, v⟩
      set sm := addStage1 s ⟨kind, v⟩ with hsm
      split at h
      · -- inline frame open: update the inline live mask
        rename_i hin
        split at h
        · rename_i hcur
          split at h
          · rename_i m hm
            rw [Option.some.injEq] at h
            subst h
            refine ⟨hmid.entries, hmid.cur, hmid.frames, ?_, ?_, hmid.catalogBound,
              hmid.indicesBound, hmid.same, hmid.buckets, hmid.buckets_mem,
              hmid.buckets_distinct⟩
            · refine ⟨?_, ?_, ?_, hmid.curInline.dex_pc_lt, hmid.curInline.method_lt,
                hmid.curInline.mindex_lt⟩
              · constructor
                · intro h0
                  dsimp only at h0
                  exact absurd h0 (by omega)
                · intro habs
                  exact Option.noConfusion habs
              · intro m2 hm2
                rw [Option.some.injEq] at hm2
                subst hm2
                exact lor_lt_two_pow (hmid.curInline.mask_lt m hm)
                  (Nat.pow_lt_pow_right (by norm_num) hcur)
              · dsimp only
                rw [hf3, hf5, hf8]
                have hw := hs.curInline.window
                have hm2 := hm
                rw [hf3] at hm2
                rw [hm2, Option.getD_some] at hw
                have hlor := popcount_lor_pow2_le m s.current_dex_register_
                rw [Option.getD_some]
                omega
            · intro hc
              dsimp only at hc
              rw [hin] at hc
              exact Bool.noConfusion hc
          · exact Option.noConfusion h
        · exact Option.noConfusion h
      · -- outer frame: update the entry live mask and rolling hash
        rename_i hin
        split at h
        · rename_i hcur
          split at h
          · rename_i m hm
            rw [Option.some.injEq] at h
            subst h
            refine ⟨hmid.entries, ?_, hmid.frames, hmid.curInline, ?_,
              hmid.catalogBound, hmid.indicesBound, hmid.same, hmid.buckets,
              hmid.buckets_mem, hmid.buckets_distinct⟩
            · refine ⟨?_, ?_, ?_, hmid.cur.dex_pc_le, hmid.cur.dex_pc_lt,
                hmid.cur.rm_le, hmid.cur.sp_le, hmid.cur.depth_lt⟩
              · constructor
                · intro h0
                  dsimp only at h0
                  exact absurd h0 (by omega)
                · intro habs
                  exact Option.noConfusion habs
              · intro m2 hm2
                rw [Option.some.injEq] at hm2
                subst hm2
                exact lor_lt_two_pow (hmid.cur.mask_lt m hm)
                  (Nat.pow_lt_pow_right (by norm_num) hcur)
              · dsimp only
                rw [hf2, hf5, hf8]
                have hw := hs.cur.window
                have hm2 := hm
                rw [hf2] at hm2
                rw [hm2, Option.getD_some] at hw
                have hlor := popcount_lor_pow2_le m s.current_dex_register_
                rw [Option.getD_some]
                omega
            · intro hc
              exact hmid.inline_closed hc
          · exact Option.noConfusion h
        · exact Option.noConfusion h

/-- BeginInlineInfoEntry preserves the reachability invariant. -/
theorem streamInv_beginInline {s s1 : StackMapStream} {m : InlineMethodRef}
    {pc nreg : Nat} (hs : StreamInv s) (h : s.BeginInlineInfoEntry m pc nreg = some s1) :
    StreamInv s1 := by
  unfold StackMapStream.BeginInlineInfoEntry at h
  split at h
  · exact Option.noConfusion h
  · cases m with
    | ptr p =>
      simp only [] at h
      rw [Option.some.injEq] at h
      subst h
      refine ⟨hs.entries, hs.cur, hs.frames, ?_, ?_, hs.catalogBound,
        hs.indicesBound, hs.same, hs.buckets, hs.buckets_mem, hs.buckets_distinct⟩
      · refine ⟨?_, ?_, ?_, Nat.mod_lt pc (by norm_num), ?_,
          hs.curInline.mindex_lt⟩
        · by_cases hn0 : u32 nreg = 0 <;> simp [hn0]
        · intro m2 hm2
          by_cases hn0 : u32 nreg ≠ 0
          · rw [if_pos hn0, Option.some.injEq] at hm2
            subst hm2
            exact pow_pos (by norm_num) _
          · rw [if_neg hn0] at hm2
            exact Option.noConfusion hm2
        · by_cases hn0 : u32 nreg ≠ 0 <;> simp [hn0, popcount_zero]
        · intro q hq
          dsimp only at hq
          rw [Option.some.injEq] at hq
          subst hq
          exact Nat.mod_lt p (by norm_num)
      · intro hc
        dsimp only at hc
        exact Bool.noConfusion hc
    | methodIndex i =>
      simp only [] at h
      rw [Option.some.injEq] at h
      subst h
      refine ⟨hs.entries, hs.cur, hs.frames, ?_, ?_, hs.catalogBound,
        hs.indicesBound, hs.same, hs.buckets, hs.buckets_mem, hs.buckets_distinct⟩
      · refine ⟨?_, ?_, ?_, Nat.mod_lt pc (by norm_num), hs.curInline.method_lt,
          Nat.mod_lt i (by norm_num)⟩
        · by_cases hn0 : u32 nreg = 0 <;> simp [hn0]
        · intro m2 hm2
          by_cases hn0 : u32 nreg ≠ 0
          · rw [if_pos hn0, Option.some.injEq] at hm2
            subst hm2
            exact pow_pos (by norm_num) _
          · rw [if_neg hn0] at hm2
            exact Option.noConfusion hm2
        · by_cases hn0 : u32 nreg ≠ 0 <;> simp [hn0, popcount_zero]
      · intro hc
        dsimp only at hc
        exact Bool.noConfusion hc

/-- EndInlineInfoEntry preserves the reachability invariant. -/
theorem streamInv_endInline {s s1 : StackMapStream} (hs : StreamInv s)
    (h : s.EndInlineInfoEntry = some s1) : StreamInv s1 := by
  unfold StackMapStream.EndInlineInfoEntry at h
  split at h
  · exact Option.noConfusion h
  · split at h
    · exact Option.noConfusion h
    · rw [Option.some.injEq] at h
      subst h
      refine ⟨hs.entries, hs.cur, ?_, inlineWF_default _, ?_, hs.catalogBound,
        hs.indicesBound, hs.same, hs.buckets, hs.buckets_mem, hs.buckets_distinct⟩
      · intro f hf
        rcases List.mem_append.mp hf with hf | hf
        · exact hs.frames f hf
        · rw [List.mem_singleton] at hf
          subst hf
          exact hs.curInline
      · intro hc
        rfl

/-- EndStackMapEntry preserves the reachability invariant (it cannot
fail). -/
theorem streamInv_end {s : StackMapStream} (hs : StreamInv s) :
    StreamInv s.EndStackMapEntry := by
  unfold StackMapStream.EndStackMapEntry StackMapStream.FindEntryWithTheSameDexMap
  simp only []
  cases hl : lookupAssoc s.dex_map_hash_to_stack_map_indices_
      s.current_entry_.dex_register_map_hash with
  | none =>
    dsimp only
    refine ⟨?_, entryWF_default _ _ _ _, hs.frames, hs.curInline, hs.inline_closed,
      hs.catalogBound, hs.indicesBound, ?_, ?_, ?_, ?_⟩
    · intro e2 he2
      rcases List.mem_append.mp he2 with he2 | he2
      · exact hs.entries e2 he2
      · rw [List.mem_singleton] at he2
        subst he2
        exact entryWF_set_same hs.cur _
    · intro i hi j hj
      rw [List.length_append, List.length_singleton] at hi
      by_cases hin : i < s.stack_maps_.length
      · rw [List.getD_append _ _ _ _ hin] at hj
        obtain ⟨h1, h2, h3⟩ := hs.same i hin j hj
        refine ⟨h1, ?_, ?_⟩
        · rw [List.getD_append _ _ _ _ (Nat.lt_trans h1 hin),
            List.getD_append _ _ _ _ hin]
          exact h2
        · rw [List.getD_append _ _ _ _ (Nat.lt_trans h1 hin),
            List.getD_append _ _ _ _ hin]
          exact h3
      · have hieq : i = s.stack_maps_.length := by omega
        subst hieq
        rw [getD_append_self] at hj
        exact Option.noConfusion hj
    · intro h2 b hb x hx
      cases hlo : lookupAssoc s.dex_map_hash_to_stack_map_indices_ h2 with
      | some b0 =>
        rw [lookupAssoc_append_of_some _ _ _ _ hlo, Option.some.injEq] at hb
        subst hb
        obtain ⟨hx1, hx2, hx3⟩ := hs.buckets h2 b0 hlo x hx
        refine ⟨?_, ?_, ?_⟩
        · rw [List.length_append, List.length_singleton]
          omega
        · rw [List.getD_append _ _ _ _ hx1]
          exact hx2
        · rw [List.getD_append _ _ _ _ hx1]
          exact hx3
      | none =>
        rw [lookupAssoc_append_of_none _ _ _ hlo, lookupAssoc_singleton] at hb
        split at hb
        · rename_i hh
          rw [Option.some.injEq] at hb
          subst hb
          rw [List.mem_singleton] at hx
          subst hx
          refine ⟨?_, ?_, ?_⟩
          · rw [List.length_append, List.length_singleton]
            omega
          · rw [getD_append_self]
            exact hh
          · rw [getD_append_self]
        · exact Option.noConfusion hb
    · intro x hx hsame
      rw [List.length_append, List.length_singleton] at hx
      by_cases hxn : x < s.stack_maps_.length
      · rw [List.getD_append _ _ _ _ hxn] at hsame ⊢
        obtain ⟨b, hb, hmem⟩ := hs.buckets_mem x hxn hsame
        exact ⟨b, lookupAssoc_append_of_some _ _ _ _ hb, hmem⟩
      · have hxeq : x = s.stack_maps_.length := by omega
        subst hxeq
        rw [getD_append_self]
        dsimp only
        refine ⟨[s.stack_maps_.length], ?_, List.mem_singleton_self _⟩
        rw [lookupAssoc_append_of_none _ _ _ hl, lookupAssoc_singleton, if_pos rfl]
    · intro h2 b hb x hx y hy hxy
      cases hlo : lookupAssoc s.dex_map_hash_to_stack_map_indices_ h2 with
      | some b0 =>
        rw [lookupAssoc_append_of_some _ _ _ _ hlo, Option.some.injEq] at hb
        subst hb
        have hx1 := (hs.buckets h2 b0 hlo x hx).1
        have hy1 := (hs.buckets h2 b0 hlo y hy).1
        rw [List.getD_append _ _ _ _ hx1, List.getD_append _ _ _ _ hy1]
        exact hs.buckets_distinct h2 b0 hlo x hx y hy hxy
      | none =>
        rw [lookupAssoc_append_of_none _ _ _ hlo, lookupAssoc_singleton] at hb
        split at hb
        · rw [Option.some.injEq] at hb
          subst hb
          rw [List.mem_singleton] at hx hy
          subst hx
          subst hy
          exact absurd rfl hxy
        · exact Option.noConfusion hb
  | some bucket =>
    dsimp only
    cases hf : bucket.find? (fun j => s.HaveTheSameDexMaps (s.stack_maps_.getD j {})
        s.current_entry_) with
    | some j =>
      dsimp only
      have hjmem := List.mem_of_find?_eq_some hf
      have hjpred := List.find?_some hf
      obtain ⟨hjlt, hjhash, hjsame⟩ := hs.buckets _ bucket hl j hjmem
      have heqj : EqDexMaps s.dex_register_locations_ (s.stack_maps_.getD j {})
          s.current_entry_ :=
        (haveTheSameDexMaps_iff_eq s _ _
          (hs.entries _ (getD_mem_of_lt s.stack_maps_ {} hjlt)).mask_iff
          hs.cur.mask_iff).mp hjpred
      refine ⟨?_, entryWF_default _ _ _ _, hs.frames, hs.curInline, hs.inline_closed,
        hs.catalogBound, hs.indicesBound, ?_, ?_, ?_, ?_⟩
      · intro e2 he2
        rcases List.mem_append.mp he2 with he2 | he2
        · exact hs.entries e2 he2
        · rw [List.mem_singleton] at he2
          subst he2
          exact entryWF_set_same hs.cur _
      · intro i hi j2 hj2
        rw [List.length_append, List.length_singleton] at hi
        by_cases hin : i < s.stack_maps_.length
        · rw [List.getD_append _ _ _ _ hin] at hj2
          obtain ⟨h1, h2, h3⟩ := hs.same i hin j2 hj2
          refine ⟨h1, ?_, ?_⟩
          · rw [List.getD_append _ _ _ _ (Nat.lt_trans h1 hin),
              List.getD_append _ _ _ _ hin]
            exact h2
          · rw [List.getD_append _ _ _ _ (Nat.lt_trans h1 hin),
              List.getD_append _ _ _ _ hin]
            exact h3
        · have hieq : i = s.stack_maps_.length := by omega
          subst hieq
          rw [getD_append_self] at hj2
          have hj2e : j = j2 := by
            have hj2' : (some j : Option Nat) = some j2 := hj2
            rw [Option.some.injEq] at hj2'
            exact hj2'
          subst hj2e
          refine ⟨hjlt, ?_, ?_⟩
          · rw [List.getD_append _ _ _ _ hjlt, getD_append_self]
            exact hjhash
          · rw [List.getD_append _ _ _ _ hjlt, getD_append_self]
            exact heqj
      · intro h2 b hb x hx
        obtain ⟨hx1, hx2, hx3⟩ := hs.buckets h2 b hb x hx
        refine ⟨?_, ?_, ?_⟩
        · rw [List.length_append, List.length_singleton]
          omega
        · rw [List.getD_append _ _ _ _ hx1]
          exact hx2
        · rw [List.getD_append _ _ _ _ hx1]
          exact hx3
      · intro x hx hsame
        rw [List.length_append, List.length_singleton] at hx
        by_cases hxn : x < s.stack_maps_.length
        · rw [List.getD_append _ _ _ _ hxn] at hsame ⊢
          exact hs.buckets_mem x hxn hsame
        · have hxeq : x = s.stack_maps_.length := by omega
          subst hxeq
          rw [getD_append_self] at hsame
          exact Option.noConfusion hsame
      · intro h2 b hb x hx y hy hxy
        have hx1 := (hs.buckets h2 b hb x hx).1
        have hy1 := (hs.buckets h2 b hb y hy).1
        rw [List.getD_append _ _ _ _ hx1, List.getD_append _ _ _ _ hy1]
        exact hs.buckets_distinct h2 b hb x hx y hy hxy
    | none =>
      dsimp only
      have hfnone := List.find?_eq_none.mp hf
      refine ⟨?_, entryWF_default _ _ _ _, hs.frames, hs.curInline, hs.inline_closed,
        hs.catalogBound, hs.indicesBound, ?_, ?_, ?_, ?_⟩
      · intro e2 he2
        rcases List.mem_append.mp he2 with he2 | he2
        · exact hs.entries e2 he2
        · rw [List.mem_singleton] at he2
          subst he2
          exact entryWF_set_same hs.cur _
      · intro i hi j hj
        rw [List.length_append, List.length_singleton] at hi
        by_cases hin : i < s.stack_maps_.length
        · rw [List.getD_append _ _ _ _ hin] at hj
          obtain ⟨h1, h2, h3⟩ := hs.same i hin j hj
          refine ⟨h1, ?_, ?_⟩
          · rw [List.getD_append _ _ _ _ (Nat.lt_trans h1 hin),
              List.getD_append _ _ _ _ hin]
            exact h2
          · rw [List.getD_append _ _ _ _ (Nat.lt_trans h1 hin),
              List.getD_append _ _ _ _ hin]
            exact h3
        · have hieq : i = s.stack_maps_.length := by omega
          subst hieq
          rw [getD_append_self] at hj
          exact Option.noConfusion hj
      · intro h2 b hb x hx
        by_cases hh : h2 = s.current_entry_.dex_register_map_hash
        · subst hh
          rw [lookupAssoc_update_self _ _ _ bucket hl, Option.some.injEq] at hb
          subst hb
          rcases List.mem_append.mp hx with hx | hx
          · obtain ⟨hx1, hx2, hx3⟩ := hs.buckets _ bucket hl x hx
            refine ⟨?_, ?_, ?_⟩
            · rw [List.length_append, List.length_singleton]
              omega
            · rw [List.getD_append _ _ _ _ hx1]
              exact hx2
            · rw [List.getD_append _ _ _ _ hx1]
              exact hx3
          · rw [List.mem_singleton] at hx
            subst hx
            refine ⟨?_, ?_, ?_⟩
            · rw [List.length_append, List.length_singleton]
              omega
            · rw [getD_append_self]
            · rw [getD_append_self]
        · rw [lookupAssoc_update_ne _ _ _ _ hh] at hb
          obtain ⟨hx1, hx2, hx3⟩ := hs.buckets h2 b hb x hx
          refine ⟨?_, ?_, ?_⟩
          · rw [List.length_append, List.length_singleton]
            omega
          · rw [List.getD_append _ _ _ _ hx1]
            exact hx2
          · rw [List.getD_append _ _ _ _ hx1]
            exact hx3
      · intro x hx hsame
        rw [List.length_append, List.length_singleton] at hx
        by_cases hxn : x < s.stack_maps_.length
        · rw [List.getD_append _ _ _ _ hxn] at hsame ⊢
          obtain ⟨b, hb, hmem⟩ := hs.buckets_mem x hxn hsame
          by_cases hhx : (s.stack_maps_.getD x {}).dex_register_map_hash
              = s.current_entry_.dex_register_map_hash
          · rw [hhx] at hb ⊢
            rw [hl, Option.some.injEq] at hb
            subst hb
            exact ⟨bucket ++ [s.stack_maps_.length],
              lookupAssoc_update_self _ _ _ bucket hl,
              List.mem_append.mpr (Or.inl hmem)⟩
          · exact ⟨b, by rw [lookupAssoc_update_ne _ _ _ _ hhx]; exact hb, hmem⟩
        · have hxeq : x = s.stack_maps_.length := by omega
          subst hxeq
          rw [getD_append_self]
          dsimp only
          exact ⟨bucket ++ [s.stack_maps_.length],
            lookupAssoc_update_self _ _ _ bucket hl,
            List.mem_append.mpr (Or.inr (List.mem_singleton_self _))⟩
      · intro h2 b hb x hx y hy hxy
        by_cases hh : h2 = s.current_entry_.dex_register_map_hash
        · subst hh
          rw [lookupAssoc_update_self _ _ _ bucket hl, Option.some.injEq] at hb
          subst hb
          rcases List.mem_append.mp hx with hx | hx
          · rcases List.mem_append.mp hy with hy | hy
            · have hx1 := (hs.buckets _ bucket hl x hx).1
              have hy1 := (hs.buckets _ bucket hl y hy).1
              rw [List.getD_append _ _ _ _ hx1, List.getD_append _ _ _ _ hy1]
              exact hs.buckets_distinct _ bucket hl x hx y hy hxy
            · rw [List.mem_singleton] at hy
              subst hy
              have hx1 := (hs.buckets _ bucket hl x hx).1
              rw [List.getD_append _ _ _ _ hx1, getD_append_self]
              intro heq
              have heq2 : EqDexMaps s.dex_register_locations_
                  (s.stack_maps_.getD x {}) s.current_entry_ := heq
              have hpred := (haveTheSameDexMaps_iff_eq s _ _
                (hs.entries _ (getD_mem_of_lt s.stack_maps_ {} hx1)).mask_iff
                hs.cur.mask_iff).mpr heq2
              exact (hfnone x hx) hpred
          · rcases List.mem_append.mp hy with hy | hy
            · rw [List.mem_singleton] at hx
              subst hx
              have hy1 := (hs.buckets _ bucket hl y hy).1
              rw [getD_append_self, List.getD_append _ _ _ _ hy1]
              intro heq
              have heq2 : EqDexMaps s.dex_register_locations_
                  (s.stack_maps_.getD y {}) s.current_entry_ := eqDexMaps_symm heq
              have hpred := (haveTheSameDexMaps_iff_eq s _ _
                (hs.entries _ (getD_mem_of_lt s.stack_maps_ {} hy1)).mask_iff
                hs.cur.mask_iff).mpr heq2
              exact (hfnone y hy) hpred
            · rw [List.mem_singleton] at hx hy
              subst hx
              subst hy
              exact absurd rfl hxy
        · rw [lookupAssoc_update_ne _ _ _ _ hh] at hb
          have hx1 := (hs.buckets h2 b hb x hx).1
          have hy1 := (hs.buckets h2 b hb y hy).1
          rw [List.getD_append _ _ _ _ hx1, List.getD_append _ _ _ _ hy1]
          exact hs.buckets_distinct h2 b hb x hx y hy hxy

/-- Every producer call preserves the reachability invariant. -/
theorem streamInv_step {s : StackMapStream} {op : StreamOp} {s1 : StackMapStream}
    (hs : StreamInv s) (h : stepOp s op = some s1) : StreamInv s1 := by
  cases op with
  | beginEntry a b c d e f => exact streamInv_begin hs h
  | addDexRegister k v => exact streamInv_add hs h
  | beginInline m pc n => exact streamInv_beginInline hs h
  | endInline => exact streamInv_endInline hs h
  | endEntry =>
    rw [stepOp, Option.some.injEq] at h
    subst h
    exact streamInv_end hs

/-- Running any sequence of producer calls preserves the invariant. -/
theorem streamInv_runOps (ops : List StreamOp) :
    ∀ s s1 : StackMapStream, StreamInv s → runOps s ops = some s1 → StreamInv s1 := by
  induction ops with
  | nil =>
    intro s s1 hs h
    rw [runOps, Option.some.injEq] at h
    subst h
    exact hs
  | cons op rest ih =>
    intro s s1 hs h
    rw [runOps] at h
    cases hstep : stepOp s op with
    | none => rw [hstep] at h; exact Option.noConfusion h
    | some s2 =>
      rw [hstep] at h
      exact ih s2 s1 (streamInv_step hs hstep) h

/-- The freshly constructed stream satisfies the invariant. -/
theorem streamInv_initial (align : Nat) : StreamInv (initialStream align) := by
  refine ⟨?_, entryWF_default _ _ _ _, ?_, inlineWF_default _, fun _ => rfl, ?_, ?_,
    ?_, ?_, ?_, ?_⟩
  · intro e he
    simp [initialStream] at he
  · intro f hf
    simp [initialStream] at hf
  · intro idx hidx
    simp [initialStream] at hidx
  · intro p hp
    simp [initialStream] at hp
  · intro i hi
    simp [initialStream] at hi
  · intro h b hb
    simp [initialStream, lookupAssoc] at hb
  · intro x hx
    simp [initialStream] at hx
  · intro h b hb
    simp [initialStream, lookupAssoc] at hb

/-! ## Claim C3 -/

/-- C3: for every state reachable through the streaming API, each recorded
stack map's same-dex-map-as back-reference is either absent or the index
of a strictly earlier entry whose dex-register map is bit-exactly equal:
identical num_dex_registers, identical live mask (including absence), and
element-wise equal catalog-index slices of length popcount(live mask). -/
theorem endStackMapEntry_same_as_invariant (align : Nat) (ops : List StreamOp)
    (s : StackMapStream) (h : runOps (initialStream align) ops = some s)
    (i : Nat) (hi : i < s.stack_maps_.length) (j : Nat)
    (hj : (s.stack_maps_.getD i {}).same_dex_register_map_as_ = some j) :
    j < i
      ∧ (s.stack_maps_.getD j {}).num_dex_registers
          = (s.stack_maps_.getD i {}).num_dex_registers
      ∧ (s.stack_maps_.getD j {}).live_dex_registers_mask
          = (s.stack_maps_.getD i {}).live_dex_registers_mask
      ∧ slice s.dex_register_locations_
          (s.stack_maps_.getD j {}).dex_register_locations_start_index
          (popcount (((s.stack_maps_.getD i {}).live_dex_registers_mask).getD 0))
        = slice s.dex_register_locations_
            (s.stack_maps_.getD i {}).dex_register_locations_start_index
            (popcount (((s.stack_maps_.getD i {}).live_dex_registers_mask).getD 0)) := by
  have hinv := streamInv_runOps ops (initialStream align) s (streamInv_initial align) h
  obtain ⟨h1, h2, h3⟩ := hinv.same i hi j hj
  exact ⟨h1, h3.1, h3.2.1, h3.2.2⟩

/-- Scenario for the C3 witness: two stack maps with bit-identical
single-register constant maps; the second entry's back-reference points
at the first. -/
def c3ops : List StreamOp :=
  [StreamOp.beginEntry 1 4 0 Option.none 1 0,
   StreamOp.addDexRegister DexRegisterKind.kConstant 7,
   StreamOp.endEntry,
   StreamOp.beginEntry 2 8 0 Option.none 1 0,
   StreamOp.addDexRegister DexRegisterKind.kConstant 7,
   StreamOp.endEntry]

/-- The state the C3 witness scenario reaches. -/
def c3state : StackMapStream := (runOps (initialStream 1) c3ops).getD {}

theorem endStackMapEntry_same_as_invariant_witness :
    runOps (initialStream 1) c3ops = some c3state
      ∧ 1 < c3state.stack_maps_.length
      ∧ (c3state.stack_maps_.getD 1 {}).same_dex_register_map_as_ = some 0
      ∧ (0 < 1
        ∧ (c3state.stack_maps_.getD 0 {}).num_dex_registers
            = (c3state.stack_maps_.getD 1 {}).num_dex_registers
        ∧ (c3state.stack_maps_.getD 0 {}).live_dex_registers_mask
            = (c3state.stack_maps_.getD 1 {}).live_dex_registers_mask
        ∧ slice c3state.dex_register_locations_
            (c3state.stack_maps_.getD 0 {}).dex_register_locations_start_index
            (popcount (((c3state.stack_maps_.getD 1 {}).live_dex_registers_mask).getD 0))
          = slice c3state.dex_register_locations_
              (c3state.stack_maps_.getD 1 {}).dex_register_locations_start_index
              (popcount (((c3state.stack_maps_.getD 1 {}).live_dex_registers_mask).getD 0))) :=
  ⟨by decide, by decide, by decide,
    endStackMapEntry_same_as_invariant 1 c3ops c3state (by decide) 1 (by decide) 0
      (by decide)⟩

/-! ## PrepareForFillIn: state shape and invariant transfer -/

/-- The abstracted header serialization is lossless. -/
theorem decompress_compress (e : CodeInfoEncoding) :
    decompressHeader (compressHeader e) = some e := rfl

theorem prepareStackMasks_maps_getD (s : StackMapStream) (bits i : Nat)
    (hi : i < s.stack_maps_.length) :
    ∃ c, (s.PrepareStackMasks bits).2.stack_maps_.getD i {}
      = { s.stack_maps_.getD i {} with stack_mask_index := c } := by
  obtain ⟨table2, hS, -, -⟩ := internFold_full_spec (stackMaskKey bits)
    (fun e j => { e with stack_mask_index := j }) s.stack_maps_
    (resizeList s.stack_masks_ s.stack_maps_.length 0) (resizeList_length _ _ _)
  have hmaps : (s.PrepareStackMasks bits).2.stack_maps_
      = s.stack_maps_.map (fun x =>
          { x with stack_mask_index := (List.indexOf (stackMaskKey bits x)
              (distinctKeys (s.stack_maps_.map (stackMaskKey bits)))) }) := by
    simp only [StackMapStream.PrepareStackMasks]
    rw [hS]
  refine ⟨List.indexOf (stackMaskKey bits (s.stack_maps_.getD i {}))
    (distinctKeys (s.stack_maps_.map (stackMaskKey bits))), ?_⟩
  have hi2 : i < (s.stack_maps_.map (fun x : StackMapEntry =>
      { x with stack_mask_index := (List.indexOf (stackMaskKey bits x)
          (distinctKeys (s.stack_maps_.map (stackMaskKey bits)))) })).length := by
    simpa using hi
  rw [hmaps, List.getD_eq_getElem _ _ hi2, List.getElem_map,
    ← List.getD_eq_getElem s.stack_maps_ {} hi]

theorem prepareStackMasks_maps_length (s : StackMapStream) (bits : Nat) :
    (s.PrepareStackMasks bits).2.stack_maps_.length = s.stack_maps_.length := by
  obtain ⟨table2, hS, -, -⟩ := internFold_full_spec (stackMaskKey bits)
    (fun e j => { e with stack_mask_index := j }) s.stack_maps_
    (resizeList s.stack_masks_ s.stack_maps_.length 0) (resizeList_length _ _ _)
  have hmaps : (s.PrepareStackMasks bits).2.stack_maps_
      = s.stack_maps_.map (fun x =>
          { x with stack_mask_index := (List.indexOf (stackMaskKey bits x)
              (distinctKeys (s.stack_maps_.map (stackMaskKey bits)))) }) := by
    simp only [StackMapStream.PrepareStackMasks]
    rw [hS]
  rw [hmaps, List.length_map]

theorem prepareRegisterMasks_maps_getD (s : StackMapStream) (i : Nat)
    (hi : i < s.stack_maps_.length) :
    ∃ c, s.PrepareRegisterMasks.2.stack_maps_.getD i {}
      = { s.stack_maps_.getD i {} with register_mask_index := c } := by
  obtain ⟨table2, hR, -, -⟩ := internFold_full_spec (fun e : StackMapEntry => e.register_mask)
    (fun e j => { e with register_mask_index := j }) s.stack_maps_
    (resizeList s.register_masks_ s.stack_maps_.length 0) (resizeList_length _ _ _)
  have hmaps : s.PrepareRegisterMasks.2.stack_maps_
      = s.stack_maps_.map (fun x =>
          { x with register_mask_index := (List.indexOf x.register_mask
              (distinctKeys (s.stack_maps_.map (fun e => e.register_mask)))) }) := by
    simp only [StackMapStream.PrepareRegisterMasks]
    rw [hR]
  refine ⟨List.indexOf ((s.stack_maps_.getD i {}).register_mask)
    (distinctKeys (s.stack_maps_.map (fun e => e.register_mask))), ?_⟩
  have hi2 : i < (s.stack_maps_.map (fun x : StackMapEntry =>
      { x with register_mask_index := (List.indexOf x.register_mask
          (distinctKeys (s.stack_maps_.map (fun e : StackMapEntry =>
            e.register_mask)))) })).length := by
    simpa using hi
  rw [hmaps, List.getD_eq_getElem _ _ hi2, List.getElem_map,
    ← List.getD_eq_getElem s.stack_maps_ {} hi]

theorem prepareRegisterMasks_maps_length (s : StackMapStream) :
    s.PrepareRegisterMasks.2.stack_maps_.length = s.stack_maps_.length := by
  obtain ⟨table2, hR, -, -⟩ := internFold_full_spec (fun e : StackMapEntry => e.register_mask)
    (fun e j => { e with register_mask_index := j }) s.stack_maps_
    (resizeList s.register_masks_ s.stack_maps_.length 0) (resizeList_length _ _ _)
  have hmaps : s.PrepareRegisterMasks.2.stack_maps_
      = s.stack_maps_.map (fun x =>
          { x with register_mask_index := (List.indexOf x.register_mask
              (distinctKeys (s.stack_maps_.map (fun e => e.register_mask)))) }) := by
    simp only [StackMapStream.PrepareRegisterMasks]
    rw [hR]
  rw [hmaps, List.length_map]

/-- The state PrepareForFillIn returns: the header serialized from
`prepareEncoding`, the stack maps rewritten only in their two mask-index
fields, everything else untouched. -/
theorem prepareForFillIn_shape {s : StackMapStream} {sz : Nat} {s2 : StackMapStream}
    (h : s.PrepareForFillIn = some (sz, s2)) :
    s.code_info_encoding_ = []
    ∧ s2.code_info_encoding_ = compressHeader s.prepareEncoding
    ∧ s2.stack_maps_.length = s.stack_maps_.length
    ∧ (∀ i, i < s.stack_maps_.length → ∃ a b,
        s2.stack_maps_.getD i {} = { s.stack_maps_.getD i {} with
          register_mask_index := a, stack_mask_index := b })
    ∧ s2.dex_register_locations_ = s.dex_register_locations_
    ∧ s2.inline_infos_ = s.inline_infos_
    ∧ s2.location_catalog_entries_ = s.location_catalog_entries_
    ∧ s2.location_catalog_entries_indices_ = s.location_catalog_entries_indices_
    ∧ s2.current_entry_ = s.current_entry_
    ∧ s2.current_inline_info_ = s.current_inline_info_
    ∧ s2.in_inline_frame_ = s.in_inline_frame_
    ∧ s2.dex_pc_max_ = s.dex_pc_max_
    ∧ s2.register_mask_max_ = s.register_mask_max_
    ∧ s2.stack_mask_max_ = s.stack_mask_max_
    ∧ s2.dex_map_hash_to_stack_map_indices_ = s.dex_map_hash_to_stack_map_indices_
    ∧ s2.instruction_set_align = s.instruction_set_align
    ∧ s2.needed_size_
        = (compressHeader s.prepareEncoding).length + s.prepareEncoding.NonHeaderSize
    ∧ sz = (compressHeader s.prepareEncoding).length + s.prepareEncoding.NonHeaderSize := by
  unfold StackMapStream.PrepareForFillIn at h
  split at h
  · exact Option.noConfusion h
  · simp only [] at h
    split at h
    · exact Option.noConfusion h
    · rename_i hcode
      rw [Option.some.injEq, Prod.mk.injEq] at h
      obtain ⟨hsz, hs2⟩ := h
      have hcode0 : s.code_info_encoding_ = [] := by
        rw [← List.length_eq_zero]
        omega
      subst hs2
      refine ⟨hcode0, ?_, ?_, ?_, rfl, rfl, rfl, rfl, rfl, rfl, rfl, rfl, rfl, rfl,
        rfl, rfl, rfl, hsz.symm⟩
      · show ((s.PrepareStackMasks _).2.PrepareRegisterMasks).2.code_info_encoding_
            ++ compressHeader s.prepareEncoding = _
        show s.code_info_encoding_ ++ compressHeader s.prepareEncoding = _
        rw [hcode0, List.nil_append]
      · show ((s.PrepareStackMasks _).2.PrepareRegisterMasks).2.stack_maps_.length = _
        rw [prepareRegisterMasks_maps_length, prepareStackMasks_maps_length]
      · intro i hi
        have hi1 : i < (s.PrepareStackMasks (s.stack_mask_max_ + 1).toNat).2.stack_maps_.length := by
          rw [prepareStackMasks_maps_length]
          exact hi
        obtain ⟨a, ha⟩ := prepareRegisterMasks_maps_getD
          (s.PrepareStackMasks (s.stack_mask_max_ + 1).toNat).2 i hi1
        obtain ⟨b, hb⟩ := prepareStackMasks_maps_getD s (s.stack_mask_max_ + 1).toNat i hi
        refine ⟨a, b, ?_⟩
        show ((s.PrepareStackMasks _).2.PrepareRegisterMasks).2.stack_maps_.getD i {} = _
        rw [ha, hb]

/-- Helper: the entry well-formedness predicate ignores the two mask-index
fields. -/
theorem entryWF_set_indices {L dmax rmax : Nat} {smax : Int} {e : StackMapEntry}
    (h : EntryWF L dmax rmax smax e) (a b : Nat) :
    EntryWF L dmax rmax smax { e with register_mask_index := a, stack_mask_index := b } :=
  ⟨h.mask_iff, h.mask_lt, h.window, h.dex_pc_le, h.dex_pc_lt, h.rm_le, h.sp_le,
    h.depth_lt⟩

/-- The reachability invariant transfers along a state change that only
rewrites the mask-index fields of the recorded stack maps. -/
theorem streamInv_of_indexMap {s s2 : StackMapStream} (hs : StreamInv s)
    (hlen : s2.stack_maps_.length = s.stack_maps_.length)
    (hmaps : ∀ i, i < s.stack_maps_.length → ∃ a b,
      s2.stack_maps_.getD i {} = { s.stack_maps_.getD i {} with
        register_mask_index := a, stack_mask_index := b })
    (hlocs : s2.dex_register_locations_ = s.dex_register_locations_)
    (hinl : s2.inline_infos_ = s.inline_infos_)
    (hcat : s2.location_catalog_entries_ = s.location_catalog_entries_)
    (hcati : s2.location_catalog_entries_indices_ = s.location_catalog_entries_indices_)
    (hcur : s2.current_entry_ = s.current_entry_)
    (hcuri : s2.current_inline_info_ = s.current_inline_info_)
    (hiif : s2.in_inline_frame_ = s.in_inline_frame_)
    (hdmax : s2.dex_pc_max_ = s.dex_pc_max_)
    (hrmax : s2.register_mask_max_ = s.register_mask_max_)
    (hsmax : s2.stack_mask_max_ = s.stack_mask_max_)
    (hbuck : s2.dex_map_hash_to_stack_map_indices_ = s.dex_map_hash_to_stack_map_indices_) :
    StreamInv s2 := by
  refine ⟨?_, ?_, ?_, ?_, ?_, ?_, ?_, ?_, ?_, ?_, ?_⟩
  · intro e he
    obtain ⟨n, hn, hen⟩ := List.mem_iff_getElem.mp he
    have hn2 : n < s.stack_maps_.length := by rw [← hlen]; exact hn
    obtain ⟨a, b, hab⟩ := hmaps n hn2
    rw [List.getD_eq_getElem s2.stack_maps_ {} hn, hen] at hab
    rw [hlocs, hdmax, hrmax, hsmax, hab]
    exact entryWF_set_indices
      (hs.entries _ (getD_mem_of_lt s.stack_maps_ {} hn2)) a b
  · rw [hlocs, hdmax, hrmax, hsmax, hcur]
    exact hs.cur
  · intro f hf
    rw [hinl] at hf
    rw [hlocs]
    exact hs.frames f hf
  · rw [hlocs, hcuri]
    exact hs.curInline
  · rw [hiif, hcuri]
    exact hs.inline_closed
  · rw [hlocs, hcat]
    exact hs.catalogBound
  · rw [hcati, hcat]
    exact hs.indicesBound
  · intro i hi j hj
    rw [hlen] at hi
    obtain ⟨a, b, hab⟩ := hmaps i hi
    rw [hab] at hj
    obtain ⟨h1, h2, h3⟩ := hs.same i hi j hj
    obtain ⟨a2, b2, hab2⟩ := hmaps j (Nat.lt_trans h1 hi)
    refine ⟨h1, ?_, ?_⟩
    · rw [hab, hab2]
      exact h2
    · rw [hlocs, hab, hab2]
      exact h3
  · intro h b hb x hx
    rw [hbuck] at hb
    obtain ⟨h1, h2, h3⟩ := hs.buckets h b hb x hx
    obtain ⟨a2, b2, hab⟩ := hmaps x h1
    rw [hlen, hab]
    exact ⟨h1, h2, h3⟩
  · intro x hx hsame
    rw [hlen] at hx
    obtain ⟨a2, b2, hab⟩ := hmaps x hx
    rw [hab] at hsame
    obtain ⟨b, hb, hm⟩ := hs.buckets_mem x hx hsame
    refine ⟨b, ?_, hm⟩
    rw [hbuck, hab]
    exact hb
  · intro h b hb x hx y hy hxy
    rw [hbuck] at hb
    have hx1 := (hs.buckets h b hb x hx).1
    have hy1 := (hs.buckets h b hb y hy).1
    obtain ⟨ax, bx, habx⟩ := hmaps x hx1
    obtain ⟨ay, by2, haby⟩ := hmaps y hy1
    rw [hlocs, habx, haby]
    exact hs.buckets_distinct h b hb x hx y hy hxy

/-- PrepareForFillIn preserves the reachability invariant. -/
theorem streamInv_prepare {s : StackMapStream} {sz : Nat} {s2 : StackMapStream}
    (hs : StreamInv s) (h : s.PrepareForFillIn = some (sz, s2)) : StreamInv s2 := by
  obtain ⟨-, -, hlen, hmaps, hlocs, hinl, hcat, hcati, hcur, hcuri, hiif, hdmax,
    hrmax, hsmax, hbuck, -, -, -⟩ := prepareForFillIn_shape h
  exact streamInv_of_indexMap hs hlen hmaps hlocs hinl hcat hcati hcur hcuri hiif
    hdmax hrmax hsmax hbuck

/-! ## Claim C4 -/

/-- An entry whose dex-register map must encode as the absent sentinel:
no registers, or none live. -/
def deadMap (e : StackMapEntry) : Prop :=
  e.num_dex_registers = 0 ∨ popcount (e.live_dex_registers_mask.getD 0) = 0

theorem computeDexRegisterMapSize_pos (s : StackMapStream) (N : Nat)
    (mask : Option Nat) (hN : N ≠ 0) : 1 ≤ s.ComputeDexRegisterMapSize N mask := by
  unfold StackMapStream.ComputeDexRegisterMapSize
  rw [if_neg hN]
  simp only [bitsToBytes, dexRegisterMapFixedSize]
  omega

/-- One FillIn iteration appends exactly one record, whose stored
dex-register-map offset is in field range and decodes to the sentinel
exactly for a dead map. -/
theorem fillInOneEntry_offset_prop (s : StackMapStream) (enc : CodeInfoEncoding)
    (acc : FillAcc) (e : StackMapEntry) (out : FillAcc)
    (h : s.fillInOneEntry enc acc e = some out)
    (hbw : enc.dex_register_map_bytes < 2 ^ enc.stack_map_encoding.map_offset_width)
    (hprior : ∀ j, e.same_dex_register_map_as_ = some j →
      ((acc.records.getD j {}).map_offset_stored
          < 2 ^ enc.stack_map_encoding.map_offset_width
        ∧ (decodeOptField ((acc.records.getD j {}).map_offset_stored) = Option.none
            ↔ deadMap e))) :
    out.records.length = acc.records.length + 1
    ∧ (∀ k, k < acc.records.length → out.records.getD k {} = acc.records.getD k {})
    ∧ (out.records.getD acc.records.length {}).map_offset_stored
        < 2 ^ enc.stack_map_encoding.map_offset_width
    ∧ (decodeOptField ((out.records.getD acc.records.length {}).map_offset_stored)
        = Option.none ↔ deadMap e)
    ∧ (∀ j, e.same_dex_register_map_as_ = some j → ¬ deadMap e →
        (out.records.getD acc.records.length {}).map_offset_stored
          = (acc.records.getD j {}).map_offset_stored) := by
  simp only [StackMapStream.fillInOneEntry] at h
  split at h
  · exact absurd h (by simp)
  · rename_i mos dmaps1 cursor1 heq
    have hmos : (mos < 2 ^ enc.stack_map_encoding.map_offset_width
          ∧ (decodeOptField mos = Option.none ↔ deadMap e))
        ∧ (∀ j, e.same_dex_register_map_as_ = some j → ¬ deadMap e →
            mos = (acc.records.getD j {}).map_offset_stored) := by
      split at heq
      · rename_i hN
        simp only [Option.some.injEq, Prod.mk.injEq] at heq
        obtain ⟨hm, -, -⟩ := heq
        subst hm
        refine ⟨⟨?_, ?_⟩, ?_⟩
        · show (0 : Nat) < _
          exact pow_pos (by norm_num) _
        · simp [storeOptField, decodeOptField, deadMap, hN]
        · intro j hj hdead
          exact absurd (Or.inl hN) hdead
      · rename_i hN
        split at heq
        · exact absurd heq (by simp)
        · rename_i mask0 hmask
          split at heq
          · rename_i hpop
            simp only [Option.some.injEq, Prod.mk.injEq] at heq
            obtain ⟨hm, -, -⟩ := heq
            subst hm
            refine ⟨⟨?_, ?_⟩, ?_⟩
            · show (0 : Nat) < _
              exact pow_pos (by norm_num) _
            · simp [storeOptField, decodeOptField, deadMap, hmask, hpop]
            · intro j hj hdead
              refine absurd (Or.inr ?_) hdead
              rw [hmask, Option.getD_some]
              exact hpop
          · rename_i hpop
            split at heq
            · rename_i j hs
              obtain ⟨hp1, hp2⟩ := hprior j hs
              have hdead : ¬ deadMap e := by
                intro hd
                cases hd with
                | inl h0 => exact hN h0
                | inr h0 =>
                  rw [hmask] at h0
                  rw [Option.getD_some] at h0
                  exact hpop h0
              have hne : decodeOptField ((acc.records.getD j {}).map_offset_stored)
                  ≠ Option.none := by
                intro hc
                exact hdead (hp2.mp hc)
              have hp0 : (acc.records.getD j {}).map_offset_stored ≠ 0 := by
                intro hc
                apply hne
                rw [hc]
                rfl
              have hdec : decodeOptField ((acc.records.getD j {}).map_offset_stored)
                  = some ((acc.records.getD j {}).map_offset_stored - 1) := by
                unfold decodeOptField
                rw [if_neg hp0]
              simp only [Option.some.injEq, Prod.mk.injEq] at heq
              obtain ⟨hm, -, -⟩ := heq
              subst hm
              have hstore : storeOptField enc.stack_map_encoding.map_offset_width
                  (decodeOptField ((acc.records.getD j {}).map_offset_stored))
                  = (acc.records.getD j {}).map_offset_stored := by
                rw [hdec]
                show ((acc.records.getD j {}).map_offset_stored - 1 + 1) % 2 ^ _ = _
                rw [Nat.sub_add_cancel (Nat.one_le_iff_ne_zero.mpr hp0)]
                exact Nat.mod_eq_of_lt hp1
              rw [hstore]
              refine ⟨⟨hp1, hp2⟩, ?_⟩
              intro j2 hj2 hdead2
              rw [hs] at hj2
              rw [Option.some.injEq] at hj2
              subst hj2
              rfl
            · rename_i hs
              split at heq
              · rename_i hsz
                split at heq
                · rename_i emap hemap
                  simp only [Option.some.injEq, Prod.mk.injEq] at heq
                  obtain ⟨hm, -, -⟩ := heq
                  subst hm
                  have hsize1 : 1 ≤ s.ComputeDexRegisterMapSize e.num_dex_registers
                      e.live_dex_registers_mask :=
                    computeDexRegisterMapSize_pos s _ _ hN
                  have hv : acc.next_dex_register_map_offset + 1
                      < 2 ^ enc.stack_map_encoding.map_offset_width := by
                    omega
                  have hstore : storeOptField enc.stack_map_encoding.map_offset_width
                      (some acc.next_dex_register_map_offset)
                      = acc.next_dex_register_map_offset + 1 := by
                    show (acc.next_dex_register_map_offset + 1) % 2 ^ _ = _
                    exact Nat.mod_eq_of_lt hv
                  rw [hstore]
                  refine ⟨⟨hv, ?_⟩, ?_⟩
                  · simp [decodeOptField, deadMap, hN, hmask, hpop]
                  · intro j hj hdead
                    rw [hs] at hj
                    exact Option.noConfusion hj
                · exact absurd heq (by simp)
              · exact absurd heq (by simp)
    split at h
    · rename_i hdep
      split at h
      · exact absurd h (by simp)
      · rename_i hstart
        split at h
        · exact absurd h (by simp)
        · rename_i hbound
          split at h
          · exact absurd h (by simp)
          · rename_i irecs dmaps2 cursor2 hfold
            rw [Option.some.injEq] at h
            subst h
            refine ⟨by simp, ?_, ?_, ?_, ?_⟩
            · intro k hk
              exact List.getD_append _ _ _ _ hk
            · rw [getD_append_self]
              exact hmos.1.1
            · rw [getD_append_self]
              exact hmos.1.2
            · intro j hj hdead
              rw [getD_append_self]
              exact hmos.2 j hj hdead
    · rename_i hdep
      rw [Option.some.injEq] at h
      subst h
      refine ⟨by simp, ?_, ?_, ?_, ?_⟩
      · intro k hk
        exact List.getD_append _ _ _ _ hk
      · rw [getD_append_self]
        exact hmos.1.1
      · rw [getD_append_self]
        exact hmos.1.2
      · intro j hj hdead
        rw [getD_append_self]
        exact hmos.2 j hj hdead

/-- The FillIn main loop: after processing every entry, record k's stored
offset is in range and decodes to the sentinel exactly for dead maps. -/
theorem fillIn_fold_offset_prop (s : StackMapStream) (enc : CodeInfoEncoding)
    (hbw : enc.dex_register_map_bytes < 2 ^ enc.stack_map_encoding.map_offset_width)
    (hsame : ∀ i, i < s.stack_maps_.length → ∀ j,
      (s.stack_maps_.getD i {}).same_dex_register_map_as_ = some j →
      j < i
        ∧ (s.stack_maps_.getD j {}).num_dex_registers
            = (s.stack_maps_.getD i {}).num_dex_registers
        ∧ (s.stack_maps_.getD j {}).live_dex_registers_mask
            = (s.stack_maps_.getD i {}).live_dex_registers_mask) :
    ∀ (rest pre : List StackMapEntry) (acc out : FillAcc),
      s.stack_maps_ = pre ++ rest →
      acc.records.length = pre.length →
      (∀ k, k < pre.length →
        (acc.records.getD k {}).map_offset_stored
            < 2 ^ enc.stack_map_encoding.map_offset_width
          ∧ (decodeOptField ((acc.records.getD k {}).map_offset_stored) = Option.none
              ↔ deadMap (s.stack_maps_.getD k {}))) →
      optFold (s.fillInOneEntry enc) rest acc = some out →
      ∀ k, k < s.stack_maps_.length →
        (out.records.getD k {}).map_offset_stored
            < 2 ^ enc.stack_map_encoding.map_offset_width
          ∧ (decodeOptField ((out.records.getD k {}).map_offset_stored) = Option.none
              ↔ deadMap (s.stack_maps_.getD k {})) := by
  intro rest
  induction rest with
  | nil =>
    intro pre acc out hpre hlen hinv hfold k hk
    rw [optFold_nil, Option.some.injEq] at hfold
    subst hfold
    have hp : s.stack_maps_ = pre := by
      rw [hpre, List.append_nil]
    rw [hp] at hk
    exact hinv k hk
  | cons x rest ih =>
    intro pre acc out hpre hlen hinv hfold
    rw [optFold] at hfold
    cases hstep : s.fillInOneEntry enc acc x with
    | none =>
      rw [hstep] at hfold
      exact Option.noConfusion hfold
    | some acc1 =>
      rw [hstep] at hfold
      have hx : s.stack_maps_.getD pre.length {} = x := by
        rw [hpre, List.getD_append_right pre (x :: rest) {} pre.length (Nat.le_refl _)]
        simp
      have hprior : ∀ j, x.same_dex_register_map_as_ = some j →
          ((acc.records.getD j {}).map_offset_stored
              < 2 ^ enc.stack_map_encoding.map_offset_width
            ∧ (decodeOptField ((acc.records.getD j {}).map_offset_stored) = Option.none
                ↔ deadMap x)) := by
        intro j hj
        have hilen : pre.length < s.stack_maps_.length := by
          rw [hpre]
          simp
        have hj2 : (s.stack_maps_.getD pre.length {}).same_dex_register_map_as_
            = some j := by
          rw [hx]
          exact hj
        obtain ⟨hjlt, hjN, hjmask⟩ := hsame pre.length hilen j hj2
        obtain ⟨hk1, hk2⟩ := hinv j hjlt
        refine ⟨hk1, ?_⟩
        rw [hk2]
        unfold deadMap
        rw [hjN, hjmask, hx]
      obtain ⟨ha1, ha2, ha3, ha4, -⟩ :=
        fillInOneEntry_offset_prop s enc acc x acc1 hstep hbw hprior
      have happ : s.stack_maps_ = (pre ++ [x]) ++ rest := by
        rw [hpre]
        simp
      have hlen1 : acc1.records.length = (pre ++ [x]).length := by
        rw [ha1, hlen]
        simp
      have hinv1 : ∀ k, k < (pre ++ [x]).length →
          (acc1.records.getD k {}).map_offset_stored
              < 2 ^ enc.stack_map_encoding.map_offset_width
            ∧ (decodeOptField ((acc1.records.getD k {}).map_offset_stored) = Option.none
                ↔ deadMap (s.stack_maps_.getD k {})) := by
        intro k hk
        rw [List.length_append, List.length_singleton] at hk
        by_cases hkp : k < pre.length
        · rw [ha2 k (by rw [hlen]; exact hkp)]
          exact hinv k hkp
        · have hkeq : k = pre.length := by omega
          subst hkeq
          have h3 : (acc1.records.getD pre.length {}).map_offset_stored
              < 2 ^ enc.stack_map_encoding.map_offset_width := by
            rw [← hlen]
            exact ha3
          have h4 : decodeOptField ((acc1.records.getD pre.length {}).map_offset_stored)
              = Option.none ↔ deadMap x := by
            rw [← hlen]
            exact ha4
          refine ⟨h3, ?_⟩
          rw [hx]
          exact h4
      exact ih (pre ++ [x]) acc1 out happ hlen1 hinv1 hfold

/-- C4: for any stream recorded through the producer API and serialized by
PrepareForFillIn and FillIn, the stack-map record written for entry i
holds the kNoDexRegisterMap sentinel as its dex-register-map offset
exactly when the entry has num_dex_registers = 0 or an all-dead live mask;
a live entry always decodes to a real materialized offset. -/
theorem fillIn_sentinel_iff_dead_map (align : Nat) (ops : List StreamOp)
    (s : StackMapStream) (hrun : runOps (initialStream align) ops = some s)
    (sz : Nat) (s2 : StackMapStream) (hprep : s.PrepareForFillIn = some (sz, s2))
    (blob : CodeInfoBlob) (hfill : s2.FillIn = some blob)
    (i : Nat) (hi : i < s2.stack_maps_.length) :
    ((blob.GetStackMapAt i).GetDexRegisterMapOffset = Option.none)
      ↔ ((s2.stack_maps_.getD i {}).num_dex_registers = 0
          ∨ popcount (((s2.stack_maps_.getD i {}).live_dex_registers_mask).getD 0)
              = 0) := by
  have hinv2 : StreamInv s2 :=
    streamInv_prepare (streamInv_runOps ops (initialStream align) s
      (streamInv_initial align) hrun) hprep
  obtain ⟨-, hcode, -, -, -, -, -, -, -, -, -, -, -, -, -, -, -, -⟩ :=
    prepareForFillIn_shape hprep
  have hbw : s.prepareEncoding.dex_register_map_bytes
      < 2 ^ s.prepareEncoding.stack_map_encoding.map_offset_width := by
    show s.ComputeDexRegisterMapsSize
        < 2 ^ MinimumBitsToStore s.ComputeDexRegisterMapsSize
    exact lt_two_pow_minimumBits (Nat.le_refl _)
  have hsame : ∀ i2, i2 < s2.stack_maps_.length → ∀ j,
      (s2.stack_maps_.getD i2 {}).same_dex_register_map_as_ = some j →
      j < i2
        ∧ (s2.stack_maps_.getD j {}).num_dex_registers
            = (s2.stack_maps_.getD i2 {}).num_dex_registers
        ∧ (s2.stack_maps_.getD j {}).live_dex_registers_mask
            = (s2.stack_maps_.getD i2 {}).live_dex_registers_mask := by
    intro i2 hi2 j hj
    obtain ⟨h1, -, h3⟩ := hinv2.same i2 hi2 j hj
    exact ⟨h1, h3.1, h3.2.1⟩
  unfold StackMapStream.FillIn at hfill
  split at hfill
  · exact Option.noConfusion hfill
  · split at hfill
    · exact Option.noConfusion hfill
    · rw [hcode, decompress_compress] at hfill
      dsimp only at hfill
      split at hfill
      · exact Option.noConfusion hfill
      · split at hfill
        · exact Option.noConfusion hfill
        · split at hfill
          · exact Option.noConfusion hfill
          · rename_i acc hacc
            rw [Option.some.injEq] at hfill
            subst hfill
            have hmain := fillIn_fold_offset_prop s2 s.prepareEncoding hbw hsame
              s2.stack_maps_ [] {} acc (by simp) rfl
              (by intro k hk; simp at hk) hacc i hi
            exact hmain.2

/-- Scenario for the C4 witness: entry 0 has one live register (its map is
materialized at offset 0), entry 1 declares one register but adds none
(all-dead mask, written as the sentinel). -/
def c4ops : List StreamOp :=
  [StreamOp.beginEntry 1 4 0 Option.none 1 0,
   StreamOp.addDexRegister DexRegisterKind.kConstant 3,
   StreamOp.endEntry,
   StreamOp.beginEntry 2 8 0 Option.none 1 0,
   StreamOp.endEntry]

/-- The state the C4 witness scenario reaches. -/
def c4state : StackMapStream := (runOps (initialStream 1) c4ops).getD {}

/-- The C4 witness scenario after PrepareForFillIn. -/
def c4prep : Nat × StackMapStream := c4state.PrepareForFillIn.getD (0, {})

/-- The blob the C4 witness scenario writes. -/
def c4blob : CodeInfoBlob := c4prep.2.FillIn.getD {}

theorem fillIn_sentinel_iff_dead_map_witness :
    runOps (initialStream 1) c4ops = some c4state
      ∧ c4state.PrepareForFillIn = some (c4prep.1, c4prep.2)
      ∧ c4prep.2.FillIn = some c4blob
      ∧ 1 < c4prep.2.stack_maps_.length
      ∧ (c4blob.GetStackMapAt 1).GetDexRegisterMapOffset = Option.none
      ∧ (c4blob.GetStackMapAt 0).GetDexRegisterMapOffset = some 0
      ∧ (((c4blob.GetStackMapAt 1).GetDexRegisterMapOffset = Option.none)
          ↔ ((c4prep.2.stack_maps_.getD 1 {}).num_dex_registers = 0
            ∨ popcount (((c4prep.2.stack_maps_.getD 1 {}).live_dex_registers_mask).getD 0)
                = 0)) :=
  ⟨by decide, by decide, by decide, by decide, by decide, by decide,
    fillIn_sentinel_iff_dead_map 1 c4ops c4state (by decide) c4prep.1 c4prep.2
      (by decide) c4blob (by decide) 1 (by decide)⟩

/-! ## Claim C2 -/

theorem eqDexMaps_trans {locs : List Nat} {a b c : StackMapEntry}
    (h1 : EqDexMaps locs a b) (h2 : EqDexMaps locs b c) : EqDexMaps locs a c := by
  obtain ⟨hN1, hm1, hs1⟩ := h1
  obtain ⟨hN2, hm2, hs2⟩ := h2
  refine ⟨hN1.trans hN2, hm1.trans hm2, ?_⟩
  rw [← hm2] at hs2
  rw [← hm2]
  exact hs1.trans hs2

/-- In a reachable state, an entry with no back-reference has no earlier
entry with the same hash and a bit-identical map: the hash bucket would
hold both and the bucket members are pairwise map-distinct. -/
theorem no_equal_earlier {s : StackMapStream} (hs : StreamInv s) :
    ∀ k n, n < s.stack_maps_.length → k < n →
      (s.stack_maps_.getD n {}).same_dex_register_map_as_ = Option.none →
      (s.stack_maps_.getD k {}).dex_register_map_hash
          = (s.stack_maps_.getD n {}).dex_register_map_hash →
      EqDexMaps s.dex_register_locations_ (s.stack_maps_.getD k {})
        (s.stack_maps_.getD n {}) →
      False := by
  intro k
  induction k using Nat.strong_induction_on with
  | _ k ih =>
    intro n hn hkn hnone hhash heq
    cases hsk : (s.stack_maps_.getD k {}).same_dex_register_map_as_ with
    | none =>
      obtain ⟨b1, hb1, hm1⟩ := hs.buckets_mem k (Nat.lt_trans hkn hn) hsk
      obtain ⟨b2, hb2, hm2⟩ := hs.buckets_mem n hn hnone
      rw [hhash, hb2, Option.some.injEq] at hb1
      subst hb1
      exact hs.buckets_distinct _ b2 hb2 k hm1 n hm2 (Nat.ne_of_lt hkn) heq
    | some j =>
      obtain ⟨hjk, hjh, hjeq⟩ := hs.same k (Nat.lt_trans hkn hn) j hsk
      exact ih j hjk n hn (Nat.lt_trans hjk hkn) hnone (hjh.trans hhash)
        (eqDexMaps_trans hjeq heq)

/-- The FillIn main loop maps hash-equal, bit-identical dex-register maps
to equal decoded offsets. -/
theorem fillIn_fold_offset_pairs (s : StackMapStream) (enc : CodeInfoEncoding)
    (hbw : enc.dex_register_map_bytes < 2 ^ enc.stack_map_encoding.map_offset_width)
    (hsame : ∀ i, i < s.stack_maps_.length → ∀ j,
      (s.stack_maps_.getD i {}).same_dex_register_map_as_ = some j →
      j < i
        ∧ (s.stack_maps_.getD j {}).dex_register_map_hash
            = (s.stack_maps_.getD i {}).dex_register_map_hash
        ∧ EqDexMaps s.dex_register_locations_ (s.stack_maps_.getD j {})
            (s.stack_maps_.getD i {}))
    (hnoeq : ∀ k n, n < s.stack_maps_.length → k < n →
      (s.stack_maps_.getD n {}).same_dex_register_map_as_ = Option.none →
      (s.stack_maps_.getD k {}).dex_register_map_hash
          = (s.stack_maps_.getD n {}).dex_register_map_hash →
      EqDexMaps s.dex_register_locations_ (s.stack_maps_.getD k {})
        (s.stack_maps_.getD n {}) →
      False) :
    ∀ rest pre acc out,
      s.stack_maps_ = pre ++ rest →
      acc.records.length = pre.length →
      (∀ k, k < pre.length →
        (acc.records.getD k {}).map_offset_stored
            < 2 ^ enc.stack_map_encoding.map_offset_width
          ∧ (decodeOptField ((acc.records.getD k {}).map_offset_stored) = Option.none
              ↔ deadMap (s.stack_maps_.getD k {}))) →
      (∀ k1 k2, k1 < pre.length → k2 < pre.length →
        (s.stack_maps_.getD k1 {}).dex_register_map_hash
            = (s.stack_maps_.getD k2 {}).dex_register_map_hash →
        EqDexMaps s.dex_register_locations_ (s.stack_maps_.getD k1 {})
          (s.stack_maps_.getD k2 {}) →
        decodeOptField ((acc.records.getD k1 {}).map_offset_stored)
          = decodeOptField ((acc.records.getD k2 {}).map_offset_stored)) →
      optFold (s.fillInOneEntry enc) rest acc = some out →
      ∀ k1 k2, k1 < s.stack_maps_.length → k2 < s.stack_maps_.length →
        (s.stack_maps_.getD k1 {}).dex_register_map_hash
            = (s.stack_maps_.getD k2 {}).dex_register_map_hash →
        EqDexMaps s.dex_register_locations_ (s.stack_maps_.getD k1 {})
          (s.stack_maps_.getD k2 {}) →
        decodeOptField ((out.records.getD k1 {}).map_offset_stored)
          = decodeOptField ((out.records.getD k2 {}).map_offset_stored) := by
  intro rest
  induction rest with
  | nil =>
    intro pre acc out hpre hlen hP hQ hfold
    rw [optFold_nil, Option.some.injEq] at hfold
    subst hfold
    intro k1 k2 hk1 hk2 hh heq
    have hp : pre.length = s.stack_maps_.length := by
      rw [hpre, List.append_nil]
    exact hQ k1 k2 (by omega) (by omega) hh heq
  | cons x rest ih =>
    intro pre acc out hpre hlen hP hQ hfold
    rw [optFold] at hfold
    cases hstep : s.fillInOneEntry enc acc x with
    | none =>
      rw [hstep] at hfold
      exact Option.noConfusion hfold
    | some acc1 =>
      rw [hstep] at hfold
      have hx : s.stack_maps_.getD pre.length {} = x := by
        rw [hpre, List.getD_append_right pre (x :: rest) {} pre.length (Nat.le_refl _)]
        simp
      have hilen : pre.length < s.stack_maps_.length := by
        rw [hpre]
        simp
      have hprior : ∀ j, x.same_dex_register_map_as_ = some j →
          ((acc.records.getD j {}).map_offset_stored
              < 2 ^ enc.stack_map_encoding.map_offset_width
            ∧ (decodeOptField ((acc.records.getD j {}).map_offset_stored) = Option.none
                ↔ deadMap x)) := by
        intro j hj
        have hj2 : (s.stack_maps_.getD pre.length {}).same_dex_register_map_as_
            = some j := by
          rw [hx]
          exact hj
        obtain ⟨hjlt, -, hjeq⟩ := hsame pre.length hilen j hj2
        obtain ⟨hk1, hk2⟩ := hP j hjlt
        refine ⟨hk1, ?_⟩
        rw [hk2]
        unfold deadMap
        rw [hjeq.1, hjeq.2.1, hx]
      obtain ⟨ha1, ha2, ha3, ha4, ha5⟩ :=
        fillInOneEntry_offset_prop s enc acc x acc1 hstep hbw hprior
      have happ : s.stack_maps_ = (pre ++ [x]) ++ rest := by
        rw [hpre]
        simp
      have hlen1 : acc1.records.length = (pre ++ [x]).length := by
        rw [ha1, hlen]
        simp
      have hP1 : ∀ k, k < (pre ++ [x]).length →
          (acc1.records.getD k {}).map_offset_stored
              < 2 ^ enc.stack_map_encoding.map_offset_width
            ∧ (decodeOptField ((acc1.records.getD k {}).map_offset_stored) = Option.none
                ↔ deadMap (s.stack_maps_.getD k {})) := by
        intro k hk
        rw [List.length_append, List.length_singleton] at hk
        by_cases hkp : k < pre.length
        · rw [ha2 k (by rw [hlen]; exact hkp)]
          exact hP k hkp
        · have hkeq : k = pre.length := by omega
          subst hkeq
          have h3 : (acc1.records.getD pre.length {}).map_offset_stored
              < 2 ^ enc.stack_map_encoding.map_offset_width := by
            rw [← hlen]
            exact ha3
          have h4 : decodeOptField ((acc1.records.getD pre.length {}).map_offset_stored)
              = Option.none ↔ deadMap x := by
            rw [← hlen]
            exact ha4
          refine ⟨h3, ?_⟩
          rw [hx]
          exact h4
      have hnew : ∀ k, k < pre.length →
          (s.stack_maps_.getD k {}).dex_register_map_hash
              = (s.stack_maps_.getD pre.length {}).dex_register_map_hash →
          EqDexMaps s.dex_register_locations_ (s.stack_maps_.getD k {})
            (s.stack_maps_.getD pre.length {}) →
          decodeOptField ((acc1.records.getD k {}).map_offset_stored)
            = decodeOptField ((acc1.records.getD pre.length {}).map_offset_stored) := by
        intro k hk hh heq
        rw [ha2 k (by rw [hlen]; exact hk)]
        by_cases hdead : deadMap x
        · have hdk : deadMap (s.stack_maps_.getD k {}) := by
            unfold deadMap
            rw [heq.1, heq.2.1, hx]
            exact hdead
          have e1 : decodeOptField ((acc.records.getD k {}).map_offset_stored)
              = Option.none := (hP k hk).2.mpr hdk
          have e2 : decodeOptField ((acc1.records.getD pre.length {}).map_offset_stored)
              = Option.none := by
            have := hP1 pre.length (by simp)
            exact this.2.mpr (by rw [hx]; exact hdead)
          rw [e1, e2]
        · cases hsx : x.same_dex_register_map_as_ with
          | none =>
            exfalso
            refine hnoeq k pre.length hilen hk ?_ hh heq
            rw [hx]
            exact hsx
          | some j =>
            have hj2 : (s.stack_maps_.getD pre.length {}).same_dex_register_map_as_
                = some j := by
              rw [hx]
              exact hsx
            obtain ⟨hjlt, hjh, hjeq⟩ := hsame pre.length hilen j hj2
            have hcopy : (acc1.records.getD pre.length {}).map_offset_stored
                = (acc.records.getD j {}).map_offset_stored := by
              rw [← hlen]
              exact ha5 j hsx hdead
            rw [hcopy]
            refine hQ k j hk hjlt (by rw [hh, hjh]) ?_
            exact eqDexMaps_trans heq (eqDexMaps_symm hjeq)
      have hQ1 : ∀ k1 k2, k1 < (pre ++ [x]).length → k2 < (pre ++ [x]).length →
          (s.stack_maps_.getD k1 {}).dex_register_map_hash
              = (s.stack_maps_.getD k2 {}).dex_register_map_hash →
          EqDexMaps s.dex_register_locations_ (s.stack_maps_.getD k1 {})
            (s.stack_maps_.getD k2 {}) →
          decodeOptField ((acc1.records.getD k1 {}).map_offset_stored)
            = decodeOptField ((acc1.records.getD k2 {}).map_offset_stored) := by
        intro k1 k2 hk1 hk2 hh heq
        rw [List.length_append, List.length_singleton] at hk1 hk2
        by_cases hk1p : k1 < pre.length
        · by_cases hk2p : k2 < pre.length
          · rw [ha2 k1 (by rw [hlen]; exact hk1p), ha2 k2 (by rw [hlen]; exact hk2p)]
            exact hQ k1 k2 hk1p hk2p hh heq
          · have hk2e : k2 = pre.length := by omega
            subst hk2e
            exact hnew k1 hk1p hh heq
        · have hk1e : k1 = pre.length := by omega
          subst hk1e
          by_cases hk2p : k2 < pre.length
          · exact (hnew k2 hk2p hh.symm (eqDexMaps_symm heq)).symm
          · have hk2e : k2 = pre.length := by omega
            subst hk2e
            rfl
      exact ih (pre ++ [x]) acc1 out happ hlen1 hP1 hQ1 hfold

/-- Scenario refuting C2 as stated: entry 0 records one constant register.
Entry 1 records the same register, then opens and closes an inline frame
(which resets the dex-register cursor), then records the same register
again: the live bit is already set, so the map stays bit-identical to
entry 0's, but the rolling hash has absorbed the register twice.  The
hashes differ, the hash-bucket lookup misses, and FillIn materializes a
second copy at a different offset. -/
def c2ops : List StreamOp :=
  [StreamOp.beginEntry 1 4 0 Option.none 1 0,
   StreamOp.addDexRegister DexRegisterKind.kConstant 0,
   StreamOp.endEntry,
   StreamOp.beginEntry 2 8 0 Option.none 1 1,
   StreamOp.addDexRegister DexRegisterKind.kConstant 0,
   StreamOp.beginInline (InlineMethodRef.methodIndex 5) 3 0,
   StreamOp.endInline,
   StreamOp.addDexRegister DexRegisterKind.kConstant 0,
   StreamOp.endEntry]

/-- The state the C2 counterexample scenario reaches. -/
def c2state : StackMapStream := (runOps (initialStream 1) c2ops).getD {}

/-- The C2 counterexample scenario after PrepareForFillIn. -/
def c2prep : Nat × StackMapStream := c2state.PrepareForFillIn.getD (0, {})

/-- The blob the C2 counterexample scenario writes. -/
def c2blob : CodeInfoBlob := c2prep.2.FillIn.getD {}

/-- C2 counterexample: two stack maps with bit-identical dex-register maps
(equal N, equal live mask, equal catalog-index slices — HaveTheSameDexMaps
itself returns true) whose FillIn-written dex_register_map_offset values
differ: the rolling hash is corrupted when an inline frame resets the
dex-register cursor between two outer AddDexRegisterEntry calls, so the
dedup lookup misses and the later entry gets a fresh offset instead of
reusing the earlier one. -/
theorem fillIn_bit_identical_maps_different_offsets :
    runOps (initialStream 1) c2ops = some c2state
    ∧ c2state.PrepareForFillIn = some (c2prep.1, c2prep.2)
    ∧ c2prep.2.FillIn = some c2blob
    ∧ 1 < c2prep.2.stack_maps_.length
    ∧ (c2prep.2.stack_maps_.getD 0 {}).num_dex_registers
        = (c2prep.2.stack_maps_.getD 1 {}).num_dex_registers
    ∧ (c2prep.2.stack_maps_.getD 0 {}).live_dex_registers_mask
        = (c2prep.2.stack_maps_.getD 1 {}).live_dex_registers_mask
    ∧ slice c2prep.2.dex_register_locations_
        (c2prep.2.stack_maps_.getD 0 {}).dex_register_locations_start_index
        (popcount (((c2prep.2.stack_maps_.getD 1 {}).live_dex_registers_mask).getD 0))
      = slice c2prep.2.dex_register_locations_
          (c2prep.2.stack_maps_.getD 1 {}).dex_register_locations_start_index
          (popcount (((c2prep.2.stack_maps_.getD 1 {}).live_dex_registers_mask).getD 0))
    ∧ c2prep.2.HaveTheSameDexMaps (c2prep.2.stack_maps_.getD 0 {})
        (c2prep.2.stack_maps_.getD 1 {}) = true
    ∧ ¬ (c2blob.GetStackMapAt 0).GetDexRegisterMapOffset
        = (c2blob.GetStackMapAt 1).GetDexRegisterMapOffset := by
  decide

/-- C2 (amended): bit-identical dex-register maps share their written
offset provided the entries' recorded rolling hashes are also equal: for
any two entries of a stream produced through the API, serialized by
PrepareForFillIn and FillIn, equal hashes plus bit-identical maps (equal
N, equal live mask, element-wise equal catalog-index slices) give equal
decoded dex_register_map_offset values in the written blob. -/
theorem fillIn_equal_maps_equal_hash_equal_offsets (align : Nat) (ops : List StreamOp)
    (s : StackMapStream) (hrun : runOps (initialStream align) ops = some s)
    (sz : Nat) (s2 : StackMapStream) (hprep : s.PrepareForFillIn = some (sz, s2))
    (blob : CodeInfoBlob) (hfill : s2.FillIn = some blob)
    (i j : Nat) (hi : i < s2.stack_maps_.length) (hj : j < s2.stack_maps_.length)
    (hhash : (s2.stack_maps_.getD i {}).dex_register_map_hash
        = (s2.stack_maps_.getD j {}).dex_register_map_hash)
    (hN : (s2.stack_maps_.getD i {}).num_dex_registers
        = (s2.stack_maps_.getD j {}).num_dex_registers)
    (hmask : (s2.stack_maps_.getD i {}).live_dex_registers_mask
        = (s2.stack_maps_.getD j {}).live_dex_registers_mask)
    (hslice : slice s2.dex_register_locations_
        (s2.stack_maps_.getD i {}).dex_register_locations_start_index
        (popcount (((s2.stack_maps_.getD j {}).live_dex_registers_mask).getD 0))
      = slice s2.dex_register_locations_
          (s2.stack_maps_.getD j {}).dex_register_locations_start_index
          (popcount (((s2.stack_maps_.getD j {}).live_dex_registers_mask).getD 0))) :
    (blob.GetStackMapAt i).GetDexRegisterMapOffset
      = (blob.GetStackMapAt j).GetDexRegisterMapOffset := by
  have hinv2 : StreamInv s2 :=
    streamInv_prepare (streamInv_runOps ops (initialStream align) s
      (streamInv_initial align) hrun) hprep
  obtain ⟨-, hcode, -, -, -, -, -, -, -, -, -, -, -, -, -, -, -, -⟩ :=
    prepareForFillIn_shape hprep
  have hbw : s.prepareEncoding.dex_register_map_bytes
      < 2 ^ s.prepareEncoding.stack_map_encoding.map_offset_width := by
    show s.ComputeDexRegisterMapsSize
        < 2 ^ MinimumBitsToStore s.ComputeDexRegisterMapsSize
    exact lt_two_pow_minimumBits (Nat.le_refl _)
  unfold StackMapStream.FillIn at hfill
  split at hfill
  · exact Option.noConfusion hfill
  · split at hfill
    · exact Option.noConfusion hfill
    · rw [hcode, decompress_compress] at hfill
      dsimp only at hfill
      split at hfill
      · exact Option.noConfusion hfill
      · split at hfill
        · exact Option.noConfusion hfill
        · split at hfill
          · exact Option.noConfusion hfill
          · rename_i acc hacc
            rw [Option.some.injEq] at hfill
            subst hfill
            exact fillIn_fold_offset_pairs s2 s.prepareEncoding hbw hinv2.same
              (no_equal_earlier hinv2) s2.stack_maps_ [] {} acc (by simp) rfl
              (by intro k hk; simp at hk) (by intro k1 k2 hk1 hk2 hh heq; simp at hk1)
              hacc i j hi hj hhash ⟨hN, hmask, hslice⟩

/-- Scenario for the C2 amended witness: two entries with identical
single-register maps recorded identically, so hashes agree and the offset
is shared. -/
def c2wops : List StreamOp :=
  [StreamOp.beginEntry 1 4 0 Option.none 1 0,
   StreamOp.addDexRegister DexRegisterKind.kInRegister 2,
   StreamOp.endEntry,
   StreamOp.beginEntry 2 8 0 Option.none 1 0,
   StreamOp.addDexRegister DexRegisterKind.kInRegister 2,
   StreamOp.endEntry]

/-- The state the C2 amended witness scenario reaches. -/
def c2wstate : StackMapStream := (runOps (initialStream 1) c2wops).getD {}

/-- The C2 amended witness scenario after PrepareForFillIn. -/
def c2wprep : Nat × StackMapStream := c2wstate.PrepareForFillIn.getD (0, {})

/-- The blob the C2 amended witness scenario writes. -/
def c2wblob : CodeInfoBlob := c2wprep.2.FillIn.getD {}

theorem fillIn_equal_maps_equal_hash_equal_offsets_witness :
    runOps (initialStream 1) c2wops = some c2wstate
    ∧ c2wstate.PrepareForFillIn = some (c2wprep.1, c2wprep.2)
    ∧ c2wprep.2.FillIn = some c2wblob
    ∧ 1 < c2wprep.2.stack_maps_.length
    ∧ (c2wprep.2.stack_maps_.getD 1 {}).dex_register_map_hash
        = (c2wprep.2.stack_maps_.getD 0 {}).dex_register_map_hash
    ∧ (c2wblob.GetStackMapAt 1).GetDexRegisterMapOffset
        = (c2wblob.GetStackMapAt 0).GetDexRegisterMapOffset :=
  ⟨by decide, by decide, by decide, by decide, by decide,
    fillIn_equal_maps_equal_hash_equal_offsets 1 c2wops c2wstate (by decide)
      c2wprep.1 c2wprep.2 (by decide) c2wblob (by decide) 1 0 (by decide) (by decide)
      (by decide) (by decide) (by decide) (by decide)⟩

/-! ## Claim C1: basic helper lemmas -/

theorem foldl_max_init_le {α : Type} (f : α → Nat) (l : List α) :
    ∀ a0 : Nat, a0 ≤ l.foldl (fun acc e => max acc (f e)) a0 := by
  induction l with
  | nil =>
    intro a0
    exact Nat.le_refl _
  | cons z r2 ih2 =>
    intro a0
    rw [List.foldl_cons]
    exact Nat.le_trans (Nat.le_max_left a0 (f z)) (ih2 (max a0 (f z)))

theorem foldl_max_le {α : Type} (f : α → Nat) (l : List α) :
    ∀ (a0 : Nat) (x : α), x ∈ l → f x ≤ l.foldl (fun acc e => max acc (f e)) a0 := by
  induction l with
  | nil =>
    intro a0 x hx
    simp at hx
  | cons y rest ih =>
    intro a0 x hx
    rw [List.foldl_cons]
    rcases List.mem_cons.mp hx with hx | hx
    · subst hx
      exact Nat.le_trans (Nat.le_max_right _ _) (foldl_max_init_le f rest _)
    · exact ih _ x hx

theorem popcount_eq_zero {n : Nat} (h : popcount n = 0) : n = 0 := by
  induction n using Nat.strong_induction_on with
  | _ n ih =>
    by_cases hn : n = 0
    · exact hn
    · rw [popcount_rec, if_neg hn] at h
      have h1 : popcount (n / 2) = 0 := by omega
      have h2 : n % 2 = 0 := by omega
      have h3 : n / 2 = 0 := ih (n / 2) (by omega) h1
      omega

theorem slice_getD (l : List Nat) (start k j : Nat) (hw : start + k ≤ l.length)
    (hj : j < k) : (slice l start k).getD j 0 = l.getD (start + j) 0 := by
  have hlen : (slice l start k).length = k := by
    unfold slice
    simp [List.length_take, List.length_drop]
    omega
  rw [List.getD_eq_getElem _ _ (by rw [hlen]; exact hj),
    List.getD_eq_getElem _ _ (by omega)]
  unfold slice
  rw [List.getElem_take, List.getElem_drop]

theorem getD_take_map (l : List Nat) (f : Nat → Nat) (n i : Nat) (hi : i < n)
    (hl : i < l.length) : ((l.take n).map f).getD i 0 = f (l.getD i 0) := by
  have h1 : i < ((l.take n).map f).length := by
    simp [List.length_take]
    omega
  rw [List.getD_eq_getElem _ _ h1, List.getElem_map, List.getElem_take,
    ← List.getD_eq_getElem l 0 hl]

theorem decode_storeOpt_none (w : Nat) :
    decodeOptField (storeOptField w Option.none) = Option.none := rfl

theorem decode_storeOpt_some (w v : Nat) (h : v + 1 < 2 ^ w) :
    decodeOptField (storeOptField w (some v)) = some v := by
  have h1 : storeOptField w (some v) = v + 1 := by
    show (v + 1) % 2 ^ w = v + 1
    exact Nat.mod_eq_of_lt h
  rw [h1]
  unfold decodeOptField
  rw [if_neg (by omega)]
  simp

theorem storeField_eq (w v : Nat) (h : v < 2 ^ w) : storeField w v = v :=
  Nat.mod_eq_of_lt h

theorem high_low_eq (p : Nat) (h : p < 2 ^ 64) :
    High32Bits p * 2 ^ 32 + Low32Bits p = p := by
  unfold High32Bits Low32Bits
  have h1 : p / 2 ^ 32 < 2 ^ 32 := by omega
  rw [Nat.mod_eq_of_lt h1]
  omega

theorem low_parity (p : Nat) : Low32Bits p % 2 = p % 2 := by
  unfold Low32Bits
  omega

/-- Every interned catalog location has a short kind: the interning sites
are guarded by the isShort DCHECK. -/
theorem catalogKinds_step {s s1 : StackMapStream} {op : StreamOp}
    (h : stepOp s op = some s1)
    (hs : ∀ loc ∈ s.location_catalog_entries_, loc.kind.isShort = true) :
    ∀ loc ∈ s1.location_catalog_entries_, loc.kind.isShort = true := by
  cases op with
  | beginEntry a b c d e f =>
    have hcat : s1.location_catalog_entries_ = s.location_catalog_entries_ := by
      rw [stepOp] at h
      unfold StackMapStream.BeginStackMapEntry at h
      simp only [] at h
      split at h
      · exact Option.noConfusion h
      · split at h
        · exact Option.noConfusion h
        · split at h
          · rw [Option.some.injEq] at h
            subst h
            rfl
          · rw [Option.some.injEq] at h
            subst h
            rfl
    rw [hcat]
    exact hs
  | addDexRegister k v =>
    rw [stepOp] at h
    unfold StackMapStream.AddDexRegisterEntry at h
    split at h
    · rw [Option.some.injEq] at h
      subst h
      exact hs
    · split at h
      · exact Option.noConfusion h
      · rename_i hkind hshort
        simp only [] at h
        have hmid : ∀ loc ∈ (addStage1 s ⟨k, v⟩).location_catalog_entries_,
            loc.kind.isShort = true := by
          unfold addStage1
          cases hl : lookupAssoc s.location_catalog_entries_indices_ ⟨k, v⟩ with
          | some idx => exact hs
          | none =>
            intro loc hloc
            rcases List.mem_append.mp hloc with hloc | hloc
            · exact hs loc hloc
            · rw [List.mem_singleton] at hloc
              subst hloc
              show k.isShort = true
              rw [Decidable.not_not] at hshort
              exact hshort
        split at h
        · split at h
          · split at h
            · rw [Option.some.injEq] at h
              subst h
              exact hmid
            · exact Option.noConfusion h
          · exact Option.noConfusion h
        · split at h
          · split at h
            · rw [Option.some.injEq] at h
              subst h
              exact hmid
            · exact Option.noConfusion h
          · exact Option.noConfusion h
  | beginInline m pc n =>
    rw [stepOp] at h
    unfold StackMapStream.BeginInlineInfoEntry at h
    split at h
    · exact Option.noConfusion h
    · cases m with
      | ptr p =>
        simp only [] at h
        rw [Option.some.injEq] at h
        subst h
        exact hs
      | methodIndex i =>
        simp only [] at h
        rw [Option.some.injEq] at h
        subst h
        exact hs
  | endInline =>
    rw [stepOp] at h
    unfold StackMapStream.EndInlineInfoEntry at h
    split at h
    · exact Option.noConfusion h
    · split at h
      · exact Option.noConfusion h
      · rw [Option.some.injEq] at h
        subst h
        exact hs
  | endEntry =>
    rw [stepOp, Option.some.injEq] at h
    subst h
    unfold StackMapStream.EndStackMapEntry
    exact hs

theorem catalogKinds_runOps (ops : List StreamOp) :
    ∀ s s1 : StackMapStream,
      (∀ loc ∈ s.location_catalog_entries_, loc.kind.isShort = true) →
      runOps s ops = some s1 →
      ∀ loc ∈ s1.location_catalog_entries_, loc.kind.isShort = true := by
  induction ops with
  | nil =>
    intro s s1 hs h
    rw [runOps, Option.some.injEq] at h
    subst h
    exact hs
  | cons op rest ih =>
    intro s s1 hs h
    rw [runOps] at h
    cases hstep : stepOp s op with
    | none =>
      rw [hstep] at h
      exact Option.noConfusion h
    | some s2 =>
      rw [hstep] at h
      exact ih s2 s1 (catalogKinds_step hstep hs) h

/-! ## Claim C1: per-frame bounds from the inline maxima walk -/

/-- What the maxima triple (method_index_max, dex_pc_max, extra_data_max)
guarantees for one inline frame it has absorbed. -/
def frameMaxFacts (m : Nat × Nat × Nat) (ie : InlineInfoEntry) : Prop :=
  (∀ p, ie.method = some p → High32Bits p ≤ m.1 ∧ Low32Bits p ≤ m.2.2)
  ∧ (ie.method = Option.none → ie.method_index ≤ m.1 ∧ 1 ≤ m.2.2)
  ∧ (ie.dex_pc ≠ kDexNoIndex → ie.dex_pc ≤ m.2.1 ∧ m.2.1 ≠ kDexNoIndex)

theorem dexPcMaxStep_preserve {p pc : Nat} (h : pc ≤ p ∧ p ≠ kDexNoIndex)
    (ie : InlineInfoEntry) :
    pc ≤ dexPcMaxStep p ie ∧ dexPcMaxStep p ie ≠ kDexNoIndex := by
  unfold dexPcMaxStep
  split
  · rename_i hc
    obtain ⟨h1, h2⟩ := hc
    rcases h2 with h2 | h2
    · exact absurd h2 h.2
    · exact ⟨by omega, h1⟩
  · exact h

theorem dexPcMaxStep_self (p : Nat) (ie : InlineInfoEntry)
    (hne : ie.dex_pc ≠ kDexNoIndex) :
    ie.dex_pc ≤ dexPcMaxStep p ie ∧ dexPcMaxStep p ie ≠ kDexNoIndex := by
  unfold dexPcMaxStep
  split
  · rename_i hc
    exact ⟨le_refl _, hc.1⟩
  · rename_i hc
    push_neg at hc
    have h2 := hc hne
    exact ⟨by omega, h2.1⟩

theorem inlineMaximaStep_mono_1 (m : Nat × Nat × Nat) (ie : InlineInfoEntry) :
    m.1 ≤ (inlineMaximaStep m ie).1 := by
  unfold inlineMaximaStep
  cases ie.method with
  | none => exact Nat.le_max_left _ _
  | some p => exact Nat.le_max_left _ _

theorem inlineMaximaStep_mono_3 (m : Nat × Nat × Nat) (ie : InlineInfoEntry) :
    m.2.2 ≤ (inlineMaximaStep m ie).2.2 := by
  unfold inlineMaximaStep
  cases ie.method with
  | none => exact Nat.le_max_left _ _
  | some p => exact Nat.le_max_left _ _

theorem frameMaxFacts_step {m : Nat × Nat × Nat} {ie : InlineInfoEntry}
    (h : frameMaxFacts m ie) (ie2 : InlineInfoEntry) :
    frameMaxFacts (inlineMaximaStep m ie2) ie := by
  obtain ⟨h1, h2, h3⟩ := h
  refine ⟨?_, ?_, ?_⟩
  · intro p hp
    obtain ⟨ha, hb⟩ := h1 p hp
    exact ⟨Nat.le_trans ha (inlineMaximaStep_mono_1 m ie2),
      Nat.le_trans hb (inlineMaximaStep_mono_3 m ie2)⟩
  · intro hp
    obtain ⟨ha, hb⟩ := h2 hp
    exact ⟨Nat.le_trans ha (inlineMaximaStep_mono_1 m ie2),
      Nat.le_trans hb (inlineMaximaStep_mono_3 m ie2)⟩
  · intro hp
    exact dexPcMaxStep_preserve (h3 hp) ie2

theorem frameMaxFacts_self (m : Nat × Nat × Nat) (ie : InlineInfoEntry) :
    frameMaxFacts (inlineMaximaStep m ie) ie := by
  refine ⟨?_, ?_, ?_⟩
  · intro p hp
    unfold inlineMaximaStep
    rw [hp]
    exact ⟨Nat.le_max_right _ _, Nat.le_max_right _ _⟩
  · intro hp
    unfold inlineMaximaStep
    rw [hp]
    exact ⟨Nat.le_max_right _ _, Nat.le_max_right _ _⟩
  · intro hp
    exact dexPcMaxStep_self m.2.1 ie hp

theorem maxima_inner_spec (s : StackMapStream) :
    ∀ (d : Nat) (acc : (Nat × Nat × Nat) × Nat),
      (maximaInner s d acc).2 = acc.2 + d
      ∧ (∀ ie, frameMaxFacts acc.1 ie → frameMaxFacts (maximaInner s d acc).1 ie)
      ∧ (∀ f, acc.2 ≤ f → f < acc.2 + d →
          frameMaxFacts (maximaInner s d acc).1 (s.inline_infos_.getD f {})) := by
  intro d
  induction d with
  | zero =>
    intro acc
    refine ⟨by simp [maximaInner], ?_, ?_⟩
    · intro ie h
      simpa [maximaInner] using h
    · intro f h1 h2
      omega
  | succ d ih =>
    intro acc
    unfold maximaInner
    rw [List.range_succ, List.foldl_append]
    rw [show ∀ a, (List.range d).foldl
      (fun (a : (Nat × Nat × Nat) × Nat) _ =>
        (inlineMaximaStep a.1 (s.inline_infos_.getD a.2 {}), a.2 + 1)) a
      = maximaInner s d a from fun a => rfl]
    obtain ⟨ha1, ha2, ha3⟩ := ih acc
    refine ⟨?_, ?_, ?_⟩
    · rw [List.foldl_cons, List.foldl_nil]
      dsimp only
      rw [ha1]
      omega
    · intro ie h
      rw [List.foldl_cons, List.foldl_nil]
      exact frameMaxFacts_step (ha2 ie h) _
    · intro f h1 h2
      rw [List.foldl_cons, List.foldl_nil]
      by_cases hf : f < acc.2 + d
      · exact frameMaxFacts_step (ha3 f h1 hf) _
      · have hfe : f = acc.2 + d := by omega
        subst hfe
        rw [← ha1]
        exact frameMaxFacts_self _ _

theorem maxima_walk_spec (s : StackMapStream) :
    ∀ (entries : List StackMapEntry) (acc : (Nat × Nat × Nat) × Nat),
      acc.2 ≤ (maximaOuter s entries acc).2
      ∧ (∀ ie, frameMaxFacts acc.1 ie → frameMaxFacts (maximaOuter s entries acc).1 ie)
      ∧ (∀ f, acc.2 ≤ f → f < (maximaOuter s entries acc).2 →
          frameMaxFacts (maximaOuter s entries acc).1 (s.inline_infos_.getD f {})) := by
  intro entries
  induction entries with
  | nil =>
    intro acc
    refine ⟨Nat.le_refl _, ?_, ?_⟩
    · intro ie h
      simpa [maximaOuter] using h
    · intro f h1 h2
      simp only [maximaOuter, List.foldl_nil] at h2
      omega
  | cons e rest ih =>
    intro acc
    have hcons : maximaOuter s (e :: rest) acc
        = maximaOuter s rest (maximaInner s e.inlining_depth acc) := by
      unfold maximaOuter
      rw [List.foldl_cons]
    rw [hcons]
    obtain ⟨hi1, hi2, hi3⟩ := maxima_inner_spec s e.inlining_depth acc
    obtain ⟨ho1, ho2, ho3⟩ := ih (maximaInner s e.inlining_depth acc)
    refine ⟨?_, ?_, ?_⟩
    · rw [hi1] at ho1
      omega
    · intro ie h
      exact ho2 ie (hi2 ie h)
    · intro f h1 h2
      by_cases hf : f < acc.2 + e.inlining_depth
      · rw [← hi1] at hf
        exact ho2 _ (hi3 f h1 (by omega))
      · rw [← hi1] at hf
        exact ho3 f (by omega) h2

theorem lookupAssoc_none_of_lt (l : List (Nat × EncodedDexRegisterMap)) (c : Nat)
    (h : ∀ p ∈ l, p.1 < c) : lookupAssoc l c = Option.none := by
  induction l with
  | nil => rfl
  | cons p rest ih =>
    show (if p.1 = c then some p.2 else lookupAssoc rest c) = Option.none
    rw [if_neg (Nat.ne_of_lt (h p (List.mem_cons_self p rest)))]
    exact ih (fun q hq => h q (List.mem_cons_of_mem p hq))

theorem getD_range_map (f : Nat → Nat) (k j : Nat) (hj : j < k) :
    ((List.range k).map f).getD j 0 = f j := by
  rw [List.getD_eq_getElem _ 0 (by simpa using hj), List.getElem_map, List.getElem_range]

theorem popcount_mod_succ_le (m r : Nat) :
    popcount (m % 2 ^ r) ≤ popcount (m % 2 ^ (r + 1)) := by
  rw [popcount_mod_two_pow_succ]
  omega

theorem popcount_mod_mono (m : Nat) : ∀ r t : Nat, r ≤ t →
    popcount (m % 2 ^ r) ≤ popcount (m % 2 ^ t) := by
  intro r t
  induction t with
  | zero =>
    intro h
    rw [Nat.le_zero] at h
    subst h
    exact Nat.le_refl _
  | succ t ih =>
    intro h
    by_cases hrt : r = t + 1
    · subst hrt
      exact Nat.le_refl _
    · exact Nat.le_trans (ih (by omega)) (popcount_mod_succ_le m t)

theorem popcount_mod_le_self (m r : Nat) : popcount (m % 2 ^ r) ≤ popcount m := by
  have h1 : m < 2 ^ (max r m) :=
    Nat.lt_of_lt_of_le (Nat.lt_two_pow m) (Nat.pow_le_pow_right (by norm_num) (Nat.le_max_right _ _))
  have h2 := popcount_mod_mono m r (max r m) (Nat.le_max_left _ _)
  rw [Nat.mod_eq_of_lt h1] at h2
  exact h2

theorem popcount_mod_lt_of_testBit {m r : Nat} (h : m.testBit r = true) :
    popcount (m % 2 ^ r) < popcount m := by
  have h1 := popcount_mod_two_pow_succ m r
  rw [if_pos h] at h1
  have h2 := popcount_mod_le_self m (r + 1)
  omega

/-- The materialized map of a (mask, start) pair: the live mask and the
packed catalog indices of the live registers, exactly what
FillInDexRegisterMap writes. -/
def canonMap (s : StackMapStream) (mask : Option Nat) (start : Nat) : EncodedDexRegisterMap :=
  { live_mask := mask.getD 0,
    entries := (List.range (popcount (mask.getD 0))).map
      (fun k => storeField (singleEntrySizeInBits s.location_catalog_entries_.length)
        (s.dex_register_locations_.getD (start + k) 0)) }

theorem fillInDexRegisterMap_eq {s : StackMapStream} {m start : Nat}
    {emap : EncodedDexRegisterMap} (h : s.FillInDexRegisterMap m start = some emap) :
    emap = canonMap s (some m) start := by
  unfold StackMapStream.FillInDexRegisterMap at h
  simp only [] at h
  split at h
  · rw [Option.some.injEq] at h
    subst h
    rfl
  · exact Option.noConfusion h

theorem canonMap_eq_of_eqDexMaps {s : StackMapStream} {a b : StackMapEntry}
    (h : EqDexMaps s.dex_register_locations_ a b)
    (hwa : a.dex_register_locations_start_index
        + popcount (a.live_dex_registers_mask.getD 0) ≤ s.dex_register_locations_.length)
    (hwb : b.dex_register_locations_start_index
        + popcount (b.live_dex_registers_mask.getD 0) ≤ s.dex_register_locations_.length) :
    canonMap s a.live_dex_registers_mask a.dex_register_locations_start_index
      = canonMap s b.live_dex_registers_mask b.dex_register_locations_start_index := by
  obtain ⟨hN, hm, hsl⟩ := h
  unfold canonMap
  rw [hm]
  rw [hm] at hwa
  refine congrArg _ ?_
  refine List.map_congr_left ?_
  intro k hk
  rw [List.mem_range] at hk
  refine congrArg _ ?_
  have ha := slice_getD s.dex_register_locations_
    a.dex_register_locations_start_index (popcount (b.live_dex_registers_mask.getD 0)) k
    hwa hk
  have hb := slice_getD s.dex_register_locations_
    b.dex_register_locations_start_index (popcount (b.live_dex_registers_mask.getD 0)) k
    hwb hk
  rw [← ha, ← hb, hsl]

/-- What the FillIn main loop writes for one stack-map entry: every stored
field in terms of the source entry, and the dex-register-map offset's
decode/lookup behaviour. -/
def RecOK (s : StackMapStream) (enc : CodeInfoEncoding) (e : StackMapEntry)
    (r : StackMapRecord) (dmaps : List (Nat × EncodedDexRegisterMap)) : Prop :=
  r.native_pc_stored
      = storeField enc.stack_map_encoding.native_pc_width e.native_pc_code_offset
  ∧ r.dex_pc_stored = storeField enc.stack_map_encoding.dex_pc_width e.dex_pc
  ∧ r.register_mask_index_stored
      = storeField enc.stack_map_encoding.register_mask_index_width e.register_mask_index
  ∧ r.stack_mask_index_stored
      = storeField enc.stack_map_encoding.stack_mask_index_width e.stack_mask_index
  ∧ r.inline_index_stored
      = (if e.inlining_depth ≠ 0 then
          storeOptField enc.stack_map_encoding.inline_index_width
            (some e.inline_infos_start_index)
        else 0)
  ∧ r.map_offset_stored < 2 ^ enc.stack_map_encoding.map_offset_width
  ∧ (decodeOptField r.map_offset_stored = Option.none ↔ deadMap e)
  ∧ (∀ off, decodeOptField r.map_offset_stored = some off →
      lookupAssoc dmaps off
        = some (canonMap s e.live_dex_registers_mask e.dex_register_locations_start_index))

/-- What the FillIn inline loop writes for the frame at loop depth d of an
entry of total inlining depth `depth`. -/
def FrameOK (s : StackMapStream) (enc : CodeInfoEncoding) (depth d : Nat)
    (f : InlineInfoEntry) (r : InlineRecord)
    (dmaps : List (Nat × EncodedDexRegisterMap)) : Prop :=
  r.depth_stored = (if d = 0 then storeField 8 depth else 0)
  ∧ r.method_index_stored
      = (match f.method with
         | some p => storeField enc.inline_info_encoding.method_index_width (High32Bits p)
         | Option.none => storeField enc.inline_info_encoding.method_index_width f.method_index)
  ∧ r.extra_data_stored
      = (match f.method with
         | some p => storeField enc.inline_info_encoding.extra_data_width (Low32Bits p)
         | Option.none => storeField enc.inline_info_encoding.extra_data_width 1)
  ∧ r.dex_pc_stored
      = storeOptField enc.inline_info_encoding.dex_pc_width
          (if f.dex_pc = kDexNoIndex then Option.none else some f.dex_pc)
  ∧ (f.num_dex_registers = 0 → r.map_offset_stored = 0)
  ∧ (f.num_dex_registers ≠ 0 → ∃ off,
      r.map_offset_stored
          = storeOptField enc.inline_info_encoding.map_offset_width (some off)
        ∧ off < enc.dex_register_map_bytes
        ∧ lookupAssoc dmaps off
            = some (canonMap s f.live_dex_registers_mask
                f.dex_register_locations_start_index))

theorem recOK_mono {s : StackMapStream} {enc : CodeInfoEncoding} {e : StackMapEntry}
    {r : StackMapRecord} {dmaps : List (Nat × EncodedDexRegisterMap)}
    (h : RecOK s enc e r dmaps) (t : List (Nat × EncodedDexRegisterMap)) :
    RecOK s enc e r (dmaps ++ t) := by
  obtain ⟨h1, h2, h3, h4, h5, h6, h7, h8⟩ := h
  refine ⟨h1, h2, h3, h4, h5, h6, h7, ?_⟩
  intro off hoff
  exact lookupAssoc_append_of_some _ _ _ _ (h8 off hoff)

theorem frameOK_mono {s : StackMapStream} {enc : CodeInfoEncoding} {depth d : Nat}
    {f : InlineInfoEntry} {r : InlineRecord} {dmaps : List (Nat × EncodedDexRegisterMap)}
    (h : FrameOK s enc depth d f r dmaps) (t : List (Nat × EncodedDexRegisterMap)) :
    FrameOK s enc depth d f r (dmaps ++ t) := by
  obtain ⟨h1, h2, h3, h4, h5, h6⟩ := h
  refine ⟨h1, h2, h3, h4, h5, ?_⟩
  intro hN
  obtain ⟨off, ho1, ho2, ho3⟩ := h6 hN
  exact ⟨off, ho1, ho2, lookupAssoc_append_of_some _ _ _ _ ho3⟩

/-- One iteration of the FillIn inline loop appends exactly one record
satisfying FrameOK and either keeps or extends the dex-map region by one
materialized map at the cursor. -/
theorem fillInOneInline_ok (s : StackMapStream) (enc : CodeInfoEncoding)
    (e : StackMapEntry) (d : Nat)
    (a out : List InlineRecord × List (Nat × EncodedDexRegisterMap) × Nat)
    (h : s.fillInOneInline enc e a d = some out)
    (hkeys : ∀ p ∈ a.2.1, p.1 < a.2.2) :
    out.1.length = a.1.length + 1
    ∧ (∀ k, k < a.1.length → out.1.getD k {} = a.1.getD k {})
    ∧ (∃ t, out.2.1 = a.2.1 ++ t)
    ∧ (∀ p ∈ out.2.1, p.1 < out.2.2)
    ∧ a.2.2 ≤ out.2.2
    ∧ FrameOK s enc e.inlining_depth d
        (s.inline_infos_.getD (d + e.inline_infos_start_index) {})
        (out.1.getD a.1.length {}) out.2.1 := by
  unfold StackMapStream.fillInOneInline at h
  simp only [] at h
  split at h
  · rename_i hN
    split at h
    · exact Option.noConfusion h
    · rename_i hmask
      rw [Decidable.not_not] at hmask
      rw [Option.some.injEq] at h
      subst h
      refine ⟨by simp, ?_, ⟨[], (List.append_nil _).symm⟩, hkeys, Nat.le_refl _, ?_⟩
      · intro k hk
        exact List.getD_append _ _ _ _ hk
      · rw [getD_append_self]
        unfold FrameOK
        refine ⟨rfl, rfl, rfl, rfl, fun _ => rfl, ?_⟩
        intro hN2
        exact absurd hN hN2
  · rename_i hN
    split at h
    · exact Option.noConfusion h
    · rename_i mask hmask
      split at h
      · rename_i hsz
        split at h
        · rename_i emap hemap
          rw [Option.some.injEq] at h
          subst h
          have hsize1 : 1 ≤ s.ComputeDexRegisterMapSize
              (s.inline_infos_.getD (d + e.inline_infos_start_index) {}).num_dex_registers
              (s.inline_infos_.getD (d + e.inline_infos_start_index) {}).live_dex_registers_mask :=
            computeDexRegisterMapSize_pos s _ _ hN
          refine ⟨by simp, ?_, ⟨[(a.2.2, emap)], rfl⟩, ?_, ?_, ?_⟩
          · intro k hk
            exact List.getD_append _ _ _ _ hk
          · intro p hp
            rcases List.mem_append.mp hp with hp | hp
            · have := hkeys p hp
              show p.1 < a.2.2 + _
              omega
            · rw [List.mem_singleton] at hp
              subst hp
              show a.2.2 < a.2.2 + _
              omega
          · show a.2.2 ≤ a.2.2 + _
            exact Nat.le_add_right _ _
          · rw [getD_append_self]
            unfold FrameOK
            refine ⟨rfl, rfl, rfl, rfl, ?_, ?_⟩
            · intro hN2
              exact absurd hN2 hN
            · intro _
              refine ⟨a.2.2, rfl, by omega, ?_⟩
              rw [lookupAssoc_append_of_none _ _ _ (lookupAssoc_none_of_lt _ _ hkeys),
                lookupAssoc_singleton, if_pos rfl, Option.some.injEq]
              rw [fillInDexRegisterMap_eq hemap, hmask]
        · exact Option.noConfusion h
      · exact Option.noConfusion h

/-- The FillIn inline loop over depths 0..n-1: appends one FrameOK record
per depth, in order, extending the dex-map region monotonically. -/
theorem fillInInline_fold_ok (s : StackMapStream) (enc : CodeInfoEncoding)
    (e : StackMapEntry) :
    ∀ (n : Nat) (a out : List InlineRecord × List (Nat × EncodedDexRegisterMap) × Nat),
      optFold (s.fillInOneInline enc e) (List.range n) a = some out →
      (∀ p ∈ a.2.1, p.1 < a.2.2) →
      out.1.length = a.1.length + n
      ∧ (∀ k, k < a.1.length → out.1.getD k {} = a.1.getD k {})
      ∧ (∃ t, out.2.1 = a.2.1 ++ t)
      ∧ (∀ p ∈ out.2.1, p.1 < out.2.2)
      ∧ a.2.2 ≤ out.2.2
      ∧ (∀ d, d < n →
          FrameOK s enc e.inlining_depth d
            (s.inline_infos_.getD (d + e.inline_infos_start_index) {})
            (out.1.getD (a.1.length + d) {}) out.2.1) := by
  intro n
  induction n with
  | zero =>
    intro a out h hkeys
    rw [List.range_zero, optFold_nil, Option.some.injEq] at h
    subst h
    refine ⟨rfl, fun k _ => rfl, ⟨[], (List.append_nil _).symm⟩, hkeys, Nat.le_refl _, ?_⟩
    intro d hd
    omega
  | succ n ih =>
    intro a out h hkeys
    rw [List.range_succ, optFold_append] at h
    cases hmid : optFold (s.fillInOneInline enc e) (List.range n) a with
    | none =>
      rw [hmid] at h
      exact Option.noConfusion h
    | some mid =>
      rw [hmid] at h
      obtain ⟨hi1, hi2, ⟨t1, ht1⟩, hi4, hi5, hi6⟩ := ih a mid hmid hkeys
      simp only [optFold] at h
      cases hstep : s.fillInOneInline enc e mid n with
      | none =>
        rw [hstep] at h
        exact Option.noConfusion h
      | some stepped =>
        rw [hstep] at h
        dsimp only at h
        rw [Option.some.injEq] at h
        subst h
        obtain ⟨hs1, hs2, ⟨t2, ht2⟩, hs4, hs5, hs6⟩ :=
          fillInOneInline_ok s enc e n mid stepped hstep hi4
        refine ⟨by omega, ?_, ⟨t1 ++ t2, by rw [ht2, ht1, List.append_assoc]⟩,
          hs4, Nat.le_trans hi5 hs5, ?_⟩
        · intro k hk
          rw [hs2 k (by omega), hi2 k hk]
        · intro d hd
          by_cases hdn : d < n
          · have hrec : stepped.1.getD (a.1.length + d) {} = mid.1.getD (a.1.length + d) {} :=
              hs2 _ (by omega)
            rw [hrec, ht2]
            exact frameOK_mono (hi6 d hdn) t2
          · have hde : d = n := by omega
            subst hde
            rw [← hi1]
            exact hs6

/-- Invariant of the FillIn main loop after the first n entries: record
count, inline-record/counter agreement, dex-map key bounds, and full
structural characterization of every written stack-map and inline
record. -/
def FillInv (s : StackMapStream) (enc : CodeInfoEncoding) (n : Nat) (acc : FillAcc) : Prop :=
  acc.records.length = n
  ∧ acc.inline_records.length = acc.next_inline_info_index
  ∧ (∀ p ∈ acc.dex_maps, p.1 < acc.next_dex_register_map_offset)
  ∧ (∀ i, i < n → RecOK s enc (s.stack_maps_.getD i {}) (acc.records.getD i {}) acc.dex_maps)
  ∧ (∀ i, i < n → (s.stack_maps_.getD i {}).inlining_depth ≠ 0 →
      (s.stack_maps_.getD i {}).inline_infos_start_index
          + (s.stack_maps_.getD i {}).inlining_depth ≤ acc.next_inline_info_index
      ∧ (s.stack_maps_.getD i {}).inline_infos_start_index
          + (s.stack_maps_.getD i {}).inlining_depth ≤ s.inline_infos_.length
      ∧ (∀ d, d < (s.stack_maps_.getD i {}).inlining_depth →
          FrameOK s enc (s.stack_maps_.getD i {}).inlining_depth d
            (s.inline_infos_.getD
              (d + (s.stack_maps_.getD i {}).inline_infos_start_index) {})
            (acc.inline_records.getD
              ((s.stack_maps_.getD i {}).inline_infos_start_index + d) {})
            acc.dex_maps))

/-- One iteration of the FillIn main loop preserves the invariant. -/
theorem fillInOneEntry_inv (s : StackMapStream) (enc : CodeInfoEncoding)
    (hbw : enc.dex_register_map_bytes < 2 ^ enc.stack_map_encoding.map_offset_width)
    (n : Nat) (hn : n < s.stack_maps_.length)
    (e : StackMapEntry) (he : s.stack_maps_.getD n {} = e)
    (acc out : FillAcc)
    (h : s.fillInOneEntry enc acc e = some out)
    (hinv : FillInv s enc n acc)
    (hsame : ∀ j, e.same_dex_register_map_as_ = some j →
      j < n ∧ EqDexMaps s.dex_register_locations_ (s.stack_maps_.getD j {}) e)
    (hwf : ∀ i, i < s.stack_maps_.length →
      (s.stack_maps_.getD i {}).dex_register_locations_start_index
          + popcount (((s.stack_maps_.getD i {}).live_dex_registers_mask).getD 0)
        ≤ s.dex_register_locations_.length) :
    FillInv s enc (n + 1) out := by
  obtain ⟨hv1, hv2, hv3, hv4, hv5⟩ := hinv
  simp only [StackMapStream.fillInOneEntry] at h
  split at h
  · exact absurd h (by simp)
  · rename_i mos dmaps1 cursor1 heq
    have hoff : (∃ t, dmaps1 = acc.dex_maps ++ t)
        ∧ (∀ p ∈ dmaps1, p.1 < cursor1)
        ∧ acc.next_dex_register_map_offset ≤ cursor1
        ∧ mos < 2 ^ enc.stack_map_encoding.map_offset_width
        ∧ (decodeOptField mos = Option.none ↔ deadMap e)
        ∧ (∀ off, decodeOptField mos = some off →
            lookupAssoc dmaps1 off = some (canonMap s e.live_dex_registers_mask
              e.dex_register_locations_start_index)) := by
      split at heq
      · rename_i hN
        simp only [Option.some.injEq, Prod.mk.injEq] at heq
        obtain ⟨hm, hd, hc⟩ := heq
        subst hm
        subst hd
        subst hc
        refine ⟨⟨[], (List.append_nil _).symm⟩, hv3, Nat.le_refl _, ?_, ?_, ?_⟩
        · show (0 : Nat) < _
          exact pow_pos (by norm_num) _
        · simp [storeOptField, decodeOptField, deadMap, hN]
        · intro off hoff2
          rw [decode_storeOpt_none] at hoff2
          exact Option.noConfusion hoff2
      · rename_i hN
        split at heq
        · exact absurd heq (by simp)
        · rename_i mask0 hmask
          split at heq
          · rename_i hpop
            simp only [Option.some.injEq, Prod.mk.injEq] at heq
            obtain ⟨hm, hd, hc⟩ := heq
            subst hm
            subst hd
            subst hc
            refine ⟨⟨[], (List.append_nil _).symm⟩, hv3, Nat.le_refl _, ?_, ?_, ?_⟩
            · show (0 : Nat) < _
              exact pow_pos (by norm_num) _
            · simp [storeOptField, decodeOptField, deadMap, hmask, hpop]
            · intro off hoff2
              rw [decode_storeOpt_none] at hoff2
              exact Option.noConfusion hoff2
          · rename_i hpop
            have hdead : ¬ deadMap e := by
              intro hd
              cases hd with
              | inl h0 => exact hN h0
              | inr h0 =>
                rw [hmask, Option.getD_some] at h0
                exact hpop h0
            split at heq
            · rename_i j hs
              obtain ⟨hjn, hjeq⟩ := hsame j hs
              obtain ⟨-, -, -, -, -, hr6, hr7, hr8⟩ := hv4 j hjn
              have hdeadj : ¬ deadMap (s.stack_maps_.getD j {}) := by
                intro hd
                apply hdead
                unfold deadMap at hd ⊢
                rw [hjeq.1, hjeq.2.1] at hd
                exact hd
              have hne : decodeOptField ((acc.records.getD j {}).map_offset_stored)
                  ≠ Option.none := by
                intro hc
                exact hdeadj (hr7.mp hc)
              cases hdec : decodeOptField ((acc.records.getD j {}).map_offset_stored) with
              | none => exact absurd hdec hne
              | some offj =>
                have hp0 : (acc.records.getD j {}).map_offset_stored ≠ 0 := by
                  intro hc
                  apply hne
                  rw [hc]
                  rfl
                have hoj : offj = (acc.records.getD j {}).map_offset_stored - 1 := by
                  unfold decodeOptField at hdec
                  rw [if_neg hp0, Option.some.injEq] at hdec
                  omega
                have hstore : storeOptField enc.stack_map_encoding.map_offset_width
                    (decodeOptField ((acc.records.getD j {}).map_offset_stored))
                    = (acc.records.getD j {}).map_offset_stored := by
                  rw [hdec]
                  show (offj + 1) % 2 ^ _ = _
                  rw [hoj, Nat.sub_add_cancel (Nat.one_le_iff_ne_zero.mpr hp0)]
                  exact Nat.mod_eq_of_lt hr6
                simp only [Option.some.injEq, Prod.mk.injEq] at heq
                obtain ⟨hm, hd, hc⟩ := heq
                subst hd
                subst hc
                refine ⟨⟨[], (List.append_nil _).symm⟩, hv3, Nat.le_refl _, ?_, ?_, ?_⟩
                · rw [← hm, hstore]
                  exact hr6
                · rw [← hm, hstore, hdec]
                  constructor
                  · intro hc2
                    exact absurd hc2 (by simp)
                  · intro hc2
                    exact absurd hc2 hdead
                · intro off hoff2
                  rw [← hm, hstore, hdec, Option.some.injEq] at hoff2
                  subst hoff2
                  rw [hr8 offj hdec, Option.some.injEq]
                  exact canonMap_eq_of_eqDexMaps hjeq
                    (hwf j (Nat.lt_trans hjn hn)) (by rw [← he]; exact hwf n hn)
            · rename_i hsj
              split at heq
              · rename_i hsz
                split at heq
                · rename_i emap hemap
                  simp only [Option.some.injEq, Prod.mk.injEq] at heq
                  obtain ⟨hm, hd, hc⟩ := heq
                  subst hd
                  subst hc
                  have hsize1 : 1 ≤ s.ComputeDexRegisterMapSize e.num_dex_registers
                      e.live_dex_registers_mask :=
                    computeDexRegisterMapSize_pos s _ _ hN
                  have hv : acc.next_dex_register_map_offset + 1
                      < 2 ^ enc.stack_map_encoding.map_offset_width := by
                    omega
                  have hstore : storeOptField enc.stack_map_encoding.map_offset_width
                      (some acc.next_dex_register_map_offset)
                      = acc.next_dex_register_map_offset + 1 := by
                    show (acc.next_dex_register_map_offset + 1) % 2 ^ _ = _
                    exact Nat.mod_eq_of_lt hv
                  refine ⟨⟨[(acc.next_dex_register_map_offset, emap)], rfl⟩, ?_,
                    Nat.le_add_right _ _, ?_, ?_, ?_⟩
                  · intro p hp
                    rcases List.mem_append.mp hp with hp | hp
                    · have := hv3 p hp
                      omega
                    · rw [List.mem_singleton] at hp
                      subst hp
                      show acc.next_dex_register_map_offset < _
                      omega
                  · rw [← hm, hstore]
                    exact hv
                  · rw [← hm, hstore]
                    constructor
                    · intro hc2
                      unfold decodeOptField at hc2
                      rw [if_neg (by omega)] at hc2
                      exact Option.noConfusion hc2
                    · intro hc2
                      exact absurd hc2 hdead
                  · intro off hoff2
                    rw [← hm, hstore] at hoff2
                    unfold decodeOptField at hoff2
                    rw [if_neg (by omega), Option.some.injEq] at hoff2
                    have hoffe : off = acc.next_dex_register_map_offset := by omega
                    subst hoffe
                    rw [lookupAssoc_append_of_none _ _ _
                        (lookupAssoc_none_of_lt _ _ hv3),
                      lookupAssoc_singleton, if_pos rfl, Option.some.injEq]
                    rw [fillInDexRegisterMap_eq hemap, hmask]
                · exact absurd heq (by simp)
              · exact absurd heq (by simp)
    obtain ⟨⟨t0, ht0⟩, ho2, ho3, ho4, ho5, ho6⟩ := hoff
    split at h
    · rename_i hdep
      split at h
      · exact absurd h (by simp)
      · rename_i hstart
        rw [Decidable.not_not] at hstart
        split at h
        · exact absurd h (by simp)
        · rename_i hboundn
          rw [Decidable.not_not] at hboundn
          split at h
          · exact absurd h (by simp)
          · rename_i irecs dmaps2 cursor2 hfold
            rw [Option.some.injEq] at h
            subst h
            obtain ⟨hf1, hf2, ⟨t1, ht1⟩, hf4, hf5, hf6⟩ :=
              fillInInline_fold_ok s enc e e.inlining_depth
                (acc.inline_records, dmaps1, cursor1) (irecs, dmaps2, cursor2) hfold ho2
            dsimp only at hf1 hf2 ht1 hf4 hf5 hf6
            refine ⟨by simp [hv1], ?_, ?_, ?_, ?_⟩
            · show irecs.length = acc.next_inline_info_index + e.inlining_depth
              rw [hf1]
              show acc.inline_records.length + _ = _
              rw [hv2]
            · exact hf4
            · intro i hi
              by_cases hin : i < n
              · show RecOK s enc _ ((acc.records ++ [_]).getD i {}) dmaps2
                rw [List.getD_append _ _ _ _ (show i < acc.records.length by omega),
                  ht1, ht0, List.append_assoc]
                exact recOK_mono (hv4 i hin) _
              · have hie : i = n := by omega
                subst hie
                show RecOK s enc (s.stack_maps_.getD i {}) ((acc.records ++ [_]).getD i {}) dmaps2
                rw [he, ← hv1, getD_append_self]
                unfold RecOK
                refine ⟨rfl, rfl, rfl, rfl, ?_, ho4, ?_, ?_⟩
                · show storeOptField _ (some acc.next_inline_info_index) = _
                  rw [if_pos hdep, hstart]
                · exact ho5
                · intro off hoff2
                  rw [ht1]
                  exact lookupAssoc_append_of_some _ _ _ _ (ho6 off hoff2)
            · intro i hi hdi
              by_cases hin : i < n
              · obtain ⟨hw1, hw2, hw3⟩ := hv5 i hin hdi
                refine ⟨?_, hw2, ?_⟩
                · show _ ≤ acc.next_inline_info_index + e.inlining_depth
                  omega
                · intro d hd
                  have hpos : (s.stack_maps_.getD i {}).inline_infos_start_index + d
                      < acc.inline_records.length := by
                    rw [hv2]
                    omega
                  show FrameOK s enc _ d _ (irecs.getD _ {}) dmaps2
                  rw [hf2 _ hpos, ht1, ht0, List.append_assoc]
                  exact frameOK_mono (hw3 d hd) _
              · have hie : i = n := by omega
                subst hie
                rw [he] at hdi ⊢
                refine ⟨?_, ?_, ?_⟩
                · show _ ≤ acc.next_inline_info_index + e.inlining_depth
                  omega
                · exact hboundn
                · intro d hd
                  have hidx : e.inline_infos_start_index + d
                      = acc.inline_records.length + d := by
                    rw [hv2, hstart]
                  show FrameOK s enc _ d _ (irecs.getD _ {}) dmaps2
                  rw [hidx]
                  exact hf6 d hd
    · rename_i hdep
      rw [Decidable.not_not] at hdep
      rw [Option.some.injEq] at h
      subst h
      refine ⟨by simp [hv1], hv2, ho2, ?_, ?_⟩
      · intro i hi
        by_cases hin : i < n
        · show RecOK s enc _ ((acc.records ++ [_]).getD i {}) dmaps1
          rw [List.getD_append _ _ _ _ (show i < acc.records.length by omega), ht0]
          exact recOK_mono (hv4 i hin) _
        · have hie : i = n := by omega
          subst hie
          show RecOK s enc (s.stack_maps_.getD i {}) ((acc.records ++ [_]).getD i {}) dmaps1
          rw [he, ← hv1, getD_append_self]
          unfold RecOK
          refine ⟨rfl, rfl, rfl, rfl, ?_, ho4, ho5, ho6⟩
          simp [hdep, storeOptField]
      · intro i hi hdi
        by_cases hin : i < n
        · obtain ⟨hw1, hw2, hw3⟩ := hv5 i hin hdi
          refine ⟨hw1, hw2, ?_⟩
          intro d hd
          show FrameOK s enc _ d _ (acc.inline_records.getD _ {}) dmaps1
          rw [ht0]
          exact frameOK_mono (hw3 d hd) _
        · have hie : i = n := by omega
          subst hie
          rw [he] at hdi
          exact absurd hdep hdi

/-- The FillIn main loop establishes the invariant for the whole table. -/
theorem fillIn_fold_inv (s : StackMapStream) (enc : CodeInfoEncoding)
    (hbw : enc.dex_register_map_bytes < 2 ^ enc.stack_map_encoding.map_offset_width)
    (hsame : ∀ i, i < s.stack_maps_.length → ∀ j,
      (s.stack_maps_.getD i {}).same_dex_register_map_as_ = some j →
      j < i ∧ EqDexMaps s.dex_register_locations_ (s.stack_maps_.getD j {})
        (s.stack_maps_.getD i {}))
    (hwf : ∀ i, i < s.stack_maps_.length →
      (s.stack_maps_.getD i {}).dex_register_locations_start_index
          + popcount (((s.stack_maps_.getD i {}).live_dex_registers_mask).getD 0)
        ≤ s.dex_register_locations_.length) :
    ∀ (rest pre : List StackMapEntry) (acc out : FillAcc),
      s.stack_maps_ = pre ++ rest →
      FillInv s enc pre.length acc →
      optFold (s.fillInOneEntry enc) rest acc = some out →
      FillInv s enc s.stack_maps_.length out := by
  intro rest
  induction rest with
  | nil =>
    intro pre acc out hpre hinv hfold
    rw [optFold_nil, Option.some.injEq] at hfold
    subst hfold
    have hp : s.stack_maps_ = pre := by rw [hpre, List.append_nil]
    rw [hp]
    exact hinv
  | cons x rest2 ih =>
    intro pre acc out hpre hinv hfold
    rw [optFold] at hfold
    cases hstep : s.fillInOneEntry enc acc x with
    | none =>
      rw [hstep] at hfold
      exact Option.noConfusion hfold
    | some acc1 =>
      rw [hstep] at hfold
      have hlen : pre.length < s.stack_maps_.length := by
        rw [hpre]
        simp
      have hx : s.stack_maps_.getD pre.length {} = x := by
        rw [hpre, List.getD_append_right pre (x :: rest2) {} pre.length (Nat.le_refl _)]
        simp
      have hstep2 := fillInOneEntry_inv s enc hbw pre.length hlen x hx acc acc1 hstep hinv
        (fun j hj => by
          have h2 := hsame pre.length hlen j (by rw [hx]; exact hj)
          rw [hx] at h2
          exact h2) hwf
      have happ : s.stack_maps_ = (pre ++ [x]) ++ rest2 := by
        rw [hpre]
        simp
      have hinv1 : FillInv s enc (pre ++ [x]).length acc1 := by
        rw [List.length_append, List.length_singleton]
        exact hstep2
      exact ih (pre ++ [x]) acc1 out happ hinv1 hfold

/-- Every frame the maxima walk consumed is bounded by the walk's result. -/
theorem maxima_frame_facts (s : StackMapStream) :
    ∀ f, f < s.ComputeInlineInfoMaxima.2 →
      frameMaxFacts s.ComputeInlineInfoMaxima.1 (s.inline_infos_.getD f {}) := by
  have he : s.ComputeInlineInfoMaxima = maximaOuter s s.stack_maps_ ((0, kDexNoIndex, 0), 0) := rfl
  intro f hf
  rw [he] at hf ⊢
  obtain ⟨-, -, h3⟩ := maxima_walk_spec s s.stack_maps_ ((0, kDexNoIndex, 0), 0)
  exact h3 f (Nat.zero_le _) hf

/-! ## Claim C1: the readback of one dex-register map -/

theorem checkDexRegisterMap_zero (s : StackMapStream) (b : CodeInfoBlob)
    (mask : Option Nat) (start : Nat) :
    s.CheckDexRegisterMap b Option.none 0 mask start = true := by
  unfold StackMapStream.CheckDexRegisterMap
  rw [if_neg (by intro hc; exact hc.1 rfl)]
  simp

theorem checkFold_dead (s : StackMapStream) (b : CodeInfoBlob) (start : Nat) :
    ∀ reg : Nat,
      (List.range reg).foldl (checkRegStep s b Option.none (some 0)) (true, start)
        = (true, start) := by
  intro reg
  induction reg with
  | zero => rfl
  | succ reg ih =>
    rw [List.range_succ, List.foldl_append, ih, List.foldl_cons, List.foldl_nil]
    unfold checkRegStep
    rw [Option.getD_some, if_neg (by rw [Nat.zero_testBit]; exact Bool.false_ne_true)]
    rfl

theorem checkDexRegisterMap_dead (s : StackMapStream) (b : CodeInfoBlob)
    (N start : Nat) (_hN : N ≠ 0) :
    s.CheckDexRegisterMap b Option.none N (some 0) start = true := by
  unfold StackMapStream.CheckDexRegisterMap
  rw [if_neg (by intro hc; exact Option.noConfusion hc.2)]
  simp only []
  rw [checkFold_dead s b start N]
  simp

theorem checkFold_live (s : StackMapStream) (b : CodeInfoBlob) (m start : Nat)
    (hw : start + popcount m ≤ s.dex_register_locations_.length)
    (hcatalog : ∀ idx ∈ s.dex_register_locations_, idx < s.location_catalog_entries_.length)
    (hkinds : ∀ loc ∈ s.location_catalog_entries_, loc.kind.isShort = true)
    (hbcat : b.catalog = s.location_catalog_entries_) :
    ∀ reg : Nat,
      (List.range reg).foldl
          (checkRegStep s b (some (canonMap s (some m) start)) (some m)) (true, start)
        = (true, start + popcount (m % 2 ^ reg)) := by
  intro reg
  induction reg with
  | zero =>
    show (true, start) = (true, start + popcount (m % 1))
    rw [Nat.mod_one, popcount_zero, Nat.add_zero]
  | succ reg ih =>
    rw [List.range_succ, List.foldl_append, ih, List.foldl_cons, List.foldl_nil]
    by_cases hbit : m.testBit reg
    · unfold checkRegStep
      rw [Option.getD_some, if_pos hbit]
      simp only []
      have hlt : popcount (m % 2 ^ reg) < popcount m := popcount_mod_lt_of_testBit hbit
      have hidx : start + popcount (m % 2 ^ reg) < s.dex_register_locations_.length := by
        omega
      have hcat : s.dex_register_locations_.getD (start + popcount (m % 2 ^ reg)) 0
          < s.location_catalog_entries_.length :=
        hcatalog _ (getD_mem_of_lt _ _ hidx)
      have hcheck2 : popcount (m % 2 ^ (reg + 1)) = popcount (m % 2 ^ reg) + 1 := by
        rw [popcount_mod_two_pow_succ, if_pos hbit]
      have hlive : (canonMap s (some m) start).IsDexRegisterLive reg = true := by
        unfold canonMap EncodedDexRegisterMap.IsDexRegisterLive
        exact hbit
      have hentry : (canonMap s (some m) start).GetLocationCatalogEntryIndex reg
          = s.dex_register_locations_.getD (start + popcount (m % 2 ^ reg)) 0 := by
        unfold canonMap EncodedDexRegisterMap.GetLocationCatalogEntryIndex
        show ((List.range (popcount m)).map _).getD (popcount (m % 2 ^ reg)) 0 = _
        rw [getD_range_map _ _ _ hlt]
        exact storeField_eq _ _ (lt_two_pow_minimumBits (Nat.le_of_lt hcat))
      have hshort : (s.location_catalog_entries_.getD
          (s.dex_register_locations_.getD (start + popcount (m % 2 ^ reg)) 0)
          ⟨DexRegisterKind.kNone, 0⟩).kind.isShort = true :=
        hkinds _ (getD_mem_of_lt _ _ hcat)
      refine Prod.ext ?_ ?_
      · dsimp only
        rw [Bool.true_and]
        cases hk : (s.location_catalog_entries_.getD
            (s.dex_register_locations_.getD (start + popcount (m % 2 ^ reg)) 0)
            ⟨DexRegisterKind.kNone, 0⟩).kind with
        | kNone =>
          rw [hk] at hshort
          exact absurd hshort (by simp [DexRegisterKind.isShort])
        | kConstant =>
          dsimp only
          rw [hlive, Bool.true_and, hentry, hbcat, hk]
          simp only [Bool.and_eq_true, decide_eq_true_eq]
          exact ⟨trivial, trivial⟩
        | kInRegister =>
          dsimp only
          rw [hlive, Bool.true_and, hentry, hbcat, hk]
          simp only [Bool.and_eq_true, decide_eq_true_eq]
          exact ⟨trivial, trivial⟩
        | kInFpuRegister =>
          dsimp only
          rw [hlive, Bool.true_and, hentry, hbcat, hk]
          simp only [Bool.and_eq_true, decide_eq_true_eq]
          exact ⟨trivial, trivial⟩
        | kInStack =>
          dsimp only
          rw [hlive, Bool.true_and, hentry, hbcat, hk]
          simp only [Bool.and_eq_true, decide_eq_true_eq]
          exact ⟨trivial, trivial⟩
        | kConstantLargeValue =>
          dsimp only
          rw [hlive, Bool.true_and, hentry, hbcat, hk]
          simp only [Bool.and_eq_true, decide_eq_true_eq]
          exact ⟨trivial, trivial⟩
        | kInStackLargeOffset =>
          dsimp only
          rw [hlive, Bool.true_and, hentry, hbcat, hk]
          simp only [Bool.and_eq_true, decide_eq_true_eq]
          exact ⟨trivial, trivial⟩
      · dsimp only
        omega
    · unfold checkRegStep
      rw [Option.getD_some,
        if_neg (by rw [Bool.not_eq_true] at hbit; rw [hbit]; exact Bool.false_ne_true)]
      simp only []
      have hcheck2 : popcount (m % 2 ^ (reg + 1)) = popcount (m % 2 ^ reg) := by
        rw [popcount_mod_two_pow_succ, if_neg hbit]
        omega
      have hlive : (canonMap s (some m) start).IsDexRegisterLive reg = false := by
        unfold canonMap EncodedDexRegisterMap.IsDexRegisterLive
        rw [Bool.not_eq_true] at hbit
        exact hbit
      refine Prod.ext ?_ ?_
      · dsimp only
        rw [Bool.true_and]
        simp [hlive]
      · dsimp only
        omega

theorem foldl_distinct_length_le (keys : List Nat) :
    ∀ acc : List Nat,
      (keys.foldl (fun acc k => if k ∈ acc then acc else acc ++ [k]) acc).length
        ≤ acc.length + keys.length := by
  induction keys with
  | nil =>
    intro acc
    simp
  | cons k rest ih =>
    intro acc
    rw [List.foldl_cons]
    by_cases hk : k ∈ acc
    · rw [if_pos hk]
      have := ih acc
      simp only [List.length_cons]
      omega
    · rw [if_neg hk]
      have := ih (acc ++ [k])
      simp only [List.length_append, List.length_singleton, List.length_cons,
        List.length_nil] at this ⊢
      omega

theorem distinctKeys_length_le (keys : List Nat) :
    (distinctKeys keys).length ≤ keys.length := by
  have h := foldl_distinct_length_le keys []
  simpa [distinctKeys] using h

theorem numberOfBits_le_toNat {v : Nat} {M : Int} (h : highestBitSet v ≤ M) :
    numberOfBits v ≤ (M + 1).toNat := by
  unfold numberOfBits MinimumBitsToStore
  by_cases hv : v = 0
  · rw [if_pos hv]
    exact Nat.zero_le _
  · rw [if_neg hv, log2C_eq]
    rw [highestBitSet, if_neg hv, log2C_eq] at h
    omega

/-- Full characterization of PrepareRegisterMasks: count, rewritten map
list, table length and table contents; other fields unchanged. -/
theorem prepareRegisterMasks_spec (s : StackMapStream) :
    s.PrepareRegisterMasks.1
        = (distinctKeys (s.stack_maps_.map (fun e => e.register_mask))).length
    ∧ s.PrepareRegisterMasks.2.stack_maps_
        = s.stack_maps_.map (fun x =>
            { x with register_mask_index := (List.indexOf x.register_mask
                (distinctKeys (s.stack_maps_.map (fun e => e.register_mask)))) })
    ∧ s.PrepareRegisterMasks.2.register_masks_.length = s.stack_maps_.length
    ∧ (∀ j, j < (distinctKeys (s.stack_maps_.map (fun e => e.register_mask))).length →
        s.PrepareRegisterMasks.2.register_masks_.getD j 0
          = (distinctKeys (s.stack_maps_.map (fun e => e.register_mask))).getD j 0)
    ∧ s.PrepareRegisterMasks.2.stack_masks_ = s.stack_masks_ := by
  obtain ⟨tr, hreq, hrlen, hrpre⟩ :=
    internFold_full_spec (fun e => e.register_mask)
      (fun e j => { e with register_mask_index := j }) s.stack_maps_
      (resizeList s.register_masks_ s.stack_maps_.length 0)
      (resizeList_length _ _ _)
  have hR : s.PrepareRegisterMasks
      = ((assocIdx (distinctKeys (s.stack_maps_.map (fun e => e.register_mask)))).length,
         { s with
           stack_maps_ := s.stack_maps_.map (fun x =>
             { x with register_mask_index := (List.indexOf x.register_mask
                 (distinctKeys (s.stack_maps_.map (fun e => e.register_mask)))) }),
           register_masks_ := tr }) := by
    simp only [StackMapStream.PrepareRegisterMasks]
    rw [hreq]
  refine ⟨?_, ?_, ?_, ?_, ?_⟩
  · rw [hR, assocIdx_length]
  · rw [hR]
  · rw [hR]
    exact hrlen
  · intro j hj
    rw [hR]
    exact hrpre j hj
  · rw [hR]

/-- Full characterization of PrepareStackMasks, as for the register
masks. -/
theorem prepareStackMasks_spec (s : StackMapStream) (bits : Nat) :
    (s.PrepareStackMasks bits).1
        = (distinctKeys (s.stack_maps_.map (stackMaskKey bits))).length
    ∧ (s.PrepareStackMasks bits).2.stack_maps_
        = s.stack_maps_.map (fun x =>
            { x with stack_mask_index := (List.indexOf (stackMaskKey bits x)
                (distinctKeys (s.stack_maps_.map (stackMaskKey bits)))) })
    ∧ (s.PrepareStackMasks bits).2.stack_masks_.length = s.stack_maps_.length
    ∧ (∀ j, j < (distinctKeys (s.stack_maps_.map (stackMaskKey bits))).length →
        (s.PrepareStackMasks bits).2.stack_masks_.getD j 0
          = (distinctKeys (s.stack_maps_.map (stackMaskKey bits))).getD j 0)
    ∧ (s.PrepareStackMasks bits).2.register_masks_ = s.register_masks_ := by
  obtain ⟨ts, hseq, hslen, hspre⟩ :=
    internFold_full_spec (stackMaskKey bits)
      (fun e j => { e with stack_mask_index := j }) s.stack_maps_
      (resizeList s.stack_masks_ s.stack_maps_.length 0)
      (resizeList_length _ _ _)
  have hS : s.PrepareStackMasks bits
      = ((assocIdx (distinctKeys (s.stack_maps_.map (stackMaskKey bits)))).length,
         { s with
           stack_maps_ := s.stack_maps_.map (fun x =>
             { x with stack_mask_index := (List.indexOf (stackMaskKey bits x)
                 (distinctKeys (s.stack_maps_.map (stackMaskKey bits)))) }),
           stack_masks_ := ts }) := by
    simp only [StackMapStream.PrepareStackMasks]
    rw [hseq]
  refine ⟨?_, ?_, ?_, ?_, ?_⟩
  · rw [hS, assocIdx_length]
  · rw [hS]
  · rw [hS]
    exact hslen
  · intro j hj
    rw [hS]
    exact hspre j hj
  · rw [hS]

/-- The guard, map-field and table-field content of a successful
PrepareForFillIn, beyond prepareForFillIn_shape. -/
theorem prepareForFillIn_fields {s : StackMapStream} {sz : Nat} {s2 : StackMapStream}
    (h : s.PrepareForFillIn = some (sz, s2)) :
    s.ComputeInlineInfoMaxima.2 = s.inline_infos_.length
    ∧ s2.stack_maps_
        = ((s.PrepareStackMasks (s.stack_mask_max_ + 1).toNat).2.PrepareRegisterMasks).2.stack_maps_
    ∧ s2.register_masks_
        = ((s.PrepareStackMasks (s.stack_mask_max_ + 1).toNat).2.PrepareRegisterMasks).2.register_masks_
    ∧ s2.stack_masks_
        = ((s.PrepareStackMasks (s.stack_mask_max_ + 1).toNat).2.PrepareRegisterMasks).2.stack_masks_ := by
  unfold StackMapStream.PrepareForFillIn at h
  split at h
  · exact Option.noConfusion h
  · rename_i hm
    rw [Decidable.not_not] at hm
    simp only [] at h
    split at h
    · exact Option.noConfusion h
    · rw [Option.some.injEq, Prod.mk.injEq] at h
      obtain ⟨-, hs2⟩ := h
      subst hs2
      exact ⟨hm, rfl, rfl, rfl⟩

theorem stackMask_bits_check (num_bits v sm : Nat) (hsm : sm = v % 2 ^ num_bits) :
    (List.range num_bits).all (fun bit => sm.testBit bit == v.testBit bit) = true := by
  rw [List.all_eq_true]
  intro bit hb
  rw [List.mem_range] at hb
  rw [beq_iff_eq, hsm, Nat.testBit_mod_two_pow]
  simp [hb]

theorem stackMask_zero_check (num_bits : Nat) :
    (List.range num_bits).all (fun bit => (0 : Nat).testBit bit == false) = true := by
  rw [List.all_eq_true]
  intro bit _
  rw [beq_iff_eq, Nat.zero_testBit]

/-- The per-frame dex PC reads back exactly (the sentinel via the absent
field, a true dex PC via a store that fits its width). -/
theorem frame_dexpc_readback (enc : CodeInfoEncoding) (f : InlineInfoEntry)
    (r : InlineRecord)
    (hok : r.dex_pc_stored = storeOptField enc.inline_info_encoding.dex_pc_width
        (if f.dex_pc = kDexNoIndex then Option.none else some f.dex_pc))
    (hmax : f.dex_pc ≠ kDexNoIndex →
        f.dex_pc + 1 < 2 ^ enc.inline_info_encoding.dex_pc_width) :
    r.GetDexPcAtDepth = f.dex_pc := by
  unfold InlineRecord.GetDexPcAtDepth
  by_cases hpc : f.dex_pc = kDexNoIndex
  · rw [hok, if_pos hpc, decode_storeOpt_none]
    exact hpc.symm
  · rw [hok, if_neg hpc, decode_storeOpt_some _ _ (hmax hpc)]

/-- The per-frame method reference reads back exactly: an even ArtMethod
pointer is reassembled from its halves, a method index comes back with the
odd extra-data marker. -/
theorem frame_method_readback (enc : CodeInfoEncoding) (f : InlineInfoEntry)
    (r : InlineRecord)
    (hmi : r.method_index_stored
        = (match f.method with
           | some p => storeField enc.inline_info_encoding.method_index_width (High32Bits p)
           | Option.none =>
             storeField enc.inline_info_encoding.method_index_width f.method_index))
    (hed : r.extra_data_stored
        = (match f.method with
           | some p => storeField enc.inline_info_encoding.extra_data_width (Low32Bits p)
           | Option.none => storeField enc.inline_info_encoding.extra_data_width 1))
    (hmaxp : ∀ p, f.method = some p →
        High32Bits p < 2 ^ enc.inline_info_encoding.method_index_width
        ∧ Low32Bits p < 2 ^ enc.inline_info_encoding.extra_data_width)
    (hmaxn : f.method = Option.none →
        f.method_index < 2 ^ enc.inline_info_encoding.method_index_width
        ∧ 1 < 2 ^ enc.inline_info_encoding.extra_data_width)
    (hp64 : ∀ p, f.method = some p → p < 2 ^ 64)
    (heven : ∀ p, f.method = some p → p % 2 = 0) :
    (if r.EncodesArtMethodAtDepth then decide (r.GetArtMethodAtDepth = f.method.getD 0)
     else decide (r.GetMethodIndexAtDepth = f.method_index)) = true := by
  cases hm : f.method with
  | some p =>
    rw [hm] at hmi hed
    have hp := hmaxp p hm
    have hed2 : r.extra_data_stored = Low32Bits p := by
      rw [hed]
      exact storeField_eq _ _ hp.2
    have hmi2 : r.method_index_stored = High32Bits p := by
      rw [hmi]
      exact storeField_eq _ _ hp.1
    have henc : r.EncodesArtMethodAtDepth = true := by
      unfold InlineRecord.EncodesArtMethodAtDepth
      rw [hed2]
      simp [low_parity p, heven p hm]
    rw [if_pos henc, decide_eq_true_eq]
    unfold InlineRecord.GetArtMethodAtDepth
    rw [hed2, hmi2, Option.getD_some]
    exact high_low_eq p (hp64 p hm)
  | none =>
    rw [hm] at hmi hed
    have hn := hmaxn hm
    have hed2 : r.extra_data_stored = 1 := by
      rw [hed]
      exact storeField_eq _ _ hn.2
    have henc : r.EncodesArtMethodAtDepth = false := by
      unfold InlineRecord.EncodesArtMethodAtDepth
      rw [hed2]
      simp
    rw [if_neg (by rw [henc]; exact Bool.false_ne_true), decide_eq_true_eq]
    unfold InlineRecord.GetMethodIndexAtDepth
    rw [hmi]
    exact storeField_eq _ _ hn.1

theorem checkDexRegisterMap_live (s : StackMapStream) (b : CodeInfoBlob)
    (N m start : Nat) (hN : N ≠ 0)
    (hw : start + popcount m ≤ s.dex_register_locations_.length)
    (hcatalog : ∀ idx ∈ s.dex_register_locations_, idx < s.location_catalog_entries_.length)
    (hkinds : ∀ loc ∈ s.location_catalog_entries_, loc.kind.isShort = true)
    (hbcat : b.catalog = s.location_catalog_entries_) :
    s.CheckDexRegisterMap b (some (canonMap s (some m) start)) N (some m) start = true := by
  unfold StackMapStream.CheckDexRegisterMap
  rw [if_neg (by intro hc; exact Option.noConfusion hc.2)]
  simp only []
  rw [checkFold_live s b m start hw hcatalog hkinds hbcat N]
  simp [hN]

/-- The two interning passes composed (PrepareStackMasks, then
PrepareRegisterMasks), as PrepareForFillIn runs them: each entry gets both
indices, each index resolves through its table to the original key. -/
theorem prepare_both_entry (s : StackMapStream) (bits : Nat) :
    ((s.PrepareStackMasks bits).2.PrepareRegisterMasks).2.stack_maps_.length
        = s.stack_maps_.length
    ∧ (∀ i, i < s.stack_maps_.length →
        ((s.PrepareStackMasks bits).2.PrepareRegisterMasks).2.stack_maps_.getD i {}
            = { s.stack_maps_.getD i {} with
                register_mask_index := (List.indexOf ((s.stack_maps_.getD i {}).register_mask)
                  (distinctKeys (s.stack_maps_.map (fun e => e.register_mask)))),
                stack_mask_index := (List.indexOf (stackMaskKey bits (s.stack_maps_.getD i {}))
                  (distinctKeys (s.stack_maps_.map (stackMaskKey bits)))) })
    ∧ ((s.PrepareStackMasks bits).2.PrepareRegisterMasks).1
        = (distinctKeys (s.stack_maps_.map (fun e => e.register_mask))).length
    ∧ (∀ j, j < (distinctKeys (s.stack_maps_.map (fun e => e.register_mask))).length →
        ((s.PrepareStackMasks bits).2.PrepareRegisterMasks).2.register_masks_.getD j 0
          = (distinctKeys (s.stack_maps_.map (fun e => e.register_mask))).getD j 0)
    ∧ ((s.PrepareStackMasks bits).2.PrepareRegisterMasks).2.register_masks_.length
        = s.stack_maps_.length
    ∧ (s.PrepareStackMasks bits).1
        = (distinctKeys (s.stack_maps_.map (stackMaskKey bits))).length
    ∧ (∀ j, j < (distinctKeys (s.stack_maps_.map (stackMaskKey bits))).length →
        ((s.PrepareStackMasks bits).2.PrepareRegisterMasks).2.stack_masks_.getD j 0
          = (distinctKeys (s.stack_maps_.map (stackMaskKey bits))).getD j 0)
    ∧ ((s.PrepareStackMasks bits).2.PrepareRegisterMasks).2.stack_masks_.length
        = s.stack_maps_.length := by
  obtain ⟨hS1, hS2, hS3, hS4, hS5⟩ := prepareStackMasks_spec s bits
  obtain ⟨hR1, hR2, hR3, hR4, hR5⟩ :=
    prepareRegisterMasks_spec (s.PrepareStackMasks bits).2
  have hkeysR : (s.PrepareStackMasks bits).2.stack_maps_.map (fun e => e.register_mask)
      = s.stack_maps_.map (fun e => e.register_mask) := by
    rw [hS2, List.map_map]
    rfl
  have hlen1 : (s.PrepareStackMasks bits).2.stack_maps_.length = s.stack_maps_.length := by
    rw [hS2, List.length_map]
  rw [hkeysR] at hR1 hR2 hR4
  refine ⟨?_, ?_, hR1, hR4, ?_, hS1, ?_, ?_⟩
  · rw [hR2, List.length_map, hlen1]
  · intro i hi
    have hi1 : i < (s.PrepareStackMasks bits).2.stack_maps_.length := by
      rw [hlen1]
      exact hi
    rw [hR2, getD_map_lt _ _ i ({} : StackMapEntry) ({} : StackMapEntry) hi1, hS2,
      getD_map_lt _ _ i ({} : StackMapEntry) ({} : StackMapEntry) hi]
  · rw [hR3, hlen1]
  · intro j hj
    rw [hR5]
    exact hS4 j hj
  · rw [hR5, hS3]

theorem stackMaskKey_lt (bits : Nat) (e : StackMapEntry) :
    stackMaskKey bits e < 2 ^ bits := by
  unfold stackMaskKey
  split
  · exact Nat.mod_lt _ (pow_pos (by norm_num) _)
  · exact pow_pos (by norm_num) _

/-- Readback of one outer dex-register map from its RecOK offset facts. -/
theorem outer_map_check (s2 : StackMapStream) (blob : CodeInfoBlob)
    (e : StackMapEntry) (r : StackMapRecord)
    (hmask_iff : e.num_dex_registers = 0 ↔ e.live_dex_registers_mask = Option.none)
    (hw : e.dex_register_locations_start_index
        + popcount (e.live_dex_registers_mask.getD 0) ≤ s2.dex_register_locations_.length)
    (hcatalog : ∀ idx ∈ s2.dex_register_locations_,
        idx < s2.location_catalog_entries_.length)
    (hkinds : ∀ loc ∈ s2.location_catalog_entries_, loc.kind.isShort = true)
    (hbcat : blob.catalog = s2.location_catalog_entries_)
    (h7 : decodeOptField r.map_offset_stored = Option.none ↔ deadMap e)
    (h8 : ∀ off, decodeOptField r.map_offset_stored = some off →
        lookupAssoc blob.dex_maps off
          = some (canonMap s2 e.live_dex_registers_mask
              e.dex_register_locations_start_index)) :
    s2.CheckDexRegisterMap blob (blob.GetDexRegisterMapOf r) e.num_dex_registers
      e.live_dex_registers_mask e.dex_register_locations_start_index = true := by
  by_cases hN : e.num_dex_registers = 0
  · have hdm : blob.GetDexRegisterMapOf r = Option.none := by
      unfold CodeInfoBlob.GetDexRegisterMapOf StackMapRecord.GetDexRegisterMapOffset
      rw [h7.mpr (Or.inl hN)]
    rw [hdm, hN]
    exact checkDexRegisterMap_zero s2 blob _ _
  · cases hm : e.live_dex_registers_mask with
    | none => exact absurd (hmask_iff.mpr hm) hN
    | some m =>
      by_cases hpop : popcount m = 0
      · have hz : m = 0 := popcount_eq_zero hpop
        have hdm : blob.GetDexRegisterMapOf r = Option.none := by
          unfold CodeInfoBlob.GetDexRegisterMapOf StackMapRecord.GetDexRegisterMapOffset
          rw [h7.mpr (Or.inr (by rw [hm, Option.getD_some]; exact hpop))]
        rw [hdm, hz]
        exact checkDexRegisterMap_dead s2 blob _ _ hN
      · have hdead : ¬ deadMap e := by
          intro hd
          cases hd with
          | inl h0 => exact hN h0
          | inr h0 =>
            rw [hm, Option.getD_some] at h0
            exact hpop h0
        cases hdec : decodeOptField r.map_offset_stored with
        | none => exact absurd (h7.mp hdec) hdead
        | some off =>
          have hdm : blob.GetDexRegisterMapOf r
              = some (canonMap s2 e.live_dex_registers_mask
                  e.dex_register_locations_start_index) := by
            unfold CodeInfoBlob.GetDexRegisterMapOf StackMapRecord.GetDexRegisterMapOffset
            rw [hdec]
            exact h8 off hdec
          rw [hdm, hm]
          rw [hm] at hw
          rw [Option.getD_some] at hw
          exact checkDexRegisterMap_live s2 blob _ m _ hN hw hcatalog hkinds hbcat

/-- Readback of one inline frame's dex-register map from its FrameOK
offset facts. -/
theorem frame_map_check (s2 : StackMapStream) (blob : CodeInfoBlob)
    (enc : CodeInfoEncoding) (f : InlineInfoEntry) (r : InlineRecord)
    (hmask_iff : f.num_dex_registers = 0 ↔ f.live_dex_registers_mask = Option.none)
    (hw : f.dex_register_locations_start_index
        + popcount (f.live_dex_registers_mask.getD 0) ≤ s2.dex_register_locations_.length)
    (hcatalog : ∀ idx ∈ s2.dex_register_locations_,
        idx < s2.location_catalog_entries_.length)
    (hkinds : ∀ loc ∈ s2.location_catalog_entries_, loc.kind.isShort = true)
    (hbcat : blob.catalog = s2.location_catalog_entries_)
    (hz : f.num_dex_registers = 0 → r.map_offset_stored = 0)
    (hnz : f.num_dex_registers ≠ 0 → ∃ off,
        r.map_offset_stored
            = storeOptField enc.inline_info_encoding.map_offset_width (some off)
          ∧ off < enc.dex_register_map_bytes
          ∧ lookupAssoc blob.dex_maps off
              = some (canonMap s2 f.live_dex_registers_mask
                  f.dex_register_locations_start_index))
    (hbw2 : enc.dex_register_map_bytes < 2 ^ enc.inline_info_encoding.map_offset_width) :
    s2.CheckDexRegisterMap blob (blob.GetDexRegisterMapAtDepth r) f.num_dex_registers
      f.live_dex_registers_mask f.dex_register_locations_start_index = true := by
  by_cases hN : f.num_dex_registers = 0
  · have hdm : blob.GetDexRegisterMapAtDepth r = Option.none := by
      unfold CodeInfoBlob.GetDexRegisterMapAtDepth
      rw [hz hN]
      rfl
    rw [hdm, hN]
    exact checkDexRegisterMap_zero s2 blob _ _
  · obtain ⟨off, h1, h2, h3⟩ := hnz hN
    cases hm : f.live_dex_registers_mask with
    | none => exact absurd (hmask_iff.mpr hm) hN
    | some m =>
      have hdm : blob.GetDexRegisterMapAtDepth r
          = some (canonMap s2 f.live_dex_registers_mask
              f.dex_register_locations_start_index) := by
        unfold CodeInfoBlob.GetDexRegisterMapAtDepth
        rw [h1, decode_storeOpt_some _ _ (by omega)]
        exact h3
      rw [hdm, hm]
      rw [hm, Option.getD_some] at hw
      exact checkDexRegisterMap_live s2 blob _ m _ hN hw hcatalog hkinds hbcat

/-- C1: for every legal sequence of streaming operations (every debug
assertion passes, i.e. runOps succeeds) followed by a successful
PrepareForFillIn and FillIn, and with every inline ArtMethod pointer even
(pointer alignment), the written blob decodes back to the original logical
content: the readback verifier CheckCodeInfo confirms, for every stack
map, the dex PC, the native PC offset under the instruction-set alignment,
the register-mask index and the dereferenced register mask, the stack-mask
index and the bit-exact stack mask (an absent source mask reads back as
all zeros), the dex-register map contents per register position, the
inlining depth, and per inline frame the method-or-index, extra data, dex
PC and dex-register map. -/
theorem fillIn_readback_verifies (align : Nat) (ops : List StreamOp)
    (s : StackMapStream) (hrun : runOps (initialStream align) ops = some s)
    (sz : Nat) (s2 : StackMapStream) (hprep : s.PrepareForFillIn = some (sz, s2))
    (blob : CodeInfoBlob) (hfill : s2.FillIn = some blob)
    (heven : ∀ f ∈ s.inline_infos_, ∀ p, f.method = some p → p % 2 = 0) :
    s2.CheckCodeInfo blob = true := by
  have hinv2 : StreamInv s2 :=
    streamInv_prepare (streamInv_runOps ops (initialStream align) s
      (streamInv_initial align) hrun) hprep
  obtain ⟨-, hcode, hleneq, -, hlocs, hinl, hcat, -, -, -, -, hdmax, hrmax, hsmax,
    -, -, -, -⟩ := prepareForFillIn_shape hprep
  obtain ⟨hmax2, hmaps2, hrtab, hstab⟩ := prepareForFillIn_fields hprep
  obtain ⟨hpb1, hpb2, hpb3, hpb4, hpb5, hpb6, hpb7, hpb8⟩ :=
    prepare_both_entry s (s.stack_mask_max_ + 1).toNat
  have hkinds : ∀ loc ∈ s2.location_catalog_entries_, loc.kind.isShort = true := by
    rw [hcat]
    exact catalogKinds_runOps ops (initialStream align) s
      (fun loc hl => absurd hl (List.not_mem_nil loc)) hrun
  have hframefacts : ∀ fidx, fidx < s.inline_infos_.length →
      frameMaxFacts s.ComputeInlineInfoMaxima.1 (s2.inline_infos_.getD fidx {}) := by
    intro fidx hf
    rw [hinl]
    exact maxima_frame_facts s fidx (by rw [hmax2]; exact hf)
  have hsme : s.prepareEncoding.stack_map_encoding
      = StackMapEncoding.SetFromSizes s.ComputeMaxNativePcCodeOffset s.dex_pc_max_
          s.ComputeDexRegisterMapsSize s.inline_infos_.length
          ((s.PrepareStackMasks (s.stack_mask_max_ + 1).toNat).2.PrepareRegisterMasks).1
          (s.PrepareStackMasks (s.stack_mask_max_ + 1).toNat).1 := rfl
  have hbits_r : s.prepareEncoding.register_mask_bits
      = MinimumBitsToStore s.register_mask_max_ := rfl
  have hcnt_r : s.prepareEncoding.register_mask_entries
      = ((s.PrepareStackMasks (s.stack_mask_max_ + 1).toNat).2.PrepareRegisterMasks).1 := rfl
  have hbits_s : s.prepareEncoding.stack_mask_bits = (s.stack_mask_max_ + 1).toNat := rfl
  have hcnt_s : s.prepareEncoding.stack_mask_entries
      = (s.PrepareStackMasks (s.stack_mask_max_ + 1).toNat).1 := rfl
  have hDRle : (distinctKeys (s.stack_maps_.map (fun e => e.register_mask))).length
      ≤ s.stack_maps_.length := by
    have h := distinctKeys_length_le (s.stack_maps_.map (fun e => e.register_mask))
    rwa [List.length_map] at h
  have hDSle : (distinctKeys
        (s.stack_maps_.map (stackMaskKey (s.stack_mask_max_ + 1).toNat))).length
      ≤ s.stack_maps_.length := by
    have h := distinctKeys_length_le
      (s.stack_maps_.map (stackMaskKey (s.stack_mask_max_ + 1).toNat))
    rwa [List.length_map] at h
  unfold StackMapStream.FillIn at hfill
  split at hfill
  · exact Option.noConfusion hfill
  · split at hfill
    · exact Option.noConfusion hfill
    · rw [hcode, decompress_compress] at hfill
      dsimp only at hfill
      split at hfill
      · exact Option.noConfusion hfill
      · rename_i hentcnt
        rw [Decidable.not_not] at hentcnt
        split at hfill
        · exact Option.noConfusion hfill
        · split at hfill
          · exact Option.noConfusion hfill
          · rename_i acc hacc
            rw [Option.some.injEq] at hfill
            subst hfill
            have hbw : s.prepareEncoding.dex_register_map_bytes
                < 2 ^ s.prepareEncoding.stack_map_encoding.map_offset_width := by
              show s.ComputeDexRegisterMapsSize
                  < 2 ^ MinimumBitsToStore s.ComputeDexRegisterMapsSize
              exact lt_two_pow_minimumBits (Nat.le_refl _)
            have hsame2 : ∀ i, i < s2.stack_maps_.length → ∀ j,
                (s2.stack_maps_.getD i {}).same_dex_register_map_as_ = some j →
                j < i ∧ EqDexMaps s2.dex_register_locations_ (s2.stack_maps_.getD j {})
                  (s2.stack_maps_.getD i {}) := by
              intro i hi j hj
              obtain ⟨h1, -, h3⟩ := hinv2.same i hi j hj
              exact ⟨h1, h3⟩
            have hwf2 : ∀ i, i < s2.stack_maps_.length →
                (s2.stack_maps_.getD i {}).dex_register_locations_start_index
                    + popcount (((s2.stack_maps_.getD i {}).live_dex_registers_mask).getD 0)
                  ≤ s2.dex_register_locations_.length := by
              intro i hi
              exact (hinv2.entries _ (getD_mem_of_lt _ _ hi)).window
            have hinv0 : FillInv s2 s.prepareEncoding 0 {} := by
              refine ⟨rfl, rfl, ?_, ?_, ?_⟩
              · intro p hp
                exact absurd hp (List.not_mem_nil p)
              · intro i hi
                omega
              · intro i hi
                omega
            obtain ⟨hlenacc, hilen, hkeys, hrecs, hframes⟩ :=
              fillIn_fold_inv s2 s.prepareEncoding hbw hsame2 hwf2
                s2.stack_maps_ [] {} acc (List.nil_append _).symm hinv0 hacc
            unfold StackMapStream.CheckCodeInfo
            rw [Bool.and_eq_true]
            constructor
            · rw [decide_eq_true_eq]
              show s.prepareEncoding.stack_map_entries = s2.stack_maps_.length
              exact hentcnt
            · rw [List.all_eq_true]
              intro i hi0
              rw [List.mem_range] at hi0
              have hi : i < s.stack_maps_.length := by
                rw [← hleneq]
                exact hi0
              obtain ⟨hr1, hr2, hr3, hr4, hr5, hr6, hr7, hr8⟩ := hrecs i hi0
              rw [hsme] at hr1 hr2 hr3 hr4 hr5
              simp only [StackMapEncoding.SetFromSizes] at hr1 hr2 hr3 hr4 hr5
              have hwfe := hinv2.entries _ (getD_mem_of_lt _ {} hi0)
              have hent : s2.stack_maps_.getD i {} = { s.stack_maps_.getD i {} with
                  register_mask_index := (List.indexOf
                    ((s.stack_maps_.getD i {}).register_mask)
                    (distinctKeys (s.stack_maps_.map (fun e => e.register_mask)))),
                  stack_mask_index := (List.indexOf
                    (stackMaskKey (s.stack_mask_max_ + 1).toNat (s.stack_maps_.getD i {}))
                    (distinctKeys
                      (s.stack_maps_.map (stackMaskKey (s.stack_mask_max_ + 1).toNat)))) } := by
                rw [hmaps2]
                exact hpb2 i hi
              have hermi : (s2.stack_maps_.getD i {}).register_mask_index
                  = List.indexOf ((s.stack_maps_.getD i {}).register_mask)
                      (distinctKeys (s.stack_maps_.map (fun e => e.register_mask))) := by
                rw [hent]
              have hesmi : (s2.stack_maps_.getD i {}).stack_mask_index
                  = List.indexOf
                      (stackMaskKey (s.stack_mask_max_ + 1).toNat (s.stack_maps_.getD i {}))
                      (distinctKeys
                        (s.stack_maps_.map (stackMaskKey (s.stack_mask_max_ + 1).toNat))) := by
                rw [hent]
              have herm : (s2.stack_maps_.getD i {}).register_mask
                  = (s.stack_maps_.getD i {}).register_mask := by
                rw [hent]
              have hesp : (s2.stack_maps_.getD i {}).sp_mask
                  = (s.stack_maps_.getD i {}).sp_mask := by
                rw [hent]
              have henat : (s2.stack_maps_.getD i {}).native_pc_code_offset
                  = (s.stack_maps_.getD i {}).native_pc_code_offset := by
                rw [hent]
              have hrmem : (s.stack_maps_.getD i {}).register_mask
                  ∈ distinctKeys (s.stack_maps_.map (fun e => e.register_mask)) := by
                rw [mem_distinctKeys, List.getD_eq_getElem _ _ hi]
                exact List.mem_map_of_mem _ (List.getElem_mem hi)
              have hsmem : stackMaskKey (s.stack_mask_max_ + 1).toNat (s.stack_maps_.getD i {})
                  ∈ distinctKeys
                    (s.stack_maps_.map (stackMaskKey (s.stack_mask_max_ + 1).toNat)) := by
                rw [mem_distinctKeys, List.getD_eq_getElem _ _ hi]
                exact List.mem_map_of_mem _ (List.getElem_mem hi)
              have haRlt := List.indexOf_lt_length.mpr hrmem
              have hbSlt := List.indexOf_lt_length.mpr hsmem
              have hsn : (acc.records.getD i {}).native_pc_stored
                  = (s2.stack_maps_.getD i {}).native_pc_code_offset := by
                rw [hr1]
                refine storeField_eq _ _ (lt_two_pow_minimumBits ?_)
                rw [henat]
                exact foldl_max_le _ _ 0 _ (getD_mem_of_lt _ {} hi)
              have hsd : (acc.records.getD i {}).dex_pc_stored
                  = (s2.stack_maps_.getD i {}).dex_pc := by
                rw [hr2]
                refine storeField_eq _ _ (lt_two_pow_minimumBits ?_)
                rw [← hdmax]
                exact hwfe.dex_pc_le
              have hsr : (acc.records.getD i {}).register_mask_index_stored
                  = (s2.stack_maps_.getD i {}).register_mask_index := by
                rw [hr3]
                refine storeField_eq _ _ (lt_two_pow_minimumBits ?_)
                rw [hermi, hpb3]
                exact Nat.le_of_lt haRlt
              have hss : (acc.records.getD i {}).stack_mask_index_stored
                  = (s2.stack_maps_.getD i {}).stack_mask_index := by
                rw [hr4]
                refine storeField_eq _ _ (lt_two_pow_minimumBits ?_)
                rw [hesmi, hpb6]
                exact Nat.le_of_lt hbSlt
              simp only [CodeInfoBlob.GetStackMapAt, StackMapRecord.GetNativePcOffset,
                StackMapRecord.GetDexPc, StackMapRecord.GetRegisterMaskIndex,
                StackMapRecord.GetStackMaskIndex, StackMapRecord.GetInlineInfoIndex,
                CodeInfoBlob.GetRegisterMaskOf, CodeInfoBlob.GetStackMaskOf,
                Bool.and_eq_true, decide_eq_true_eq]
              refine ⟨⟨⟨⟨⟨⟨⟨⟨?_, ?_⟩, ?_⟩, ?_⟩, ?_⟩, ?_⟩, ?_⟩, ?_⟩, ?_⟩
              · rw [hsn]
              · exact hsd
              · exact hsr
              · rw [hsr, hermi, hcnt_r, hpb3, hbits_r]
                have hlR : List.indexOf ((s.stack_maps_.getD i {}).register_mask)
                    (distinctKeys (s.stack_maps_.map (fun e => e.register_mask)))
                    < s2.register_masks_.length := by
                  rw [hrtab, hpb5]
                  omega
                rw [getD_take_map _ _ _ _ haRlt hlR, hrtab, hpb4 _ haRlt,
                  getD_distinctKeys_indexOf _ _ hrmem]
                have hrmle : (s.stack_maps_.getD i {}).register_mask
                    ≤ s.register_mask_max_ := by
                  rw [← herm, ← hrmax]
                  exact hwfe.rm_le
                rw [storeField_eq _ _ (lt_two_pow_minimumBits hrmle)]
                exact herm.symm
              · exact hss
              · have hsmv : ((s2.stack_masks_.take s.prepareEncoding.stack_mask_entries).map
                      (fun v => v % 2 ^ s.prepareEncoding.stack_mask_bits)).getD
                      ((acc.records.getD i {}).stack_mask_index_stored) 0
                    = stackMaskKey (s.stack_mask_max_ + 1).toNat (s.stack_maps_.getD i {}) := by
                  rw [hss, hesmi, hcnt_s, hpb6, hbits_s]
                  have hlS : List.indexOf
                      (stackMaskKey (s.stack_mask_max_ + 1).toNat (s.stack_maps_.getD i {}))
                      (distinctKeys
                        (s.stack_maps_.map (stackMaskKey (s.stack_mask_max_ + 1).toNat)))
                      < s2.stack_masks_.length := by
                    rw [hstab, hpb8]
                    omega
                  rw [getD_take_map _ _ _ _ hbSlt hlS, hstab, hpb7 _ hbSlt,
                    getD_distinctKeys_indexOf _ _ hsmem]
                  exact Nat.mod_eq_of_lt (stackMaskKey_lt _ _)
                cases hspm : (s2.stack_maps_.getD i {}).sp_mask with
                | some v =>
                  rw [Bool.and_eq_true]
                  constructor
                  · rw [decide_eq_true_eq]
                    show numberOfBits v ≤ (s.stack_mask_max_ + 1).toNat
                    refine numberOfBits_le_toNat ?_
                    rw [← hsmax]
                    exact hwfe.sp_le v hspm
                  · rw [hsmv]
                    refine stackMask_bits_check _ v _ ?_
                    unfold stackMaskKey
                    rw [← hesp, hspm]
                    rfl
                | none =>
                  rw [hsmv]
                  have hz : stackMaskKey (s.stack_mask_max_ + 1).toNat
                      (s.stack_maps_.getD i {}) = 0 := by
                    unfold stackMaskKey
                    rw [← hesp, hspm]
                  rw [hz]
                  exact stackMask_zero_check _
              · refine outer_map_check s2 _ (s2.stack_maps_.getD i {})
                  (acc.records.getD i {}) hwfe.mask_iff (hwf2 i hi0)
                  hinv2.catalogBound hkinds rfl hr7 ?_
                intro off hoff
                exact hr8 off hoff
              · rw [eq_iff_iff]
                by_cases hdep : (s2.stack_maps_.getD i {}).inlining_depth ≠ 0
                · obtain ⟨hw1, hw2, hw3⟩ := hframes i hi0 hdep
                  have hiidx : (s2.stack_maps_.getD i {}).inline_infos_start_index + 1
                      ≤ s.inline_infos_.length := by
                    rw [hinl] at hw2
                    omega
                  have hdecio : decodeOptField ((acc.records.getD i {}).inline_index_stored)
                      = some ((s2.stack_maps_.getD i {}).inline_infos_start_index) := by
                    rw [hr5, if_pos hdep]
                    exact decode_storeOpt_some _ _ (lt_two_pow_minimumBits hiidx)
                  rw [hdecio]
                  constructor
                  · intro _
                    exact hdep
                  · intro _
                    exact fun hc => Option.noConfusion hc
                · rw [hr5, if_neg hdep]
                  constructor
                  · intro hc
                    exact absurd rfl hc
                  · intro hc
                    exact absurd hc hdep
              · by_cases hdep : (s2.stack_maps_.getD i {}).inlining_depth ≠ 0
                · obtain ⟨hw1, hw2, hw3⟩ := hframes i hi0 hdep
                  have hiidx : (s2.stack_maps_.getD i {}).inline_infos_start_index + 1
                      ≤ s.inline_infos_.length := by
                    rw [hinl] at hw2
                    omega
                  have hdecio : decodeOptField ((acc.records.getD i {}).inline_index_stored)
                      = some ((s2.stack_maps_.getD i {}).inline_infos_start_index) := by
                    rw [hr5, if_pos hdep]
                    exact decode_storeOpt_some _ _ (lt_two_pow_minimumBits hiidx)
                  rw [if_pos hdep, hdecio]
                  dsimp only
                  rw [Bool.and_eq_true]
                  constructor
                  · rw [decide_eq_true_eq]
                    have hfr0 := hw3 0 (by omega)
                    rw [Nat.add_zero] at hfr0
                    show (acc.inline_records.getD
                        ((s2.stack_maps_.getD i {}).inline_infos_start_index) {}).depth_stored
                      = (s2.stack_maps_.getD i {}).inlining_depth
                    rw [hfr0.1, if_pos rfl]
                    exact storeField_eq _ _ hwfe.depth_lt
                  · rw [List.all_eq_true]
                    intro d hd0
                    rw [List.mem_range] at hd0
                    have hfr := hw3 d hd0
                    have hflen : (s2.stack_maps_.getD i {}).inline_infos_start_index + d
                        < s.inline_infos_.length := by
                      rw [hinl] at hw2
                      omega
                    have hflen2 : (s2.stack_maps_.getD i {}).inline_infos_start_index + d
                        < s2.inline_infos_.length := by
                      rw [hinl]
                      exact hflen
                    rw [Nat.add_comm d ((s2.stack_maps_.getD i {}).inline_infos_start_index)]
                      at hfr
                    obtain ⟨hf1, hf2, hf3, hf4, hf5, hf6⟩ := hfr
                    have hmf := hframefacts _ hflen
                    have hiwf := hinv2.frames _ (getD_mem_of_lt _ {} hflen2)
                    simp only [Bool.and_eq_true, decide_eq_true_eq]
                    refine ⟨?_, ⟨?_, ?_⟩, ?_⟩
                    · exact hflen2
                    · refine frame_dexpc_readback s.prepareEncoding _ _ hf4 ?_
                      intro hpc
                      obtain ⟨hple, hnsent⟩ := hmf.2.2 hpc
                      show _ + 1 < 2 ^ (if s.ComputeInlineInfoMaxima.1.2.1 = kDexNoIndex
                          then 0 else MinimumBitsToStore (1 + s.ComputeInlineInfoMaxima.1.2.1))
                      rw [if_neg hnsent]
                      exact lt_two_pow_minimumBits (by omega)
                    · refine frame_method_readback s.prepareEncoding _ _ hf2 hf3 ?_ ?_ ?_ ?_
                      · intro p hp
                        obtain ⟨hhigh, hlow⟩ := hmf.1 p hp
                        exact ⟨lt_two_pow_minimumBits hhigh, lt_two_pow_minimumBits hlow⟩
                      · intro hp
                        obtain ⟨hmi, hone⟩ := hmf.2.1 hp
                        exact ⟨lt_two_pow_minimumBits hmi, lt_two_pow_minimumBits hone⟩
                      · intro p hp
                        exact hiwf.method_lt p hp
                      · intro p hp
                        have hmem : s2.inline_infos_.getD
                            ((s2.stack_maps_.getD i {}).inline_infos_start_index + d) {}
                            ∈ s.inline_infos_ := by
                          rw [← hinl]
                          exact getD_mem_of_lt _ {} hflen2
                        exact heven _ hmem p hp
                    · refine frame_map_check s2 _ s.prepareEncoding _ _ hiwf.mask_iff
                        hiwf.window hinv2.catalogBound hkinds rfl hf5 hf6 ?_
                      show s.ComputeDexRegisterMapsSize
                          < 2 ^ MinimumBitsToStore s.ComputeDexRegisterMapsSize
                      exact lt_two_pow_minimumBits (Nat.le_refl _)
                · rw [if_neg hdep]

/-- Scenario for the C1 witness: a stack map with a stack mask and two
live registers, then a stack map with two inline frames — one holding a
dex method index and a live register, one holding an (even) ArtMethod
pointer and no registers. -/
def c1ops : List StreamOp :=
  [StreamOp.beginEntry 1 4 3 (some 5) 2 0,
   StreamOp.addDexRegister DexRegisterKind.kConstant 7,
   StreamOp.addDexRegister DexRegisterKind.kInRegister 2,
   StreamOp.endEntry,
   StreamOp.beginEntry 2 8 3 Option.none 1 2,
   StreamOp.addDexRegister DexRegisterKind.kConstant 7,
   StreamOp.beginInline (InlineMethodRef.methodIndex 5) 3 1,
   StreamOp.addDexRegister DexRegisterKind.kInStack 4,
   StreamOp.endInline,
   StreamOp.beginInline (InlineMethodRef.ptr 6) 7 0,
   StreamOp.endInline,
   StreamOp.endEntry]

/-- The state the C1 witness scenario reaches. -/
def c1state : StackMapStream := (runOps (initialStream 1) c1ops).getD {}

/-- The C1 witness scenario after PrepareForFillIn. -/
def c1prep : Nat × StackMapStream := c1state.PrepareForFillIn.getD (0, {})

/-- The blob the C1 witness scenario writes. -/
def c1blob : CodeInfoBlob := c1prep.2.FillIn.getD {}

theorem fillIn_readback_verifies_witness :
    runOps (initialStream 1) c1ops = some c1state
    ∧ c1state.PrepareForFillIn = some (c1prep.1, c1prep.2)
    ∧ c1prep.2.FillIn = some c1blob
    ∧ (∀ f ∈ c1state.inline_infos_, ∀ p, f.method = some p → p % 2 = 0)
    ∧ c1prep.2.CheckCodeInfo c1blob = true :=
  ⟨by decide, by decide, by decide, by decide,
    fillIn_readback_verifies 1 c1ops c1state (by decide) c1prep.1 c1prep.2 (by decide)
      c1blob (by decide) (by decide)⟩

end art
